import Mathlib

/-!
The domain controller of cpp.react (`ReactiveDomain.h`).

A shallow embedding of `react::DomainBase` (turn ids, transactions, input
dispatch, continuation turns, deferred observer detachment) and of
`react::ContinuationInput`, followed by theorems about the embedding.

The statics of `DomainBase` are the fields of `State`; every function of the
source becomes a function from `State` to an `Outcome`. The engine, the nodes,
the observer registry and the user's closures are not part of the header: they
are the `Env` every theorem quantifies over, and every call the domain makes
to them is recorded in `State.trace`.
-/

namespace React

/-! ## Types -/

/-- Identity of a reactive node (`IReactiveNode*`). -/
abbrev NodeId := Nat

/-- Identity of an observer (`IObserverNode*`). -/
abbrev ObsId := Nat

/-- Input values handed to `AddInput`. -/
abbrev Value := Int

/-- The type `TurnIdT = uint`. -/
abbrev TurnIdT := Nat

/-- The type `TurnFlagsT = uint`. -/
abbrev TurnFlagsT := Nat

/-- Number of values of a 32-bit `uint`. -/
def UINT_RANGE : Nat := 4294967296

/-- The constant `INT_MAX` of a 32-bit `int`. -/
def INT_MAX : Nat := 2147483647

/-- The enumerator `enable_input_merging = 1 << 0` of `ETurnFlags`. -/
def enable_input_merging : Nat := 1 <<< 0

/-- Modelled from the spec: the result of `Tick`, one of idle and pulsed; the
header only names `ETickResult::pulsed`. -/
inductive ETickResult
  | idle
  | pulsed
  deriving DecidableEq, Repr

/-! ## ContinuationInput -/

/-- The class `ContinuationInput`: `bufferedInputs_` holds the closures in
insertion order. The closures are values of `κ`; what invoking one does is
given to `Execute`. -/
structure ContinuationInput (κ : Type) where
  bufferedInputs_ : List κ
  deriving DecidableEq, Repr

/-- A default-constructed `ContinuationInput`. -/
def ContinuationInput.empty {κ : Type} : ContinuationInput κ :=
  { bufferedInputs_ := [] }

/-- The method `IsEmpty`: `bufferedInputs_.size() == 0`. -/
def ContinuationInput.IsEmpty {κ : Type} (c : ContinuationInput κ) : Bool :=
  c.bufferedInputs_.length == 0

/-- The method `Add`: `bufferedInputs_.push_back(input)`. -/
def ContinuationInput.Add {κ : Type} (c : ContinuationInput κ) (input : κ) :
    ContinuationInput κ :=
  { bufferedInputs_ := c.bufferedInputs_ ++ [input] }

/-- The method `Execute`: `for (auto f : bufferedInputs_) f();` followed by
`bufferedInputs_.clear()`. A closure `f` runs as `call f` on the pair of the
buffer and the rest of the world `σ`, so it may itself append to the buffer;
the loop visits the elements present when it starts (the range-for fixes its
end iterator first), and `clear` then drops everything. -/
def ContinuationInput.Execute {κ σ : Type}
    (call : κ → ContinuationInput κ × σ → ContinuationInput κ × σ)
    (c : ContinuationInput κ) (w : σ) : ContinuationInput κ × σ :=
  let r := c.bufferedInputs_.foldl (fun acc f => call f acc) (c, w)
  ({ bufferedInputs_ := [] }, r.2)

/-! ## Turn ids -/

/-- The function `nextTurnId` on the value of the counter `nextTurnId_`:
`fetch_add(1)` returns the old value, and when that equals `INT_MAX` the
counter is decreased by `INT_MAX`. Both updates are 32-bit unsigned. The result
is the returned id and the new counter. -/
def nextTurnIdAt (counter : Nat) : Nat × Nat :=
  let curId := counter
  let counter1 := (counter + 1) % UINT_RANGE
  if curId = INT_MAX then
    (curId, (counter1 + UINT_RANGE - INT_MAX) % UINT_RANGE)
  else
    (curId, counter1)

/-- The ids returned by `n` consecutive calls of `nextTurnId`, the first made
when the counter is `counter`. -/
def issuedIds : Nat → Nat → List Nat
  | 0, _ => []
  | n + 1, counter => (nextTurnIdAt counter).1 :: issuedIds n (nextTurnIdAt counter).2

/-- The counter after `n` consecutive calls of `nextTurnId`. -/
def counterAfter : Nat → Nat → Nat
  | 0, counter => counter
  | n + 1, counter => counterAfter n (nextTurnIdAt counter).2

/-! ## Calls to the outside and the domain state -/

/-- The closure `[&r,v] { addTransactionInput(r, std::move(v)); }` that
`addContinuationInput` stores. -/
structure InputClosure where
  r : NodeId
  v : Value
  deriving DecidableEq, Repr

/-- Modelled from the spec: the engine's `TurnInterface`, which the header
constructs as `TurnT(id, flags)` and of which it reads `detachedObservers_`
and `continuation_`. -/
structure Turn where
  id : TurnIdT
  flags : TurnFlagsT
  detachedObservers_ : List ObsId
  continuation_ : ContinuationInput InputClosure
  deriving DecidableEq, Repr

/-- A turn object as the code holds it: where the object lives and the id it
was constructed with (`turn.Id()`). -/
structure TurnRef where
  addr : Nat
  id : TurnIdT
  deriving DecidableEq, Repr

/-- A call the domain makes to code outside the header. -/
inductive Call
  | tryMerge (merged : Bool)
  | turnCreate (id : TurnIdT) (flags : TurnFlagsT)
  | onTurnAdmissionStart (id : TurnIdT)
  | onTurnAdmissionEnd (id : TurnIdT)
  | nodeAddInput (r : NodeId) (v : Value)
  | nodeTick (r : NodeId) (id : TurnIdT) (result : Option ETickResult)
  | logTransactionBegin (id : TurnIdT)
  | onTurnPropagate (id : TurnIdT)
  | logTransactionEnd (id : TurnIdT)
  | unregister (o : ObsId)
  deriving DecidableEq, Repr

/-- A recorded call together with `transactionState_` as it was when the call
was made. -/
structure Event where
  call : Call
  active : Bool
  inputs : List NodeId
  deriving DecidableEq, Repr

/-- The struct `TransactionState`. -/
structure TransactionState where
  active : Bool := false
  inputs : List NodeId := []
  deriving DecidableEq, Repr

/-- What a user closure does as far as the domain sees it: calls of
`D::AddInput`, or an exception. -/
inductive UserCmd
  | addInput (r : NodeId) (v : Value)
  | fail
  deriving DecidableEq, Repr

/-- What `Engine().OnTurnPropagate(turn)` does as far as the domain sees it:
`D::SetCurrentContinuation(turn)`, `D::ClearCurrentContinuation()`, an observer
scheduling its detachment in `turn.detachedObservers_`, or user code. -/
inductive PropCmd
  | setCurrentContinuation
  | clearCurrentContinuation
  | detachObserver (o : ObsId)
  | user (c : UserCmd)
  deriving DecidableEq, Repr

/-- The statics of `DomainBase` (one thread), the turn objects by address, the
state `ext` of everything outside the header, and the record of calls.
`continuationHolder_` is the pointer held by `ContinuationHolder_`: `none` when
null, else the address of the turn object whose `continuation_` it points to. -/
structure State (ε : Type) where
  nextTurnId_ : Nat
  turnFlags_ : TurnFlagsT
  transactionState_ : TransactionState
  continuationHolder_ : Option Nat
  turns : Nat → Turn
  turnCount : Nat
  ext : ε
  trace : List Event

/-- The code outside the header: how each call changes the outside state, and
what the outside answers. `tick` is the result of `Tick` on an input node, which
commits the staged value, and `none` when it throws; user code runs inside the
engine's propagation, whose steps are the script `propagate`. -/
structure Env (ε : Type) where
  effect : Call → ε → ε
  tryMerge : List UserCmd → ε → Bool
  tick : NodeId → TurnIdT → ε → Option ETickResult
  propagate : TurnIdT → ε → List PropCmd

/-- How a call of a domain function ends: it returns, an exception leaves it
(the statics keep the state reached), or the recursion budget is used up. -/
inductive Outcome (ε : Type) (α : Type)
  | returned (a : α) (s : State ε)
  | threw (s : State ε)
  | outOfFuel

/-- Sequencing: the rest runs only after a normal return. -/
def Outcome.bind {ε α β : Type} (o : Outcome ε α) (k : α → State ε → Outcome ε β) :
    Outcome ε β :=
  match o with
  | .returned a s => k a s
  | .threw s => .threw s
  | .outOfFuel => .outOfFuel

/-- The state once the initialisers of the statics have run. -/
def State.init {ε : Type} (e : ε) : State ε :=
  { nextTurnId_ := 0
    turnFlags_ := 0
    transactionState_ := { active := false, inputs := [] }
    continuationHolder_ := none
    turns := fun _ => { id := 0, flags := 0, detachedObservers_ := [],
                        continuation_ := { bufferedInputs_ := [] } }
    turnCount := 0
    ext := e
    trace := [] }

/-- Record a call and let the outside react to it. -/
def emit {ε : Type} (env : Env ε) (c : Call) (s : State ε) : State ε :=
  { s with
    trace := s.trace ++ [{ call := c, active := s.transactionState_.active,
                           inputs := s.transactionState_.inputs }]
    ext := env.effect c s.ext }

/-- The assignment `transactionState_.active = b`. -/
def setActive {ε : Type} (b : Bool) (s : State ε) : State ε :=
  { s with transactionState_ := { s.transactionState_ with active := b } }

/-- The statement `transactionState_.inputs.clear()`. -/
def clearInputs {ε : Type} (s : State ε) : State ε :=
  { s with transactionState_ := { s.transactionState_ with inputs := [] } }

/-- Apply `f` to the turn object at `addr`. -/
def updateTurn {ε : Type} (addr : Nat) (f : Turn → Turn) (s : State ε) : State ε :=
  { s with turns := Function.update s.turns addr (f (s.turns addr)) }

/-! ## Options -/

/-- The value of an `int` argument when it is converted to `uint` for an
operation on `turnFlags_`. -/
def toUInt (v : Int) : Nat :=
  (v % 4294967296).toNat

/-- The specialisation `Set<ETurnFlags>(v)`: `turnFlags_ |= v`. -/
def Set {ε : Type} (v : Int) (s : State ε) : State ε :=
  { s with turnFlags_ := s.turnFlags_ ||| toUInt v }

/-- The specialisation `IsSet<ETurnFlags>(v)`: `(turnFlags_ & v) != 0`. -/
def IsSet {ε : Type} (v : Int) (s : State ε) : Bool :=
  (s.turnFlags_ &&& toUInt v) != 0

/-- The specialisation `Unset<ETurnFlags>(v)`: `turnFlags_ &= ~v`, the
complement of `v` as a 32-bit pattern. -/
def Unset {ε : Type} (v : Int) (s : State ε) : State ε :=
  { s with turnFlags_ := s.turnFlags_ &&& (UINT_RANGE - 1 - toUInt v) }

/-- The specialisation `Reset<ETurnFlags>()`: `turnFlags_ = 0`. -/
def Reset {ε : Type} (s : State ε) : State ε :=
  { s with turnFlags_ := 0 }

/-! ## Set/Clear continuation -/

/-- The function `SetCurrentContinuation`: the holder points to
`turn.continuation_`. -/
def SetCurrentContinuation {ε : Type} (turn : TurnRef) (s : State ε) : State ε :=
  { s with continuationHolder_ := some turn.addr }

/-- The function `ClearCurrentContinuation`: the holder is reset to null. -/
def ClearCurrentContinuation {ε : Type} (s : State ε) : State ε :=
  { s with continuationHolder_ := none }

/-! ## Turns -/

/-- The function `nextTurnId` on the domain state. -/
def nextTurnId {ε : Type} (s : State ε) : TurnIdT × State ε :=
  ((nextTurnIdAt s.nextTurnId_).1, { s with nextTurnId_ := (nextTurnIdAt s.nextTurnId_).2 })

/-- The function `makeTurn`: `TurnT(nextTurnId(), flags)`, a new turn object
with no detached observers and an empty continuation. -/
def makeTurn {ε : Type} (env : Env ε) (flags : TurnFlagsT) (s : State ε) :
    TurnRef × State ε :=
  let r := nextTurnId s
  let s1 := r.2
  let obj : Turn := { id := r.1, flags := flags, detachedObservers_ := [],
                      continuation_ := { bufferedInputs_ := [] } }
  let s2 : State ε := { s1 with turns := Function.update s1.turns s1.turnCount obj
                                turnCount := s1.turnCount + 1 }
  ({ addr := s1.turnCount, id := r.1 }, emit env (.turnCreate r.1 flags) s2)

/-! ## Inputs -/

/-- The function `addTransactionInput`: `r.AddInput(v)`, then
`transactionState_.inputs.push_back(&r)`. -/
def addTransactionInput {ε : Type} (env : Env ε) (r : NodeId) (v : Value) (s : State ε) :
    State ε :=
  let s1 := emit env (.nodeAddInput r v) s
  { s1 with transactionState_ :=
      { s1.transactionState_ with inputs := s1.transactionState_.inputs ++ [r] } }

/-- The function `addContinuationInput`: the closure is added to the buffer the
holder points to. `AddInput` calls it only when the holder is not null. -/
def addContinuationInput {ε : Type} (r : NodeId) (v : Value) (s : State ε) : State ε :=
  match s.continuationHolder_ with
  | some addr =>
    updateTurn addr (fun t => { t with continuation_ := t.continuation_.Add { r := r, v := v } }) s
  | none => s

/-- Run a user closure; `addInput` is `D::AddInput`. -/
def runUser {ε : Type} (addInput : NodeId → Value → State ε → Outcome ε Unit) :
    List UserCmd → State ε → Outcome ε Unit
  | [], s => .returned () s
  | .addInput r v :: rest, s => (addInput r v s).bind (fun _ s1 => runUser addInput rest s1)
  | .fail :: _, s => .threw s

/-- Run what the engine does during `OnTurnPropagate(turn)`. -/
def runEngine {ε : Type} (addInput : NodeId → Value → State ε → Outcome ε Unit)
    (turn : TurnRef) : List PropCmd → State ε → Outcome ε Unit
  | [], s => .returned () s
  | .setCurrentContinuation :: rest, s =>
    runEngine addInput turn rest (SetCurrentContinuation turn s)
  | .clearCurrentContinuation :: rest, s =>
    runEngine addInput turn rest (ClearCurrentContinuation s)
  | .detachObserver o :: rest, s =>
    runEngine addInput turn rest
      (updateTurn turn.addr (fun t => { t with detachedObservers_ := t.detachedObservers_ ++ [o] }) s)
  | .user c :: rest, s =>
    (runUser addInput [c] s).bind (fun _ s1 => runEngine addInput turn rest s1)

/-! ## EngineInterface -/

/-- The function `EngineInterface::TryMerge`. -/
def Engine.TryMerge {ε : Type} (env : Env ε) (func : List UserCmd) (s : State ε) :
    Bool × State ε :=
  (env.tryMerge func s.ext, emit env (.tryMerge (env.tryMerge func s.ext)) s)

/-- The function `EngineInterface::OnTurnAdmissionStart`. -/
def Engine.OnTurnAdmissionStart {ε : Type} (env : Env ε) (turn : TurnRef) (s : State ε) :
    State ε :=
  emit env (.onTurnAdmissionStart turn.id) s

/-- The function `EngineInterface::OnTurnAdmissionEnd`. -/
def Engine.OnTurnAdmissionEnd {ε : Type} (env : Env ε) (turn : TurnRef) (s : State ε) :
    State ε :=
  emit env (.onTurnAdmissionEnd turn.id) s

/-- The function `EngineInterface::OnTurnPropagate`: the begin record, the
engine's propagation, the end record. -/
def Engine.OnTurnPropagate {ε : Type} (env : Env ε)
    (addInput : NodeId → Value → State ε → Outcome ε Unit) (turn : TurnRef) (s : State ε) :
    Outcome ε Unit :=
  let s1 := emit env (.logTransactionBegin turn.id) s
  let s2 := emit env (.onTurnPropagate turn.id) s1
  (runEngine addInput turn (env.propagate turn.id s2.ext) s2).bind
    (fun _ s3 => .returned () (emit env (.logTransactionEnd turn.id) s3))

/-! ## Turn phases -/

/-- The loop `for (auto* p : transactionState_.inputs) if (p->Tick(&turn) ==
ETickResult::pulsed) shouldPropagate = true;` over the remaining nodes. -/
def tickInputs {ε : Type} (env : Env ε) (turn : TurnRef) :
    List NodeId → Bool → State ε → Outcome ε Bool
  | [], shouldPropagate, s => .returned shouldPropagate s
  | p :: rest, shouldPropagate, s =>
    match env.tick p turn.id s.ext with
    | none => .threw (emit env (.nodeTick p turn.id none) s)
    | some res =>
      tickInputs env turn rest (if res = ETickResult.pulsed then true else shouldPropagate)
        (emit env (.nodeTick p turn.id (some res)) s)

/-- The loop `for (auto* o : turn.detachedObservers_) Observers().Unregister(o);`. -/
def unregisterAll {ε : Type} (env : Env ε) : List ObsId → State ε → State ε
  | [], s => s
  | o :: rest, s => unregisterAll env rest (emit env (.unregister o) s)

/-- The call `cont.Execute()` of `processContinuations`: every closure runs
`addTransactionInput(r, v)`. -/
def executeContinuation {ε : Type} (env : Env ε) (cont : ContinuationInput InputClosure)
    (s : State ε) : State ε :=
  (cont.Execute (fun f acc => (acc.1, addTransactionInput env f.r f.v acc.2)) s).2

/-- The body of `while (true)` in `processContinuations`, once per unit of
fuel. -/
def processContinuationsLoop {ε : Type} (env : Env ε)
    (addInput : NodeId → Value → State ε → Outcome ε Unit) :
    Nat → ContinuationInput InputClosure → TurnFlagsT → State ε → Outcome ε Unit
  | 0, _, _, _ => .outOfFuel
  | fuel + 1, cont, flags, s =>
    let mk := makeTurn env flags s
    let turn := mk.1
    let s1 := setActive true mk.2
    let s2 := Engine.OnTurnAdmissionStart env turn s1
    let s3 := executeContinuation env cont s2
    let s4 := Engine.OnTurnAdmissionEnd env turn s3
    let s5 := setActive false s4
    (tickInputs env turn s5.transactionState_.inputs false s5).bind fun shouldPropagate s6 =>
    let s7 := clearInputs s6
    (if shouldPropagate then Engine.OnTurnPropagate env addInput turn s7
     else .returned () s7).bind fun _ s8 =>
    let s9 := unregisterAll env (s8.turns turn.addr).detachedObservers_ s8
    if (s9.turns turn.addr).continuation_.IsEmpty then .returned () s9
    else processContinuationsLoop env addInput fuel (s9.turns turn.addr).continuation_ flags s9

/-- The function `processContinuations`: `flags &= ~enable_input_merging`, then
the loop. -/
def processContinuations {ε : Type} (env : Env ε)
    (addInput : NodeId → Value → State ε → Outcome ε Unit) (fuel : Nat)
    (cont : ContinuationInput InputClosure) (flags : TurnFlagsT) (s : State ε) :
    Outcome ε Unit :=
  processContinuationsLoop env addInput fuel cont
    (flags &&& (UINT_RANGE - 1 - enable_input_merging)) s

/-- The function `postProcessTurn`. -/
def postProcessTurn {ε : Type} (env : Env ε)
    (addInput : NodeId → Value → State ε → Outcome ε Unit) (fuel : Nat)
    (turn : TurnRef) (s : State ε) : Outcome ε Unit :=
  let s1 := unregisterAll env (s.turns turn.addr).detachedObservers_ s
  if !(s1.turns turn.addr).continuation_.IsEmpty then
    processContinuations env addInput fuel (s1.turns turn.addr).continuation_ 0 s1
  else .returned () s1

/-- The function `addSimpleInput`. -/
def addSimpleInput {ε : Type} (env : Env ε)
    (addInput : NodeId → Value → State ε → Outcome ε Unit) (fuel : Nat)
    (r : NodeId) (v : Value) (s : State ε) : Outcome ε Unit :=
  let mk := makeTurn env 0 s
  let turn := mk.1
  let s1 := Engine.OnTurnAdmissionStart env turn mk.2
  let s2 := emit env (.nodeAddInput r v) s1
  let s3 := Engine.OnTurnAdmissionEnd env turn s2
  match env.tick r turn.id s3.ext with
  | none => .threw (emit env (.nodeTick r turn.id none) s3)
  | some res =>
    let s4 := emit env (.nodeTick r turn.id (some res)) s3
    (if res = ETickResult.pulsed then Engine.OnTurnPropagate env addInput turn s4
     else .returned () s4).bind fun _ s5 =>
    postProcessTurn env addInput fuel turn s5

/-- The function `AddInput`. User code that runs inside a turn opened here
calls `AddInput` again; `fuel` bounds that nesting and the number of
continuation turns. -/
def AddInput {ε : Type} (env : Env ε) : Nat → NodeId → Value → State ε → Outcome ε Unit
  | fuel, r, v, s =>
    if s.continuationHolder_.isSome then .returned () (addContinuationInput r v s)
    else if s.transactionState_.active then .returned () (addTransactionInput env r v s)
    else
      match fuel with
      | 0 => .outOfFuel
      | fuel1 + 1 => addSimpleInput env (AddInput env fuel1) fuel1 r v s

/-- The function `DoTransaction(func, flags)`. -/
def DoTransaction {ε : Type} (env : Env ε) (fuel : Nat) (func : List UserCmd)
    (flags : TurnFlagsT) (s : State ε) : Outcome ε Unit :=
  let m := Engine.TryMerge env func s
  if m.1 then .returned () m.2
  else
    let mk := makeTurn env flags m.2
    let turn := mk.1
    let s1 := setActive true mk.2
    let s2 := Engine.OnTurnAdmissionStart env turn s1
    (runUser (AddInput env fuel) func s2).bind fun _ s3 =>
    let s4 := Engine.OnTurnAdmissionEnd env turn s3
    let s5 := setActive false s4
    (tickInputs env turn s5.transactionState_.inputs false s5).bind fun shouldPropagate s6 =>
    let s7 := clearInputs s6
    (if shouldPropagate then Engine.OnTurnPropagate env (AddInput env fuel) turn s7
     else .returned () s7).bind fun _ s8 =>
    postProcessTurn env (AddInput env fuel) fuel turn s8

/-- The function `DoTransaction(func)`: the flags are `turnFlags_`. -/
def DoTransactionDefault {ε : Type} (env : Env ε) (fuel : Nat) (func : List UserCmd)
    (s : State ε) : Outcome ε Unit :=
  DoTransaction env fuel func s.turnFlags_ s

/-! ## Definitions used to state the theorems -/

/-- The buffer after `Add` was called with each closure of `cs` in turn. -/
def ContinuationInput.addAll {κ : Type} (cs : List κ) (c : ContinuationInput κ) :
    ContinuationInput κ :=
  cs.foldl ContinuationInput.Add c

/-- Invoke `f` as `call` does and note the invocation at the end of a log kept
next to the world. -/
def recordCall {κ σ : Type} (call : κ → ContinuationInput κ × σ → ContinuationInput κ × σ)
    (f : κ) (acc : ContinuationInput κ × (List κ × σ)) : ContinuationInput κ × (List κ × σ) :=
  ((call f (acc.1, acc.2.2)).1, (acc.2.1 ++ [f], (call f (acc.1, acc.2.2)).2))

/-- A sample closure semantics: closure `f` adds `f` to a counter and leaves the
buffer alone. -/
def sumCall (f : Nat) (acc : ContinuationInput Nat × Nat) : ContinuationInput Nat × Nat :=
  (acc.1, acc.2 + f)

/-- A call as it is recorded when made in state `s`. -/
def snap {ε : Type} (c : Call) (s : State ε) : Event :=
  { call := c, active := s.transactionState_.active, inputs := s.transactionState_.inputs }

/-- Make the calls of a list one after the other. -/
def emitAll {ε : Type} (env : Env ε) (calls : List Call) (s : State ε) : State ε :=
  calls.foldl (fun s c => emit env c s) s

/-- The `AddInput` calls a closure makes before it returns or throws. -/
def funcInputs : List UserCmd → List (NodeId × Value)
  | [] => []
  | .addInput r v :: rest => (r, v) :: funcInputs rest
  | .fail :: _ => []

/-- Whether a closure throws. -/
def funcFails : List UserCmd → Bool
  | [] => false
  | .addInput _ _ :: rest => funcFails rest
  | .fail :: _ => true

/-- The state after `addTransactionInput` was called with each pair in turn. -/
def enlistAll {ε : Type} (env : Env ε) : List (NodeId × Value) → State ε → State ε
  | [], s => s
  | p :: rest, s => enlistAll env rest (addTransactionInput env p.1 p.2 s)

/-- The state after `addContinuationInput` was called with each pair in turn. -/
def bufferAll {ε : Type} : List (NodeId × Value) → State ε → State ε
  | [], s => s
  | p :: rest, s => bufferAll rest (addContinuationInput p.1 p.2 s)

/-- The records of the calls `r.AddInput(v)` made by `addTransactionInput` for
each pair in turn, the first with `inputs` enlisted before. -/
def inputEvents (active : Bool) : List NodeId → List (NodeId × Value) → List Event
  | _, [] => []
  | inputs, p :: rest =>
    { call := .nodeAddInput p.1 p.2, active := active, inputs := inputs }
      :: inputEvents active (inputs ++ [p.1]) rest

/-- The `Tick` calls of the input loop over `ps` with their results, up to and
with the first that throws; `e` is the outside state before the loop. -/
def tickCalls {ε : Type} (env : Env ε) (id : TurnIdT) : List NodeId → ε → List Call
  | [], _ => []
  | p :: rest, e =>
    match env.tick p id e with
    | none => [.nodeTick p id none]
    | some res =>
      .nodeTick p id (some res) :: tickCalls env id rest (env.effect (.nodeTick p id (some res)) e)

/-- Whether a call is a `Tick` that threw. -/
def Call.isThrow : Call → Bool
  | .nodeTick _ _ none => true
  | _ => false

/-- Whether a call is a `Tick` that returned `pulsed`. -/
def Call.isPulsed : Call → Bool
  | .nodeTick _ _ (some .pulsed) => true
  | _ => false

/-- The node of a `Tick` call. -/
def Call.tickNode : Call → Option NodeId
  | .nodeTick p _ _ => some p
  | _ => none

/-- An environment in which `Tick` never throws. -/
def TotalTicks {ε : Type} (env : Env ε) : Prop :=
  ∀ p id e, env.tick p id e ≠ none

/-- The turn object that `makeTurn` creates when called in state `s`. -/
def newTurn {ε : Type} (s : State ε) : TurnRef :=
  { addr := s.turnCount, id := s.nextTurnId_ }

/-- The state in which the admission of a turn opened in state `s` with `flags`
starts: the turn is made, `active` set, `OnTurnAdmissionStart` called. -/
def admissionStarted {ε : Type} (env : Env ε) (flags : TurnFlagsT) (s : State ε) : State ε :=
  Engine.OnTurnAdmissionStart env (newTurn s) (setActive true (makeTurn env flags s).2)

/-- The state at the end of the admission phase of a turn opened in state `s`
with `flags` whose admission enlists the pairs `rvs`: the turn is made,
`active` set, `OnTurnAdmissionStart` called, the inputs enlisted,
`OnTurnAdmissionEnd` called, `active` cleared. -/
def turnAdmitted {ε : Type} (env : Env ε) (flags : TurnFlagsT) (rvs : List (NodeId × Value))
    (s : State ε) : State ε :=
  setActive false
    (Engine.OnTurnAdmissionEnd env (newTurn s) (enlistAll env rvs (admissionStarted env flags s)))

/-- The `Tick` calls of the input loop of that turn. -/
def turnTickCalls {ε : Type} (env : Env ε) (flags : TurnFlagsT) (rvs : List (NodeId × Value))
    (s : State ε) : List Call :=
  tickCalls env s.nextTurnId_ (turnAdmitted env flags rvs s).transactionState_.inputs
    (turnAdmitted env flags rvs s).ext

/-- The state of that turn when the input loop stops (at its end, or at a
`Tick` that throws). -/
def turnTickedRaw {ε : Type} (env : Env ε) (flags : TurnFlagsT) (rvs : List (NodeId × Value))
    (s : State ε) : State ε :=
  emitAll env (turnTickCalls env flags rvs s) (turnAdmitted env flags rvs s)

/-- The state of that turn after `transactionState_.inputs.clear()`. -/
def turnTicked {ε : Type} (env : Env ε) (flags : TurnFlagsT) (rvs : List (NodeId × Value))
    (s : State ε) : State ε :=
  clearInputs (turnTickedRaw env flags rvs s)

/-- The pairs that the closures of a continuation hand to `addTransactionInput`. -/
def closureInputs (cont : ContinuationInput InputClosure) : List (NodeId × Value) :=
  cont.bufferedInputs_.map fun f => (f.r, f.v)

/-- Phase 3 of a turn: `if (shouldPropagate) Engine::OnTurnPropagate(turn);`. -/
def propagateIf {ε : Type} (env : Env ε) (addInput : NodeId → Value → State ε → Outcome ε Unit)
    (shouldPropagate : Bool) (turn : TurnRef) (s : State ε) : Outcome ε Unit :=
  if shouldPropagate then Engine.OnTurnPropagate env addInput turn s else .returned () s

/-- A property of the state an outcome carries; nothing is asked of a run that
used up its fuel. -/
def Outcome.All {ε α : Type} (P : State ε → Prop) : Outcome ε α → Prop
  | .returned _ s => P s
  | .threw s => P s
  | .outOfFuel => True

/-- The run returned, in a state with property `P`. -/
def Outcome.Returns {ε α : Type} (P : State ε → Prop) : Outcome ε α → Prop
  | .returned _ s => P s
  | .threw _ => False
  | .outOfFuel => False

/-- The run threw, in a state with property `P`. -/
def Outcome.Throws {ε α : Type} (P : State ε → Prop) : Outcome ε α → Prop
  | .returned _ _ => False
  | .threw s => P s
  | .outOfFuel => False

/-- A relation between an earlier and a later state that every elementary
step of the domain respects. -/
structure Stable {ε : Type} (env : Env ε) (R : State ε → State ε → Prop) : Prop where
  refl : ∀ s, R s s
  trans : ∀ a b c, R a b → R b c → R a c
  step_emit : ∀ c s, R s (emit env c s)
  step_setActive : ∀ b s, R s (setActive b s)
  step_setInputs : ∀ l (s : State ε),
    R s { s with transactionState_ := { s.transactionState_ with inputs := l } }
  step_updateTurn : ∀ a f s, R s (updateTurn a f s)
  step_setHolder : ∀ h (s : State ε), R s { s with continuationHolder_ := h }
  step_makeTurn : ∀ flags s, R s (makeTurn env flags s).2

/-- The later state has the record of the earlier one and possibly more. -/
def Extends {ε : Type} (s0 s : State ε) : Prop :=
  ∃ evs, s.trace = s0.trace ++ evs

/-- A sample outside world without state: every `Tick` returns `pulsed`, the
engine merges when `merge` is set, and the propagation of the turn with id 0
runs user code that, with the continuation set, calls `AddInput(7, 5)` and
detaches observer 3; the propagation of every other turn runs no user code. -/
def sampleEnv (merge : Bool) : Env Unit :=
  { effect := fun _ e => e
    tryMerge := fun _ _ => merge
    tick := fun _ _ _ => some ETickResult.pulsed
    propagate := fun id _ =>
      if id = 0 then
        [PropCmd.setCurrentContinuation, PropCmd.user (UserCmd.addInput 7 5),
         PropCmd.detachObserver 3, PropCmd.clearCurrentContinuation]
      else [] }

/-- No transaction is admitting and no input is enlisted. -/
def Quiet {ε : Type} (s : State ε) : Prop :=
  s.transactionState_ = { active := false, inputs := [] }

/-- A sample outside world in which the `Tick` of node 2 throws and every other
`Tick` returns `pulsed`; the engine never merges and its propagation runs no
user code. -/
def tickFailEnv : Env Unit :=
  { effect := fun _ e => e
    tryMerge := fun _ _ => false
    tick := fun p _ _ => if p = 2 then none else some ETickResult.pulsed
    propagate := fun _ _ => [] }

/-- A sample outside world in which every `Tick` returns `pulsed` and user code
run by the engine's propagation throws. -/
def propagationFailEnv : Env Unit :=
  { effect := fun _ e => e
    tryMerge := fun _ _ => false
    tick := fun _ _ _ => some ETickResult.pulsed
    propagate := fun _ _ => [PropCmd.setCurrentContinuation, PropCmd.user UserCmd.fail] }

/-- The initial state but for `transactionState_`. -/
def stateWith (ts : TransactionState) : State Unit :=
  { State.init () with transactionState_ := ts }

/-- The state after the loop of `postProcessTurn` (and of a round of
`processContinuations`) that unregisters the detached observers of `turn`. -/
def unregistered {ε : Type} (env : Env ε) (turn : TurnRef) (s : State ε) : State ε :=
  emitAll env ((s.turns turn.addr).detachedObservers_.map Call.unregister) s

/-- A state after the propagation of a turn (object 0, id 0) that has observer 3
to detach and one buffered input, node 7 with value 5. -/
def afterPropagation : State Unit :=
  { State.init () with
    nextTurnId_ := 1
    turnCount := 1
    turns := fun a =>
      if a = 0 then
        { id := 0, flags := 0, detachedObservers_ := [3],
          continuation_ := { bufferedInputs_ := [{ r := 7, v := 5 }] } }
      else (State.init ()).turns a }

/-- Whether every `AddInput` call of a propagation script is made while the
current continuation is set; `set` tells whether it is set when the script
starts. -/
def buffersInputs : Bool → List PropCmd → Bool
  | _, [] => true
  | _, .setCurrentContinuation :: rest => buffersInputs true rest
  | _, .clearCurrentContinuation :: rest => buffersInputs false rest
  | set, .detachObserver _ :: rest => buffersInputs set rest
  | set, .user (.addInput _ _) :: rest => set && buffersInputs set rest
  | _, .user .fail :: _ => true

/-- Whether a recorded call is one that a run can record once it has
constructed its first turn, when it started with `active` clear and no input
enlisted: no `TryMerge`; a turn constructed with flags 0, with `active` clear
and nothing enlisted; `OnTurnAdmissionStart` with nothing enlisted;
`node.AddInput` and `OnTurnAdmissionEnd` with `active` set or nothing enlisted;
`Tick` with `active` clear; everything else with `active` clear and nothing
enlisted. -/
def Event.regular (e : Event) : Bool :=
  match e.call with
  | .tryMerge _ => false
  | .turnCreate _ flags => flags == 0 && !e.active && e.inputs.isEmpty
  | .onTurnAdmissionStart _ => e.inputs.isEmpty
  | .nodeAddInput _ _ => e.active || e.inputs.isEmpty
  | .onTurnAdmissionEnd _ => e.active || e.inputs.isEmpty
  | .nodeTick _ _ _ => !e.active
  | .logTransactionBegin _ => !e.active && e.inputs.isEmpty
  | .onTurnPropagate _ => !e.active && e.inputs.isEmpty
  | .logTransactionEnd _ => !e.active && e.inputs.isEmpty
  | .unregister _ => !e.active && e.inputs.isEmpty

/-- The later state has the record of the earlier one followed by regular
calls only. -/
def Follows {ε : Type} (s0 s : State ε) : Prop :=
  ∃ evs, s.trace = s0.trace ++ evs ∧ ∀ e ∈ evs, e.regular = true

/-- The later state follows the earlier one and has no transaction state. -/
def Settled {ε : Type} (s0 s : State ε) : Prop :=
  Follows s0 s ∧ Quiet s

/-- A run that returns is settled with respect to `s0`; one that throws at
least follows `s0`. -/
def Outcome.Settles {ε α : Type} (s0 : State ε) : Outcome ε α → Prop
  | .returned _ s => Settled s0 s
  | .threw s => Follows s0 s
  | .outOfFuel => True

/-- The pairs that the user code of a propagation script hands to `AddInput`,
up to the first failure. -/
def scriptInputs : List PropCmd → List (NodeId × Value)
  | [] => []
  | .setCurrentContinuation :: rest => scriptInputs rest
  | .clearCurrentContinuation :: rest => scriptInputs rest
  | .detachObserver _ :: rest => scriptInputs rest
  | .user (.addInput r v) :: rest => (r, v) :: scriptInputs rest
  | .user .fail :: _ => []

/-- Whether user code of a propagation script fails. -/
def scriptFails : List PropCmd → Bool
  | [] => false
  | .setCurrentContinuation :: rest => scriptFails rest
  | .clearCurrentContinuation :: rest => scriptFails rest
  | .detachObserver _ :: rest => scriptFails rest
  | .user (.addInput _ _) :: rest => scriptFails rest
  | .user .fail :: _ => true

/-- Modelled from the spec: the engine's propagation, which is not part of the
header. The spec has the current continuation pointer non-null while user code
runs during a turn ("continuation pointer non-null during user callbacks",
"set while a propagation is executing user code"). An engine does so when
each of its propagation scripts calls `SetCurrentContinuation(turn)` before the
user code in it calls `AddInput`, whatever the pointer was when the script
started. -/
def EngineBuffers {ε : Type} (env : Env ε) : Prop :=
  ∀ id e, buffersInputs false (env.propagate id e) = true

/-- The script that the engine runs when `Engine::OnTurnPropagate(turn)` is
called in state `s`. -/
def propagationScript {ε : Type} (env : Env ε) (turn : TurnRef) (s : State ε) : List PropCmd :=
  env.propagate turn.id
    (emit env (.onTurnPropagate turn.id) (emit env (.logTransactionBegin turn.id) s)).ext

/-- The closures that `addContinuationInput` stores for the pairs. -/
def inputClosures (rvs : List (NodeId × Value)) : List InputClosure :=
  rvs.map fun p => InputClosure.mk p.1 p.2

/-- Whether a call constructs a turn. -/
def Call.isCreate : Call → Bool
  | .turnCreate _ _ => true
  | _ => false

/-- Whether a call is one of the three calls of `EngineInterface::OnTurnPropagate`:
the begin record, the engine's `OnTurnPropagate`, the end record. -/
def Call.isPropagation : Call → Bool
  | .logTransactionBegin _ => true
  | .onTurnPropagate _ => true
  | .logTransactionEnd _ => true
  | _ => false

/-- Whether a call appends a transaction-begin or a transaction-end record to
the log. -/
def Call.isLogRecord : Call → Bool
  | .logTransactionBegin _ => true
  | .logTransactionEnd _ => true
  | _ => false

/-- The ids of the turns that had a pulsed input, in the order in which the
turns were constructed: a turn counts when a `Tick` returned `pulsed` after its
construction and before the construction of the next turn. -/
def pulsedTurns : List Call → List TurnIdT
  | [] => []
  | c :: rest =>
    match c with
    | .turnCreate id _ =>
      if (rest.takeWhile fun c => !c.isCreate).any Call.isPulsed then id :: pulsedTurns rest
      else pulsedTurns rest
    | _ => pulsedTurns rest

/-- For each turn id: the begin record, the engine's `OnTurnPropagate`, the end
record. -/
def propagationRecords : List TurnIdT → List Call
  | [] => []
  | t :: ts =>
    .logTransactionBegin t :: .onTurnPropagate t :: .logTransactionEnd t :: propagationRecords ts

/-- For each turn id: the begin record, the end record. -/
def logRecords : List TurnIdT → List Call
  | [] => []
  | t :: ts => .logTransactionBegin t :: .logTransactionEnd t :: logRecords ts

/-- The calls recorded so far. -/
def State.calls {ε : Type} (s : State ε) : List Call :=
  s.trace.map Event.call

/-- The calls of a run in which the propagation calls are exactly those of the
turns with a pulsed input, and which has no pulsed `Tick` before its first
turn. -/
def PairedCalls (cs : List Call) : Prop :=
  (cs.takeWhile fun c => !c.isCreate).any Call.isPulsed = false
  ∧ cs.filter Call.isPropagation = propagationRecords (pulsedTurns cs)

/-- The later state has the calls of the earlier one followed by paired
calls. -/
def PairedRun {ε : Type} (s0 s : State ε) : Prop :=
  ∃ cs, s.calls = s0.calls ++ cs ∧ PairedCalls cs

/-- A property of the state in which a run returns; nothing is asked of a run
that throws or uses up its fuel. -/
def Outcome.OnReturn {ε α : Type} (P : State ε → Prop) : Outcome ε α → Prop
  | .returned _ s => P s
  | .threw _ => True
  | .outOfFuel => True

/-- A call of an entry point of the domain by code outside any turn. -/
inductive EntryCall
  | doTransaction (func : List UserCmd) (flags : TurnFlagsT)
  | doTransactionDefault (func : List UserCmd)
  | addInput (r : NodeId) (v : Value)
  deriving DecidableEq, Repr

/-- Make one entry-point call. -/
def runEntry {ε : Type} (env : Env ε) (fuel : Nat) : EntryCall → State ε → Outcome ε Unit
  | .doTransaction func flags, s => DoTransaction env fuel func flags s
  | .doTransactionDefault func, s => DoTransactionDefault env fuel func s
  | .addInput r v, s => AddInput env fuel r v s

/-- A sequential run of the domain: entry-point calls made one after the other
on one thread; a failure ends the run. -/
def runEntries {ε : Type} (env : Env ε) (fuel : Nat) :
    List EntryCall → State ε → Outcome ε Unit
  | [], s => .returned () s
  | c :: rest, s => (runEntry env fuel c s).bind fun _ s1 => runEntries env fuel rest s1

/-- The state with the events `pre` put before its record of calls. -/
def prependTrace {ε : Type} (pre : List Event) (s : State ε) : State ε :=
  { s with trace := pre ++ s.trace }

/-- Apply `f` to the state that an outcome carries. -/
def Outcome.mapState {ε α : Type} (f : State ε → State ε) : Outcome ε α → Outcome ε α
  | .returned a s => .returned a (f s)
  | .threw s => .threw (f s)
  | .outOfFuel => .outOfFuel

/-- Two runs end the same way (both return, both throw, or both use up their
fuel), in states related by `R`. -/
def Outcome.Agree {ε α : Type} (R : State ε → State ε → Prop) :
    Outcome ε α → Outcome ε α → Prop
  | .returned _ s1, .returned _ s2 => R s1 s2
  | .threw s1, .threw s2 => R s1 s2
  | .outOfFuel, .outOfFuel => True
  | _, _ => False

/-- The two states agree on everything but the record of calls: the statics of
the domain, the turn objects and the state of the outside. -/
def SameDomainState {ε : Type} (s1 s2 : State ε) : Prop :=
  s1.nextTurnId_ = s2.nextTurnId_ ∧ s1.turnFlags_ = s2.turnFlags_
  ∧ s1.transactionState_ = s2.transactionState_
  ∧ s1.continuationHolder_ = s2.continuationHolder_
  ∧ s1.turns = s2.turns ∧ s1.turnCount = s2.turnCount ∧ s1.ext = s2.ext

/-- The state of the turn of `addSimpleInput(r, v)`, opened in state `s`, after
its `Tick` returned `res`. -/
def simpleTicked {ε : Type} (env : Env ε) (r : NodeId) (v : Value) (res : ETickResult)
    (s : State ε) : State ε :=
  emit env (.nodeTick r (newTurn s).id (some res))
    (Engine.OnTurnAdmissionEnd env (newTurn s) (emit env (.nodeAddInput r v)
      (Engine.OnTurnAdmissionStart env (newTurn s) (makeTurn env 0 s).2)))

/-- The state of the outside when the input of a one-input turn with id `id` is
ticked: after the construction of the turn, `OnTurnAdmissionStart`,
`node.AddInput(v)` and `OnTurnAdmissionEnd`. -/
def admittedExt {ε : Type} (env : Env ε) (id : TurnIdT) (r : NodeId) (v : Value) (e : ε) : ε :=
  env.effect (.onTurnAdmissionEnd id) (env.effect (.nodeAddInput r v)
    (env.effect (.onTurnAdmissionStart id) (env.effect (.turnCreate id 0) e)))

/-- A sample outside world in which user code adds an input while the current
continuation is not set: every `Tick` returns `pulsed` and the engine never
merges; the propagation of the turn with id 0 runs user code that calls
`AddInput(7, 5)` with the pointer null; the propagation of the turn with id 1
sets the current continuation, detaches observer 3, runs user code that calls
`AddInput(8, 1)` and clears the continuation; every other propagation runs no
user code. -/
def nestingEnv : Env Unit :=
  { effect := fun _ e => e
    tryMerge := fun _ _ => false
    tick := fun _ _ _ => some ETickResult.pulsed
    propagate := fun id _ =>
      if id = 0 then [PropCmd.user (UserCmd.addInput 7 5)]
      else if id = 1 then
        [PropCmd.setCurrentContinuation, PropCmd.detachObserver 3,
         PropCmd.user (UserCmd.addInput 8 1), PropCmd.clearCurrentContinuation]
      else [] }

/-! ## Turn ids -/

theorem INT_MAX_eq : INT_MAX = 2147483647 := rfl

theorem UINT_RANGE_eq : UINT_RANGE = 4294967296 := rfl

theorem nextTurnIdAt_fst (c : Nat) : (nextTurnIdAt c).1 = c := by
  simp only [nextTurnIdAt]; split <;> rfl

theorem nextTurnIdAt_snd_of_lt (c : Nat) (h : c < INT_MAX) : (nextTurnIdAt c).2 = c + 1 := by
  simp only [nextTurnIdAt, INT_MAX_eq, UINT_RANGE_eq] at *
  split
  · omega
  · simp only; omega

theorem nextTurnIdAt_snd_max : (nextTurnIdAt INT_MAX).2 = 1 := by
  decide

theorem nextTurnIdAt_snd_le (c : Nat) (h : c ≤ INT_MAX) :
    (nextTurnIdAt c).2 ≤ INT_MAX ∧ 1 ≤ (nextTurnIdAt c).2 := by
  rcases Nat.lt_or_ge c INT_MAX with h1 | h1
  · rw [nextTurnIdAt_snd_of_lt c h1]; omega
  · have : c = INT_MAX := by omega
    subst this
    rw [nextTurnIdAt_snd_max]; simp only [INT_MAX_eq]; omega

theorem counterAfter_le (n c : Nat) (h : c ≤ INT_MAX) : counterAfter n c ≤ INT_MAX := by
  induction n generalizing c with
  | zero => simpa [counterAfter] using h
  | succ n ih =>
    simp only [counterAfter]
    exact ih _ (nextTurnIdAt_snd_le c h).1

/-- From a counter in `1 .. INT_MAX` the ids run through `1 .. INT_MAX`
cyclically. -/
theorem issuedIds_closed (n c : Nat) (h1 : 1 ≤ c) (h2 : c ≤ INT_MAX) :
    issuedIds n c = (List.range n).map (fun k => (c - 1 + k) % INT_MAX + 1) := by
  induction n generalizing c with
  | zero => rfl
  | succ n ih =>
    rw [List.range_succ_eq_map, issuedIds, nextTurnIdAt_fst, List.map_cons, List.map_map]
    have hb := nextTurnIdAt_snd_le c h2
    rw [ih _ hb.2 hb.1]
    have hhead : (c - 1 + 0) % INT_MAX + 1 = c := by
      simp only [INT_MAX_eq] at *; omega
    rw [hhead]
    congr 1
    apply List.map_congr_left
    intro k _
    simp only [Function.comp]
    rcases Nat.lt_or_ge c INT_MAX with h3 | h3
    · rw [nextTurnIdAt_snd_of_lt c h3]; simp only [INT_MAX_eq] at *; omega
    · have : c = INT_MAX := by omega
      subst this
      rw [nextTurnIdAt_snd_max]; simp only [INT_MAX_eq] at *; omega

theorem issuedIds_nodup_pos (n c : Nat) (hn : n ≤ INT_MAX) (h1 : 1 ≤ c) (h2 : c ≤ INT_MAX) :
    (issuedIds n c).Nodup := by
  rw [issuedIds_closed n c h1 h2]
  refine (List.nodup_range n).map_on ?_
  intro a ha b hb hab
  simp only [List.mem_range] at ha hb
  simp only [INT_MAX_eq] at hab hn h2
  omega

theorem issuedIds_pos (n c : Nat) (h1 : 1 ≤ c) (h2 : c ≤ INT_MAX) :
    ∀ x ∈ issuedIds n c, 1 ≤ x := by
  rw [issuedIds_closed n c h1 h2]
  intro x hx
  simp only [List.mem_map] at hx
  obtain ⟨k, _, rfl⟩ := hx
  omega

theorem issuedIds_nodup (n c : Nat) (hn : n < 2 ^ 31) (hc : c ≤ INT_MAX) :
    (issuedIds n c).Nodup := by
  rcases Nat.eq_zero_or_pos c with h0 | hpos
  · subst h0
    cases n with
    | zero => simp [issuedIds]
    | succ n =>
      have hs : (nextTurnIdAt 0).2 = 1 := by decide
      have hM := INT_MAX_eq
      rw [issuedIds, nextTurnIdAt_fst, hs, List.nodup_cons]
      refine ⟨?_, issuedIds_nodup_pos n 1 (by omega) (by omega) (by omega)⟩
      intro hmem
      have := issuedIds_pos n 1 (by omega) (by omega) 0 hmem
      omega
  · have hM := INT_MAX_eq
    exact issuedIds_nodup_pos n c (by omega) hpos hc

/-- C1. Unique turn ids: the ids returned by fewer than 2^31 consecutive calls
of `nextTurnId` are pairwise distinct, whatever counter value reachable from
the initial value 0 (after any number `m` of earlier calls) the run starts
from. -/
theorem nextTurnId_unique (m n : Nat) (hn : n < 2 ^ 31) :
    (issuedIds n (counterAfter m 0)).Nodup :=
  issuedIds_nodup n _ hn (counterAfter_le m 0 (Nat.zero_le _))

/-- Three calls made after two earlier ones return distinct ids. -/
theorem nextTurnId_unique_witness : 3 < 2 ^ 31 ∧ (issuedIds 3 (counterAfter 2 0)).Nodup :=
  ⟨by norm_num, nextTurnId_unique 2 3 (by norm_num)⟩

/-! ## ContinuationInput -/

theorem addAll_bufferedInputs {κ : Type} (cs : List κ) (c : ContinuationInput κ) :
    (ContinuationInput.addAll cs c).bufferedInputs_ = c.bufferedInputs_ ++ cs := by
  induction cs generalizing c with
  | nil => simp [ContinuationInput.addAll]
  | cons f cs ih =>
    have h := ih (c.Add f)
    simp only [ContinuationInput.addAll, List.foldl_cons] at h ⊢
    rw [h]
    simp [ContinuationInput.Add]

theorem foldl_recordCall {κ σ : Type}
    (call : κ → ContinuationInput κ × σ → ContinuationInput κ × σ)
    (hframe : ∀ f b w, (call f (b, w)).1 = b)
    (cs : List κ) (b : ContinuationInput κ) (log : List κ) (w : σ) :
    cs.foldl (fun acc f => recordCall call f acc) (b, (log, w))
      = (b, (log ++ cs, cs.foldl (fun w f => (call f (b, w)).2) w)) := by
  induction cs generalizing log w with
  | nil => simp
  | cons f cs ih =>
    have hstep : recordCall call f (b, (log, w)) = (b, (log ++ [f], (call f (b, w)).2)) := by
      simp only [recordCall, hframe]
    rw [List.foldl_cons, hstep, ih]
    simp

/-- C8. Continuation buffer: after `Add` was called with closures `cs` on a
new buffer, none of which changes the buffer while it runs, `Execute` invokes
each closure exactly once in the order of insertion (the log of invocations
grows by `cs`, and the world is the one reached by running them one after the
other), leaves the buffer empty, and a second `Execute` invokes nothing;
`IsEmpty` holds exactly when nothing was added since construction, or since the
last `Execute`. -/
theorem ContinuationInput_Execute_in_order {κ σ : Type}
    (call : κ → ContinuationInput κ × σ → ContinuationInput κ × σ)
    (hframe : ∀ f b w, (call f (b, w)).1 = b)
    (cs : List κ) (log : List κ) (w : σ) :
    ((ContinuationInput.addAll cs ContinuationInput.empty).Execute
        (recordCall call) (log, w)).2.1 = log ++ cs
    ∧ ((ContinuationInput.addAll cs ContinuationInput.empty).Execute
        (recordCall call) (log, w)).2.2
      = cs.foldl (fun w f =>
          (call f (ContinuationInput.addAll cs ContinuationInput.empty, w)).2) w
    ∧ ((ContinuationInput.addAll cs ContinuationInput.empty).Execute
        (recordCall call) (log, w)).1.IsEmpty = true
    ∧ (((ContinuationInput.addAll cs ContinuationInput.empty).Execute
          (recordCall call) (log, w)).1.Execute (recordCall call)
        ((ContinuationInput.addAll cs ContinuationInput.empty).Execute
          (recordCall call) (log, w)).2).2
      = ((ContinuationInput.addAll cs ContinuationInput.empty).Execute
          (recordCall call) (log, w)).2
    ∧ ((ContinuationInput.addAll cs (ContinuationInput.empty : ContinuationInput κ)).IsEmpty
        = true ↔ cs = [])
    ∧ ∀ ds : List κ,
        (ContinuationInput.addAll ds
          ((ContinuationInput.addAll cs ContinuationInput.empty).Execute
            (recordCall call) (log, w)).1).IsEmpty = true ↔ ds = [] := by
  have hbuf : (ContinuationInput.addAll cs (ContinuationInput.empty : ContinuationInput κ)).bufferedInputs_
      = cs := by
    rw [addAll_bufferedInputs]; simp [ContinuationInput.empty]
  have hrun := foldl_recordCall call hframe cs
    (ContinuationInput.addAll cs ContinuationInput.empty) log w
  refine ⟨?_, ?_, ?_, ?_, ?_, ?_⟩
  · simp only [ContinuationInput.Execute, hbuf, hrun]
  · simp only [ContinuationInput.Execute, hbuf, hrun]
  · simp [ContinuationInput.Execute, ContinuationInput.IsEmpty]
  · simp [ContinuationInput.Execute]
  · simp [ContinuationInput.IsEmpty, hbuf]
  · intro ds
    simp [ContinuationInput.IsEmpty, addAll_bufferedInputs, ContinuationInput.Execute]

/-- The closures 1, 2, 3 under `sumCall`: the log reads 1, 2, 3 and the counter
is 6. -/
theorem ContinuationInput_Execute_in_order_witness :
    ((ContinuationInput.addAll [1, 2, 3] ContinuationInput.empty).Execute
        (recordCall sumCall) ([], 0)).2.1 = [] ++ [1, 2, 3]
    ∧ ((ContinuationInput.addAll [1, 2, 3] ContinuationInput.empty).Execute
        (recordCall sumCall) ([], 0)).2.2 = 6 :=
  ⟨(ContinuationInput_Execute_in_order sumCall (fun _ _ _ => rfl) [1, 2, 3] [] 0).1,
   (ContinuationInput_Execute_in_order sumCall (fun _ _ _ => rfl) [1, 2, 3] [] 0).2.1⟩

/-! ## Elementary steps -/

section basics
variable {ε : Type} (env : Env ε)

@[simp] theorem bind_returned {α β : Type} (a : α) (s : State ε) (k : α → State ε → Outcome ε β) :
    (Outcome.returned a s).bind k = k a s := rfl

@[simp] theorem bind_threw {α β : Type} (s : State ε) (k : α → State ε → Outcome ε β) :
    (Outcome.threw s : Outcome ε α).bind k = .threw s := rfl

@[simp] theorem bind_outOfFuel {α β : Type} (k : α → State ε → Outcome ε β) :
    (Outcome.outOfFuel : Outcome ε α).bind k = .outOfFuel := rfl

theorem emitAll_nil (s : State ε) : emitAll env [] s = s := rfl

theorem emitAll_cons (c : Call) (cs : List Call) (s : State ε) :
    emitAll env (c :: cs) s = emitAll env cs (emit env c s) := rfl

theorem emitAll_append (cs ds : List Call) (s : State ε) :
    emitAll env (cs ++ ds) s = emitAll env ds (emitAll env cs s) := by
  simp [emitAll]

@[simp] theorem emitAll_transactionState (cs : List Call) (s : State ε) :
    (emitAll env cs s).transactionState_ = s.transactionState_ := by
  induction cs generalizing s with
  | nil => rfl
  | cons c cs ih => rw [emitAll_cons, ih]; rfl

@[simp] theorem emitAll_nextTurnId (cs : List Call) (s : State ε) :
    (emitAll env cs s).nextTurnId_ = s.nextTurnId_ := by
  induction cs generalizing s with
  | nil => rfl
  | cons c cs ih => rw [emitAll_cons, ih]; rfl

@[simp] theorem emitAll_turnFlags (cs : List Call) (s : State ε) :
    (emitAll env cs s).turnFlags_ = s.turnFlags_ := by
  induction cs generalizing s with
  | nil => rfl
  | cons c cs ih => rw [emitAll_cons, ih]; rfl

@[simp] theorem emitAll_holder (cs : List Call) (s : State ε) :
    (emitAll env cs s).continuationHolder_ = s.continuationHolder_ := by
  induction cs generalizing s with
  | nil => rfl
  | cons c cs ih => rw [emitAll_cons, ih]; rfl

@[simp] theorem emitAll_turns (cs : List Call) (s : State ε) :
    (emitAll env cs s).turns = s.turns := by
  induction cs generalizing s with
  | nil => rfl
  | cons c cs ih => rw [emitAll_cons, ih]; rfl

@[simp] theorem emitAll_turnCount (cs : List Call) (s : State ε) :
    (emitAll env cs s).turnCount = s.turnCount := by
  induction cs generalizing s with
  | nil => rfl
  | cons c cs ih => rw [emitAll_cons, ih]; rfl

@[simp] theorem emitAll_trace (cs : List Call) (s : State ε) :
    (emitAll env cs s).trace = s.trace ++ cs.map (fun c => snap c s) := by
  induction cs generalizing s with
  | nil => simp [emitAll]
  | cons c cs ih =>
    rw [emitAll_cons, ih]
    simp [emit, snap]

theorem unregisterAll_eq (ds : List ObsId) (s : State ε) :
    unregisterAll env ds s = emitAll env (ds.map Call.unregister) s := by
  induction ds generalizing s with
  | nil => rfl
  | cons o ds ih => simp only [unregisterAll, ih, List.map_cons, emitAll_cons]

/-! ### Admission -/

theorem AddInput_active (fuel : Nat) (r : NodeId) (v : Value) (s : State ε)
    (h : s.transactionState_.active = true) :
    AddInput env fuel r v s = .returned ()
      (if s.continuationHolder_.isSome then addContinuationInput r v s
       else addTransactionInput env r v s) := by
  unfold AddInput
  split <;> simp_all

end basics

section phases
variable {ε : Type} (env : Env ε)

@[simp] theorem enlistAll_holder (rvs : List (NodeId × Value)) (s : State ε) :
    (enlistAll env rvs s).continuationHolder_ = s.continuationHolder_ := by
  induction rvs generalizing s with
  | nil => rfl
  | cons p rvs ih => rw [enlistAll, ih]; rfl

@[simp] theorem enlistAll_turns (rvs : List (NodeId × Value)) (s : State ε) :
    (enlistAll env rvs s).turns = s.turns := by
  induction rvs generalizing s with
  | nil => rfl
  | cons p rvs ih => rw [enlistAll, ih]; rfl

@[simp] theorem enlistAll_turnCount (rvs : List (NodeId × Value)) (s : State ε) :
    (enlistAll env rvs s).turnCount = s.turnCount := by
  induction rvs generalizing s with
  | nil => rfl
  | cons p rvs ih => rw [enlistAll, ih]; rfl

@[simp] theorem enlistAll_nextTurnId (rvs : List (NodeId × Value)) (s : State ε) :
    (enlistAll env rvs s).nextTurnId_ = s.nextTurnId_ := by
  induction rvs generalizing s with
  | nil => rfl
  | cons p rvs ih => rw [enlistAll, ih]; rfl

@[simp] theorem enlistAll_turnFlags (rvs : List (NodeId × Value)) (s : State ε) :
    (enlistAll env rvs s).turnFlags_ = s.turnFlags_ := by
  induction rvs generalizing s with
  | nil => rfl
  | cons p rvs ih => rw [enlistAll, ih]; rfl

@[simp] theorem enlistAll_active (rvs : List (NodeId × Value)) (s : State ε) :
    (enlistAll env rvs s).transactionState_.active = s.transactionState_.active := by
  induction rvs generalizing s with
  | nil => rfl
  | cons p rvs ih => rw [enlistAll, ih]; rfl

@[simp] theorem enlistAll_inputs (rvs : List (NodeId × Value)) (s : State ε) :
    (enlistAll env rvs s).transactionState_.inputs
      = s.transactionState_.inputs ++ rvs.map Prod.fst := by
  induction rvs generalizing s with
  | nil => simp [enlistAll]
  | cons p rvs ih => rw [enlistAll, ih]; simp [addTransactionInput, emit]

@[simp] theorem enlistAll_trace (rvs : List (NodeId × Value)) (s : State ε) :
    (enlistAll env rvs s).trace
      = s.trace ++ inputEvents s.transactionState_.active s.transactionState_.inputs rvs := by
  induction rvs generalizing s with
  | nil => simp [enlistAll, inputEvents]
  | cons p rvs ih => rw [enlistAll, ih]; simp [addTransactionInput, emit, inputEvents]

@[simp] theorem bufferAll_holder (rvs : List (NodeId × Value)) (s : State ε) :
    (bufferAll rvs s).continuationHolder_ = s.continuationHolder_ := by
  induction rvs generalizing s with
  | nil => rfl
  | cons p rvs ih =>
    rw [bufferAll, ih]; unfold addContinuationInput; split <;> simp [updateTurn]

@[simp] theorem bufferAll_transactionState (rvs : List (NodeId × Value)) (s : State ε) :
    (bufferAll rvs s).transactionState_ = s.transactionState_ := by
  induction rvs generalizing s with
  | nil => rfl
  | cons p rvs ih =>
    rw [bufferAll, ih]; unfold addContinuationInput; split <;> simp [updateTurn]

@[simp] theorem bufferAll_trace (rvs : List (NodeId × Value)) (s : State ε) :
    (bufferAll rvs s).trace = s.trace := by
  induction rvs generalizing s with
  | nil => rfl
  | cons p rvs ih =>
    rw [bufferAll, ih]; unfold addContinuationInput; split <;> simp [updateTurn]

@[simp] theorem bufferAll_nextTurnId (rvs : List (NodeId × Value)) (s : State ε) :
    (bufferAll rvs s).nextTurnId_ = s.nextTurnId_ := by
  induction rvs generalizing s with
  | nil => rfl
  | cons p rvs ih =>
    rw [bufferAll, ih]; unfold addContinuationInput; split <;> simp [updateTurn]

@[simp] theorem bufferAll_turnCount (rvs : List (NodeId × Value)) (s : State ε) :
    (bufferAll rvs s).turnCount = s.turnCount := by
  induction rvs generalizing s with
  | nil => rfl
  | cons p rvs ih =>
    rw [bufferAll, ih]; unfold addContinuationInput; split <;> simp [updateTurn]

@[simp] theorem bufferAll_ext (rvs : List (NodeId × Value)) (s : State ε) :
    (bufferAll rvs s).ext = s.ext := by
  induction rvs generalizing s with
  | nil => rfl
  | cons p rvs ih =>
    rw [bufferAll, ih]; unfold addContinuationInput; split <;> simp [updateTurn]

theorem bufferAll_turns (rvs : List (NodeId × Value)) (s : State ε) (addr : Nat)
    (h : s.continuationHolder_ = some addr) :
    (bufferAll rvs s).turns = Function.update s.turns addr
      { (s.turns addr) with continuation_ :=
          (ContinuationInput.addAll (rvs.map (fun p => InputClosure.mk p.1 p.2))
            (s.turns addr).continuation_) } := by
  induction rvs generalizing s with
  | nil => simp [bufferAll, ContinuationInput.addAll]
  | cons p rvs ih =>
    have h1 : (addContinuationInput p.1 p.2 s).continuationHolder_ = some addr := by
      simp [addContinuationInput, h, updateTurn]
    rw [bufferAll, ih _ h1]
    simp [addContinuationInput, h, updateTurn, ContinuationInput.addAll]

/-- During admission (`active` set, no current continuation) a closure that
does not throw enlists its inputs; one that throws leaves those enlisted
before. -/
theorem runUser_enlist (fuel : Nat) (func : List UserCmd) (s : State ε)
    (hact : s.transactionState_.active = true) (hnull : s.continuationHolder_ = none) :
    runUser (AddInput env fuel) func s =
      if funcFails func then .threw (enlistAll env (funcInputs func) s)
      else .returned () (enlistAll env (funcInputs func) s) := by
  induction func generalizing s with
  | nil => simp [runUser, funcFails, funcInputs, enlistAll]
  | cons c rest ih =>
    cases c with
    | fail => simp [runUser, funcFails, funcInputs, enlistAll]
    | addInput r v =>
      simp only [runUser, funcFails, funcInputs, enlistAll]
      rw [AddInput_active env fuel r v s hact]
      simp only [hnull, Option.isSome_none, Bool.false_eq_true, if_false, bind_returned]
      exact ih _ (by simp [addTransactionInput, emit, hact]) (by simp [addTransactionInput, emit, hnull])

/-- While the current continuation is set a closure only buffers. -/
theorem runUser_buffer (fuel : Nat) (func : List UserCmd) (s : State ε)
    (hset : s.continuationHolder_.isSome = true) :
    runUser (AddInput env fuel) func s =
      if funcFails func then .threw (bufferAll (funcInputs func) s)
      else .returned () (bufferAll (funcInputs func) s) := by
  induction func generalizing s with
  | nil => simp [runUser, funcFails, funcInputs, bufferAll]
  | cons c rest ih =>
    cases c with
    | fail => simp [runUser, funcFails, funcInputs, bufferAll]
    | addInput r v =>
      simp only [runUser, funcFails, funcInputs, bufferAll]
      have h1 : AddInput env fuel r v s = .returned () (addContinuationInput r v s) := by
        unfold AddInput; simp [hset]
      rw [h1, bind_returned]
      refine ih _ ?_
      have h2 : (addContinuationInput r v s).continuationHolder_ = s.continuationHolder_ := by
        unfold addContinuationInput; split <;> simp [updateTurn]
      rw [h2]; exact hset

theorem executeContinuation_eq (cont : ContinuationInput InputClosure) (s : State ε) :
    executeContinuation env cont s
      = enlistAll env (cont.bufferedInputs_.map fun f => (f.r, f.v)) s := by
  unfold executeContinuation ContinuationInput.Execute
  simp only
  generalize cont.bufferedInputs_ = l
  have key : ∀ (l : List InputClosure) (c : ContinuationInput InputClosure) (s : State ε),
      (l.foldl (fun acc f => (acc.1, addTransactionInput env f.r f.v acc.2)) (c, s)).2
        = enlistAll env (l.map fun f => (f.r, f.v)) s := by
    intro l
    induction l with
    | nil => intro c s; rfl
    | cons f l ih => intro c s; simp only [List.foldl_cons, List.map_cons, enlistAll]; exact ih _ _
  exact key l cont s

/-! ### The input loop -/

theorem tickInputs_eq (turn : TurnRef) (ps : List NodeId) (b : Bool) (s : State ε) :
    tickInputs env turn ps b s =
      if (tickCalls env turn.id ps s.ext).any Call.isThrow then
        .threw (emitAll env (tickCalls env turn.id ps s.ext) s)
      else
        .returned (b || (tickCalls env turn.id ps s.ext).any Call.isPulsed)
          (emitAll env (tickCalls env turn.id ps s.ext) s) := by
  induction ps generalizing b s with
  | nil => simp [tickInputs, tickCalls, emitAll]
  | cons p ps ih =>
    simp only [tickInputs, tickCalls]
    cases h : env.tick p turn.id s.ext with
    | none => simp [Call.isThrow, emitAll]
    | some res =>
      have hext : (emit env (.nodeTick p turn.id (some res)) s).ext
          = env.effect (.nodeTick p turn.id (some res)) s.ext := rfl
      simp only [ih, List.any_cons, emitAll_cons, hext]
      cases res <;> simp [Call.isThrow, Call.isPulsed]

theorem tickCalls_total (htot : TotalTicks env) (id : TurnIdT) (ps : List NodeId) (e : ε) :
    (tickCalls env id ps e).any Call.isThrow = false
    ∧ (tickCalls env id ps e).map Call.tickNode = ps.map some
    ∧ ∀ c ∈ tickCalls env id ps e, ∃ p res, c = .nodeTick p id (some res) := by
  induction ps generalizing e with
  | nil => simp [tickCalls]
  | cons p ps ih =>
    simp only [tickCalls]
    cases h : env.tick p id e with
    | none => exact absurd h (htot p id e)
    | some res =>
      obtain ⟨h1, h2, h3⟩ := ih (env.effect (.nodeTick p id (some res)) e)
      refine ⟨?_, ?_, ?_⟩
      · simp [Call.isThrow, h1]
      · simp [Call.tickNode, h2]
      · intro c hc
        simp only [List.mem_cons] at hc
        rcases hc with rfl | hc
        · exact ⟨p, res, rfl⟩
        · exact h3 c hc

end phases

/-! ## One turn up to the end of its input loop -/

section master
variable {ε : Type} (env : Env ε)

theorem makeTurn_fst (flags : TurnFlagsT) (s : State ε) : (makeTurn env flags s).1 = newTurn s := by
  simp [makeTurn, newTurn, nextTurnId, nextTurnIdAt_fst]

theorem executeContinuation_closureInputs (cont : ContinuationInput InputClosure) (s : State ε) :
    executeContinuation env cont s = enlistAll env (closureInputs cont) s :=
  executeContinuation_eq env cont s

/-- One round of the loop of `processContinuations`. -/
theorem processContinuationsLoop_succ (addInput : NodeId → Value → State ε → Outcome ε Unit)
    (fuel : Nat) (cont : ContinuationInput InputClosure) (flags : TurnFlagsT) (s : State ε) :
    processContinuationsLoop env addInput (fuel + 1) cont flags s =
      if (turnTickCalls env flags (closureInputs cont) s).any Call.isThrow then
        .threw (turnTickedRaw env flags (closureInputs cont) s)
      else
        (propagateIf env addInput ((turnTickCalls env flags (closureInputs cont) s).any Call.isPulsed)
            (newTurn s) (turnTicked env flags (closureInputs cont) s)).bind fun _ s8 =>
          if ((emitAll env ((s8.turns (newTurn s).addr).detachedObservers_.map Call.unregister) s8).turns
                (newTurn s).addr).continuation_.IsEmpty then
            .returned () (emitAll env ((s8.turns (newTurn s).addr).detachedObservers_.map Call.unregister) s8)
          else
            processContinuationsLoop env addInput fuel
              ((emitAll env ((s8.turns (newTurn s).addr).detachedObservers_.map Call.unregister) s8).turns
                (newTurn s).addr).continuation_ flags
              (emitAll env ((s8.turns (newTurn s).addr).detachedObservers_.map Call.unregister) s8) := by
  rw [processContinuationsLoop]
  simp only [makeTurn_fst, executeContinuation_closureInputs, tickInputs_eq, unregisterAll_eq]
  have hA : setActive false (Engine.OnTurnAdmissionEnd env (newTurn s)
      (enlistAll env (closureInputs cont) (Engine.OnTurnAdmissionStart env (newTurn s)
        (setActive true (makeTurn env flags s).2))))
      = turnAdmitted env flags (closureInputs cont) s := rfl
  have hC : tickCalls env (newTurn s).id
      (turnAdmitted env flags (closureInputs cont) s).transactionState_.inputs
      (turnAdmitted env flags (closureInputs cont) s).ext
      = turnTickCalls env flags (closureInputs cont) s := rfl
  simp only [hA, hC]
  by_cases h : (turnTickCalls env flags (closureInputs cont) s).any Call.isThrow = true
  · simp only [h, if_true, bind_threw, turnTickedRaw]
  · simp only [h, if_false, bind_returned, Bool.false_or, propagateIf, turnTicked, turnTickedRaw]
    rfl

end master

section master2
variable {ε : Type} (env : Env ε)

@[simp] theorem admissionStarted_trace (flags : TurnFlagsT) (s : State ε) :
    (admissionStarted env flags s).trace = s.trace
      ++ [snap (.turnCreate s.nextTurnId_ flags) s,
          { call := .onTurnAdmissionStart s.nextTurnId_, active := true,
            inputs := s.transactionState_.inputs }] := by
  simp [admissionStarted, Engine.OnTurnAdmissionStart, setActive, makeTurn, nextTurnId,
    nextTurnIdAt_fst, emit, snap, newTurn]

@[simp] theorem admissionStarted_transactionState (flags : TurnFlagsT) (s : State ε) :
    (admissionStarted env flags s).transactionState_
      = { active := true, inputs := s.transactionState_.inputs } := by
  simp [admissionStarted, Engine.OnTurnAdmissionStart, setActive, makeTurn, nextTurnId, emit]

@[simp] theorem admissionStarted_nextTurnId (flags : TurnFlagsT) (s : State ε) :
    (admissionStarted env flags s).nextTurnId_ = (nextTurnIdAt s.nextTurnId_).2 := by
  simp [admissionStarted, Engine.OnTurnAdmissionStart, setActive, makeTurn, nextTurnId, emit]

@[simp] theorem admissionStarted_holder (flags : TurnFlagsT) (s : State ε) :
    (admissionStarted env flags s).continuationHolder_ = s.continuationHolder_ := by
  simp [admissionStarted, Engine.OnTurnAdmissionStart, setActive, makeTurn, nextTurnId, emit]

@[simp] theorem admissionStarted_turnCount (flags : TurnFlagsT) (s : State ε) :
    (admissionStarted env flags s).turnCount = s.turnCount + 1 := by
  simp [admissionStarted, Engine.OnTurnAdmissionStart, setActive, makeTurn, nextTurnId, emit]

@[simp] theorem admissionStarted_turnFlags (flags : TurnFlagsT) (s : State ε) :
    (admissionStarted env flags s).turnFlags_ = s.turnFlags_ := by
  simp [admissionStarted, Engine.OnTurnAdmissionStart, setActive, makeTurn, nextTurnId, emit]

@[simp] theorem admissionStarted_turns (flags : TurnFlagsT) (s : State ε) :
    (admissionStarted env flags s).turns = Function.update s.turns s.turnCount
        { id := s.nextTurnId_, flags := flags, detachedObservers_ := [],
          continuation_ := { bufferedInputs_ := [] } } := by
  simp [admissionStarted, Engine.OnTurnAdmissionStart, setActive, makeTurn, nextTurnId,
    nextTurnIdAt_fst, emit]

theorem turnAdmitted_trace (flags : TurnFlagsT) (rvs : List (NodeId × Value)) (s : State ε) :
    (turnAdmitted env flags rvs s).trace = s.trace
      ++ [snap (.turnCreate s.nextTurnId_ flags) s,
          { call := .onTurnAdmissionStart s.nextTurnId_, active := true,
            inputs := s.transactionState_.inputs }]
      ++ inputEvents true s.transactionState_.inputs rvs
      ++ [{ call := .onTurnAdmissionEnd s.nextTurnId_, active := true,
            inputs := s.transactionState_.inputs ++ rvs.map Prod.fst }] := by
  simp [turnAdmitted, setActive, Engine.OnTurnAdmissionEnd, emit, newTurn]

@[simp] theorem turnAdmitted_transactionState (flags : TurnFlagsT) (rvs : List (NodeId × Value))
    (s : State ε) :
    (turnAdmitted env flags rvs s).transactionState_
      = { active := false, inputs := s.transactionState_.inputs ++ rvs.map Prod.fst } := by
  simp [turnAdmitted, setActive, Engine.OnTurnAdmissionEnd, emit]

@[simp] theorem turnAdmitted_nextTurnId (flags : TurnFlagsT) (rvs : List (NodeId × Value))
    (s : State ε) :
    (turnAdmitted env flags rvs s).nextTurnId_ = (nextTurnIdAt s.nextTurnId_).2 := by
  simp [turnAdmitted, setActive, Engine.OnTurnAdmissionEnd, emit]

@[simp] theorem turnAdmitted_holder (flags : TurnFlagsT) (rvs : List (NodeId × Value))
    (s : State ε) :
    (turnAdmitted env flags rvs s).continuationHolder_ = s.continuationHolder_ := by
  simp [turnAdmitted, setActive, Engine.OnTurnAdmissionEnd, emit]

@[simp] theorem turnAdmitted_turnCount (flags : TurnFlagsT) (rvs : List (NodeId × Value))
    (s : State ε) :
    (turnAdmitted env flags rvs s).turnCount = s.turnCount + 1 := by
  simp [turnAdmitted, setActive, Engine.OnTurnAdmissionEnd, emit]

@[simp] theorem turnAdmitted_turnFlags (flags : TurnFlagsT) (rvs : List (NodeId × Value))
    (s : State ε) :
    (turnAdmitted env flags rvs s).turnFlags_ = s.turnFlags_ := by
  simp [turnAdmitted, setActive, Engine.OnTurnAdmissionEnd, emit]

@[simp] theorem turnAdmitted_turns (flags : TurnFlagsT) (rvs : List (NodeId × Value))
    (s : State ε) :
    (turnAdmitted env flags rvs s).turns = Function.update s.turns s.turnCount
        { id := s.nextTurnId_, flags := flags, detachedObservers_ := [],
          continuation_ := { bufferedInputs_ := [] } } := by
  simp [turnAdmitted, setActive, Engine.OnTurnAdmissionEnd, emit]

theorem turnTickedRaw_trace (flags : TurnFlagsT) (rvs : List (NodeId × Value)) (s : State ε) :
    (turnTickedRaw env flags rvs s).trace = (turnAdmitted env flags rvs s).trace
      ++ (turnTickCalls env flags rvs s).map fun c =>
          { call := c, active := false,
            inputs := s.transactionState_.inputs ++ rvs.map Prod.fst } := by
  simp [turnTickedRaw, snap]

theorem turnTicked_trace (flags : TurnFlagsT) (rvs : List (NodeId × Value)) (s : State ε) :
    (turnTicked env flags rvs s).trace = (turnAdmitted env flags rvs s).trace
      ++ (turnTickCalls env flags rvs s).map fun c =>
          { call := c, active := false,
            inputs := s.transactionState_.inputs ++ rvs.map Prod.fst } := by
  rw [← turnTickedRaw_trace]; rfl

@[simp] theorem turnTickedRaw_transactionState (flags : TurnFlagsT)
    (rvs : List (NodeId × Value)) (s : State ε) :
    (turnTickedRaw env flags rvs s).transactionState_
      = { active := false, inputs := s.transactionState_.inputs ++ rvs.map Prod.fst } := by
  simp [turnTickedRaw]

@[simp] theorem turnTicked_transactionState (flags : TurnFlagsT) (rvs : List (NodeId × Value))
    (s : State ε) :
    (turnTicked env flags rvs s).transactionState_ = { active := false, inputs := [] } := by
  simp [turnTicked, clearInputs]

@[simp] theorem turnTicked_nextTurnId (flags : TurnFlagsT) (rvs : List (NodeId × Value))
    (s : State ε) :
    (turnTicked env flags rvs s).nextTurnId_ = (nextTurnIdAt s.nextTurnId_).2 := by
  simp [turnTicked, turnTickedRaw, clearInputs]

@[simp] theorem turnTicked_holder (flags : TurnFlagsT) (rvs : List (NodeId × Value))
    (s : State ε) :
    (turnTicked env flags rvs s).continuationHolder_ = s.continuationHolder_ := by
  simp [turnTicked, turnTickedRaw, clearInputs]

@[simp] theorem turnTicked_turnCount (flags : TurnFlagsT) (rvs : List (NodeId × Value))
    (s : State ε) :
    (turnTicked env flags rvs s).turnCount = s.turnCount + 1 := by
  simp [turnTicked, turnTickedRaw, clearInputs]

@[simp] theorem turnTicked_turnFlags (flags : TurnFlagsT) (rvs : List (NodeId × Value))
    (s : State ε) :
    (turnTicked env flags rvs s).turnFlags_ = s.turnFlags_ := by
  simp [turnTicked, turnTickedRaw, clearInputs]

@[simp] theorem turnTicked_turns (flags : TurnFlagsT) (rvs : List (NodeId × Value))
    (s : State ε) :
    (turnTicked env flags rvs s).turns = Function.update s.turns s.turnCount
        { id := s.nextTurnId_, flags := flags, detachedObservers_ := [],
          continuation_ := { bufferedInputs_ := [] } } := by
  simp [turnTicked, turnTickedRaw, clearInputs]

/-- The turn object is new when the input loop ends: nothing to unregister and
an empty continuation. -/
theorem turnTicked_newTurn (flags : TurnFlagsT) (rvs : List (NodeId × Value)) (s : State ε) :
    (turnTicked env flags rvs s).turns (newTurn s).addr
      = { id := s.nextTurnId_, flags := flags, detachedObservers_ := [],
          continuation_ := { bufferedInputs_ := [] } } := by
  simp [newTurn]

/-- The function `postProcessTurn`, with the unregister loop as a list of calls. -/
theorem postProcessTurn_eq (addInput : NodeId → Value → State ε → Outcome ε Unit) (fuel : Nat)
    (turn : TurnRef) (s : State ε) :
    postProcessTurn env addInput fuel turn s =
      if (s.turns turn.addr).continuation_.IsEmpty then
        .returned () (emitAll env ((s.turns turn.addr).detachedObservers_.map Call.unregister) s)
      else
        processContinuations env addInput fuel (s.turns turn.addr).continuation_ 0
          (emitAll env ((s.turns turn.addr).detachedObservers_.map Call.unregister) s) := by
  simp only [postProcessTurn, unregisterAll_eq, emitAll_turns]
  cases (s.turns turn.addr).continuation_.IsEmpty <;> simp

/-- The function `DoTransaction` when the merge is refused and no continuation
is current: the closure enlists its inputs, or throws; the input loop runs, or
throws; then phase 3 and `postProcessTurn`. -/
theorem DoTransaction_eq (fuel : Nat) (func : List UserCmd) (flags : TurnFlagsT) (s : State ε)
    (hmerge : env.tryMerge func s.ext = false) (hnull : s.continuationHolder_ = none) :
    DoTransaction env fuel func flags s =
      if funcFails func then
        .threw (enlistAll env (funcInputs func)
          (admissionStarted env flags (emit env (.tryMerge false) s)))
      else if (turnTickCalls env flags (funcInputs func) (emit env (.tryMerge false) s)).any
          Call.isThrow then
        .threw (turnTickedRaw env flags (funcInputs func) (emit env (.tryMerge false) s))
      else
        (propagateIf env (AddInput env fuel)
            ((turnTickCalls env flags (funcInputs func) (emit env (.tryMerge false) s)).any
              Call.isPulsed)
            (newTurn (emit env (.tryMerge false) s))
            (turnTicked env flags (funcInputs func) (emit env (.tryMerge false) s))).bind
          fun _ s8 =>
            postProcessTurn env (AddInput env fuel) fuel (newTurn (emit env (.tryMerge false) s)) s8 := by
  unfold DoTransaction
  simp only [Engine.TryMerge, hmerge, Bool.false_eq_true, if_false, makeTurn_fst]
  have hS : Engine.OnTurnAdmissionStart env (newTurn (emit env (.tryMerge false) s))
      (setActive true (makeTurn env flags (emit env (.tryMerge false) s)).2)
      = admissionStarted env flags (emit env (.tryMerge false) s) := rfl
  rw [hS, runUser_enlist env fuel func _ (by simp) (by simpa using hnull)]
  by_cases hf : funcFails func = true
  · simp only [hf, if_true, bind_threw]
  · simp only [hf, Bool.false_eq_true, if_false, bind_returned, tickInputs_eq]
    have hA : setActive false (Engine.OnTurnAdmissionEnd env (newTurn (emit env (.tryMerge false) s))
        (enlistAll env (funcInputs func)
          (admissionStarted env flags (emit env (.tryMerge false) s))))
        = turnAdmitted env flags (funcInputs func) (emit env (.tryMerge false) s) := rfl
    have hC : tickCalls env (newTurn (emit env (.tryMerge false) s)).id
        (turnAdmitted env flags (funcInputs func)
          (emit env (.tryMerge false) s)).transactionState_.inputs
        (turnAdmitted env flags (funcInputs func) (emit env (.tryMerge false) s)).ext
        = turnTickCalls env flags (funcInputs func) (emit env (.tryMerge false) s) := rfl
    simp only [hA, hC]
    by_cases h : (turnTickCalls env flags (funcInputs func) (emit env (.tryMerge false) s)).any
        Call.isThrow = true
    · simp only [h, if_true, bind_threw, turnTickedRaw]
    · simp only [h, if_false, bind_returned, Bool.false_or, propagateIf, turnTicked,
        turnTickedRaw]
      rfl

end master2

/-! ## Relations every step respects -/

section stable
variable {ε : Type} {env : Env ε}

theorem Outcome.All.mono {α : Type} {P Q : State ε → Prop} (h : ∀ s, P s → Q s)
    {o : Outcome ε α} (ho : o.All P) : o.All Q := by
  cases o with
  | returned a s => exact h s ho
  | threw s => exact h s ho
  | outOfFuel => trivial

theorem Outcome.All.bind_all {α β : Type} {P Q : State ε → Prop} {o : Outcome ε α}
    {k : α → State ε → Outcome ε β} (ho : o.All P) (hthrow : ∀ s, P s → Q s)
    (hk : ∀ a s, P s → (k a s).All Q) : (o.bind k).All Q := by
  cases o with
  | returned a s => exact hk a s ho
  | threw s => exact hthrow s ho
  | outOfFuel => trivial

variable {R : State ε → State ε → Prop}

theorem Stable.bind_rel (hR : Stable env R) {α β : Type} {s : State ε} {o : Outcome ε α}
    {k : α → State ε → Outcome ε β} (ho : o.All (R s))
    (hk : ∀ a s1, (k a s1).All (R s1)) : (o.bind k).All (R s) :=
  ho.bind_all (fun _ h => h) fun a s1 h1 => (hk a s1).mono fun _ h2 => hR.trans _ _ _ h1 h2

theorem Stable.after (hR : Stable env R) {α : Type} {s s1 : State ε} {o : Outcome ε α}
    (h : R s s1) (ho : o.All (R s1)) : o.All (R s) :=
  ho.mono fun _ h2 => hR.trans _ _ _ h h2

theorem Stable.afterAt (hR : Stable env R) {α : Type} (s1 : State ε) {s : State ε}
    {o : Outcome ε α} (h : R s s1) (ho : o.All (R s1)) : o.All (R s) :=
  hR.after h ho

theorem Stable.rel_emitAll (hR : Stable env R) (cs : List Call) (s : State ε) :
    R s (emitAll env cs s) := by
  induction cs generalizing s with
  | nil => exact hR.refl s
  | cons c cs ih => exact hR.trans _ _ _ (hR.step_emit c s) (ih _)

theorem Stable.rel_addTransactionInput (hR : Stable env R) (r : NodeId) (v : Value) (s : State ε) :
    R s (addTransactionInput env r v s) :=
  hR.trans _ _ _ (hR.step_emit (.nodeAddInput r v) s) (hR.step_setInputs _ _)

theorem Stable.rel_addContinuationInput (hR : Stable env R) (r : NodeId) (v : Value) (s : State ε) :
    R s (addContinuationInput r v s) := by
  unfold addContinuationInput
  split
  · exact hR.step_updateTurn _ _ _
  · exact hR.refl s

theorem Stable.rel_enlistAll (hR : Stable env R) (rvs : List (NodeId × Value)) (s : State ε) :
    R s (enlistAll env rvs s) := by
  induction rvs generalizing s with
  | nil => exact hR.refl s
  | cons p rvs ih => exact hR.trans _ _ _ (hR.rel_addTransactionInput p.1 p.2 s) (ih _)

theorem Stable.rel_clearInputs (hR : Stable env R) (s : State ε) : R s (clearInputs s) :=
  hR.step_setInputs [] s

theorem Stable.rel_turnTickedRaw (hR : Stable env R) (flags : TurnFlagsT)
    (rvs : List (NodeId × Value)) (s : State ε) : R s (turnTickedRaw env flags rvs s) := by
  unfold turnTickedRaw turnAdmitted admissionStarted Engine.OnTurnAdmissionEnd
    Engine.OnTurnAdmissionStart
  refine hR.trans _ _ _ ?_ (hR.rel_emitAll _ _)
  refine hR.trans _ _ _ ?_ (hR.step_setActive _ _)
  refine hR.trans _ _ _ ?_ (hR.step_emit _ _)
  refine hR.trans _ _ _ ?_ (hR.rel_enlistAll _ _)
  refine hR.trans _ _ _ ?_ (hR.step_emit _ _)
  exact hR.trans _ _ _ (hR.step_makeTurn _ _) (hR.step_setActive _ _)

theorem Stable.rel_turnTicked (hR : Stable env R) (flags : TurnFlagsT)
    (rvs : List (NodeId × Value)) (s : State ε) : R s (turnTicked env flags rvs s) :=
  hR.trans _ _ _ (hR.rel_turnTickedRaw flags rvs s) (hR.rel_clearInputs _)

section reentrant
variable (hR : Stable env R) (addInput : NodeId → Value → State ε → Outcome ε Unit)
  (hadd : ∀ r v s, (addInput r v s).All (R s))
include hR hadd

theorem Stable.rel_runUser (cmds : List UserCmd) (s : State ε) :
    (runUser addInput cmds s).All (R s) := by
  induction cmds generalizing s with
  | nil => exact hR.refl s
  | cons c rest ih =>
    cases c with
    | fail => exact hR.refl s
    | addInput r v => exact hR.bind_rel (hadd r v s) fun _ s1 => ih s1

theorem Stable.rel_runEngine (turn : TurnRef) (cmds : List PropCmd) (s : State ε) :
    (runEngine addInput turn cmds s).All (R s) := by
  induction cmds generalizing s with
  | nil => exact hR.refl s
  | cons c rest ih =>
    cases c with
    | setCurrentContinuation =>
      exact hR.after (hR.step_setHolder (some turn.addr) s) (ih _)
    | clearCurrentContinuation =>
      exact hR.after (hR.step_setHolder none s) (ih _)
    | detachObserver o =>
      exact hR.after (hR.step_updateTurn turn.addr _ s) (ih _)
    | user c =>
      exact hR.bind_rel (hR.rel_runUser addInput hadd [c] s) fun _ s1 => ih s1

theorem Stable.rel_OnTurnPropagate (turn : TurnRef) (s : State ε) :
    (Engine.OnTurnPropagate env addInput turn s).All (R s) := by
  unfold Engine.OnTurnPropagate
  refine hR.afterAt
    (emit env (.onTurnPropagate turn.id) (emit env (.logTransactionBegin turn.id) s))
    (hR.trans _ _ _ (hR.step_emit _ s) (hR.step_emit _ _)) ?_
  exact hR.bind_rel (hR.rel_runEngine addInput hadd turn _ _) fun _ s3 => hR.step_emit _ s3

theorem Stable.rel_propagateIf (b : Bool) (turn : TurnRef) (s : State ε) :
    (propagateIf env addInput b turn s).All (R s) := by
  unfold propagateIf
  split
  · exact hR.rel_OnTurnPropagate addInput hadd turn s
  · exact hR.refl s

theorem Stable.rel_processContinuationsLoop (fuel : Nat) (cont : ContinuationInput InputClosure)
    (flags : TurnFlagsT) (s : State ε) :
    (processContinuationsLoop env addInput fuel cont flags s).All (R s) := by
  induction fuel generalizing cont s with
  | zero => trivial
  | succ fuel ih =>
    rw [processContinuationsLoop_succ]
    split
    · exact hR.rel_turnTickedRaw flags _ s
    · refine hR.after (hR.rel_turnTicked flags (closureInputs cont) s) ?_
      refine hR.bind_rel (hR.rel_propagateIf addInput hadd _ _ _) fun _ s8 => ?_
      split
      · exact hR.rel_emitAll _ _
      · exact hR.after (hR.rel_emitAll _ s8) (ih _ _)

theorem Stable.rel_postProcessTurn (fuel : Nat) (turn : TurnRef) (s : State ε) :
    (postProcessTurn env addInput fuel turn s).All (R s) := by
  rw [postProcessTurn_eq]
  split
  · exact hR.rel_emitAll _ _
  · exact hR.after (hR.rel_emitAll _ s) (hR.rel_processContinuationsLoop addInput hadd fuel _ _ _)

theorem Stable.rel_addSimpleInput (fuel : Nat) (r : NodeId) (v : Value) (s : State ε) :
    (addSimpleInput env addInput fuel r v s).All (R s) := by
  have h3 : R s (Engine.OnTurnAdmissionEnd env (makeTurn env 0 s).1
      (emit env (.nodeAddInput r v)
        (Engine.OnTurnAdmissionStart env (makeTurn env 0 s).1 (makeTurn env 0 s).2))) :=
    hR.trans _ _ _ (hR.trans _ _ _ (hR.trans _ _ _ (hR.step_makeTurn 0 s) (hR.step_emit _ _))
      (hR.step_emit _ _)) (hR.step_emit _ _)
  unfold addSimpleInput
  simp only
  split
  · exact hR.trans _ _ _ h3 (hR.step_emit _ _)
  · rename_i res _
    refine hR.afterAt (emit env (.nodeTick r (makeTurn env 0 s).1.id (some res))
      (Engine.OnTurnAdmissionEnd env (makeTurn env 0 s).1
        (emit env (.nodeAddInput r v)
          (Engine.OnTurnAdmissionStart env (makeTurn env 0 s).1 (makeTurn env 0 s).2))))
      (hR.trans _ _ _ h3 (hR.step_emit _ _)) ?_
    refine hR.bind_rel ?_ fun _ s5 => hR.rel_postProcessTurn addInput hadd fuel _ s5
    split
    · exact hR.rel_OnTurnPropagate addInput hadd _ _
    · exact hR.refl _

end reentrant

theorem Stable.rel_AddInput (hR : Stable env R) (fuel : Nat) (r : NodeId) (v : Value) (s : State ε) :
    (AddInput env fuel r v s).All (R s) := by
  induction fuel generalizing r v s with
  | zero =>
    unfold AddInput
    split
    · exact hR.rel_addContinuationInput r v s
    · split
      · exact hR.rel_addTransactionInput r v s
      · trivial
  | succ fuel ih =>
    unfold AddInput
    split
    · exact hR.rel_addContinuationInput r v s
    · split
      · exact hR.rel_addTransactionInput r v s
      · exact hR.rel_addSimpleInput (AddInput env fuel) ih fuel r v s

theorem Stable.rel_DoTransaction (hR : Stable env R) (fuel : Nat) (func : List UserCmd)
    (flags : TurnFlagsT) (s : State ε) :
    (DoTransaction env fuel func flags s).All
      (R (emit env (.tryMerge (env.tryMerge func s.ext)) s)) := by
  unfold DoTransaction Engine.TryMerge
  simp only
  generalize emit env (.tryMerge (env.tryMerge func s.ext)) s = s0
  split
  · exact hR.refl _
  · refine hR.afterAt (Engine.OnTurnAdmissionStart env (makeTurn env flags s0).1
        (setActive true (makeTurn env flags s0).2))
      (hR.trans _ _ _ (hR.trans _ _ _ (hR.step_makeTurn flags _) (hR.step_setActive true _))
        (hR.step_emit _ _)) ?_
    refine hR.bind_rel (hR.rel_runUser _ (hR.rel_AddInput fuel) func _) fun _ s3 => ?_
    refine hR.afterAt (setActive false (Engine.OnTurnAdmissionEnd env (makeTurn env flags s0).1 s3))
      (hR.trans _ _ _ (hR.step_emit _ s3) (hR.step_setActive false _)) ?_
    rw [tickInputs_eq]
    split
    · exact hR.rel_emitAll _ _
    · simp only [bind_returned]
      refine hR.afterAt (clearInputs (emitAll env
          (tickCalls env (makeTurn env flags s0).1.id
            (setActive false (Engine.OnTurnAdmissionEnd env (makeTurn env flags s0).1
              s3)).transactionState_.inputs
            (setActive false (Engine.OnTurnAdmissionEnd env (makeTurn env flags s0).1 s3)).ext)
          (setActive false (Engine.OnTurnAdmissionEnd env (makeTurn env flags s0).1 s3))))
        (hR.trans _ _ _ (hR.rel_emitAll _ _) (hR.rel_clearInputs _)) ?_
      refine hR.bind_rel ?_ fun _ s8 => hR.rel_postProcessTurn _ (hR.rel_AddInput fuel) fuel _ s8
      split
      · exact hR.rel_OnTurnPropagate _ (hR.rel_AddInput fuel) _ _
      · exact hR.refl _

theorem Extends.stable : Stable env (Extends : State ε → State ε → Prop) where
  refl := fun s => ⟨[], by simp⟩
  trans := fun a b c ⟨e1, h1⟩ ⟨e2, h2⟩ => ⟨e1 ++ e2, by rw [h2, h1, List.append_assoc]⟩
  step_emit := fun c s => ⟨[snap c s], rfl⟩
  step_setActive := fun _ _ => ⟨[], by simp [setActive]⟩
  step_setInputs := fun _ _ => ⟨[], by simp⟩
  step_updateTurn := fun _ _ _ => ⟨[], by simp [updateTurn]⟩
  step_setHolder := fun _ _ => ⟨[], by simp⟩
  step_makeTurn := fun flags s => ⟨[snap (.turnCreate s.nextTurnId_ flags) s], by
    simp [makeTurn, nextTurnId, nextTurnIdAt_fst, emit, snap]⟩

end stable

/-- C4. Dispatch of `AddInput`, in this order. (1) When the current
continuation is set (holder not null), whatever `active` is, `AddInput` returns
having appended exactly one closure to the buffer the holder points to: the
record of calls, `transactionState_`, the turn-id counter and the number of turn
objects are unchanged, so `node.AddInput` is not called, nothing is enlisted and
no turn is opened. (2) Otherwise, when `active` is set, it calls
`node.AddInput(value)` once and appends the node at the end of the enlisted
inputs; counter, turn objects are unchanged. (3) Otherwise it is
`addSimpleInput(node, value)`. -/
theorem AddInput_dispatch {ε : Type} (env : Env ε) (fuel : Nat) (r : NodeId) (v : Value)
    (s : State ε) :
    (∀ addr, s.continuationHolder_ = some addr →
      ∃ s1, AddInput env fuel r v s = .returned () s1
        ∧ (s1.turns addr).continuation_.bufferedInputs_
            = (s.turns addr).continuation_.bufferedInputs_ ++ [{ r := r, v := v }]
        ∧ (s1.turns addr).detachedObservers_ = (s.turns addr).detachedObservers_
        ∧ (∀ a, a ≠ addr → s1.turns a = s.turns a)
        ∧ s1.trace = s.trace
        ∧ s1.transactionState_ = s.transactionState_
        ∧ s1.nextTurnId_ = s.nextTurnId_
        ∧ s1.turnCount = s.turnCount
        ∧ s1.continuationHolder_ = s.continuationHolder_)
    ∧ (s.continuationHolder_ = none → s.transactionState_.active = true →
      ∃ s1, AddInput env fuel r v s = .returned () s1
        ∧ s1.trace = s.trace ++ [{ call := .nodeAddInput r v, active := true,
                                   inputs := s.transactionState_.inputs }]
        ∧ s1.transactionState_.inputs = s.transactionState_.inputs ++ [r]
        ∧ s1.transactionState_.active = true
        ∧ s1.nextTurnId_ = s.nextTurnId_
        ∧ s1.turnCount = s.turnCount
        ∧ s1.turns = s.turns
        ∧ s1.continuationHolder_ = none)
    ∧ (s.continuationHolder_ = none → s.transactionState_.active = false →
      AddInput env (fuel + 1) r v s = addSimpleInput env (AddInput env fuel) fuel r v s) := by
  refine ⟨?_, ?_, ?_⟩
  · intro addr h
    refine ⟨addContinuationInput r v s, ?_, ?_⟩
    · unfold AddInput; simp [h]
    · simp only [addContinuationInput, h, updateTurn, ContinuationInput.Add,
        Function.update_same, true_and, and_true]
      intro a ha
      exact Function.update_noteq ha _ _
  · intro h hact
    refine ⟨addTransactionInput env r v s, ?_, ?_⟩
    · rw [AddInput_active env fuel r v s hact]; simp [h]
    · simp [addTransactionInput, emit, hact, h]
  · intro h hact
    rw [AddInput]
    simp [h, hact]

/-- Case (1) with `active` set, case (2), and case (3) in the initial state. -/
theorem AddInput_dispatch_witness :
    (∃ s1, AddInput (sampleEnv false) 0 4 9
        (setActive true (SetCurrentContinuation (newTurn (State.init ())) (State.init ())))
          = .returned () s1
        ∧ (s1.turns 0).continuation_.bufferedInputs_ = [] ++ [{ r := 4, v := 9 }]
        ∧ s1.trace = [])
    ∧ (∃ s1, AddInput (sampleEnv false) 0 4 9 (setActive true (State.init ())) = .returned () s1
        ∧ s1.trace = [] ++ [{ call := .nodeAddInput 4 9, active := true, inputs := [] }]
        ∧ s1.transactionState_.inputs = [] ++ [4])
    ∧ AddInput (sampleEnv false) (0 + 1) 4 9 (State.init ())
        = addSimpleInput (sampleEnv false) (AddInput (sampleEnv false) 0) 0 4 9 (State.init ()) := by
  refine ⟨?_, ?_, ?_⟩
  · obtain ⟨s1, h1, h2, -, -, h5, -⟩ := (AddInput_dispatch (sampleEnv false) 0 4 9
      (setActive true (SetCurrentContinuation (newTurn (State.init ())) (State.init ())))).1 0 rfl
    exact ⟨s1, h1, h2, h5⟩
  · obtain ⟨s1, h1, h2, h3, -⟩ := (AddInput_dispatch (sampleEnv false) 0 4 9
      (setActive true (State.init ()))).2.1 rfl rfl
    exact ⟨s1, h1, h2, h3⟩
  · exact (AddInput_dispatch (sampleEnv false) 0 4 9 (State.init ())).2.2 rfl rfl

/-- C5. Merge short-circuit: `DoTransaction` calls `Engine::TryMerge(func)`
before anything else (whatever a run records starts with that call), and when
the call returns true, for every `func` and `flags`, `DoTransaction` returns at
once: the record grows by that call alone (no turn made, `func` not run, no
hook, `Tick` or `Unregister` call), and the turn-id counter, `transactionState_`,
the turn objects, the current continuation and `turnFlags_` are unchanged. -/
theorem DoTransaction_merge_short_circuit {ε : Type} (env : Env ε) (fuel : Nat)
    (func : List UserCmd) (flags : TurnFlagsT) (s : State ε) :
    (DoTransaction env fuel func flags s).All
        (fun s1 => ∃ evs, s1.trace
          = s.trace ++ snap (.tryMerge (env.tryMerge func s.ext)) s :: evs)
    ∧ (env.tryMerge func s.ext = true →
      ∃ s1, DoTransaction env fuel func flags s = .returned () s1
        ∧ s1.trace = s.trace ++ [snap (.tryMerge true) s]
        ∧ s1.nextTurnId_ = s.nextTurnId_
        ∧ s1.transactionState_ = s.transactionState_
        ∧ s1.turns = s.turns
        ∧ s1.turnCount = s.turnCount
        ∧ s1.continuationHolder_ = s.continuationHolder_
        ∧ s1.turnFlags_ = s.turnFlags_) := by
  refine ⟨?_, ?_⟩
  · refine (Extends.stable.rel_DoTransaction fuel func flags s).mono ?_
    rintro s1 ⟨evs, h⟩
    exact ⟨evs, by rw [h]; simp [emit, snap]⟩
  · intro h
    refine ⟨emit env (.tryMerge true) s, ?_, ?_⟩
    · unfold DoTransaction; simp [Engine.TryMerge, h]
    · simp [emit, snap]

/-- A merging engine, a closure with one input, merging enabled in the flags. -/
theorem DoTransaction_merge_short_circuit_witness :
    ∃ s1, DoTransaction (sampleEnv true) 0 [.addInput 1 5] enable_input_merging (State.init ())
        = .returned () s1
      ∧ s1.trace = [] ++ [snap (.tryMerge true) (State.init ())]
      ∧ s1.nextTurnId_ = 0 :=
  match (DoTransaction_merge_short_circuit (sampleEnv true) 0 [.addInput 1 5]
      enable_input_merging (State.init ())).2 rfl with
  | ⟨s1, h1, h2, h3, _⟩ => ⟨s1, h1, h2, h3⟩

section buffered
variable {ε : Type} (env : Env ε)

@[simp] theorem bufferAll_turnFlags (rvs : List (NodeId × Value)) (s : State ε) :
    (bufferAll rvs s).turnFlags_ = s.turnFlags_ := by
  induction rvs generalizing s with
  | nil => rfl
  | cons p rvs ih =>
    rw [bufferAll, ih]; unfold addContinuationInput; split <;> simp [updateTurn]

/-- The function `DoTransaction` when the merge is refused while a continuation
is current: the closure only buffers, and the input loop runs over what was
enlisted before. -/
theorem DoTransaction_eq_buffered (fuel : Nat) (func : List UserCmd) (flags : TurnFlagsT)
    (s : State ε) (hmerge : env.tryMerge func s.ext = false)
    (hset : s.continuationHolder_.isSome = true) :
    DoTransaction env fuel func flags s =
      if funcFails func then
        .threw (bufferAll (funcInputs func)
          (admissionStarted env flags (emit env (.tryMerge false) s)))
      else
        (tickInputs env (newTurn (emit env (.tryMerge false) s))
            s.transactionState_.inputs false
            (setActive false (Engine.OnTurnAdmissionEnd env (newTurn (emit env (.tryMerge false) s))
              (bufferAll (funcInputs func)
                (admissionStarted env flags (emit env (.tryMerge false) s)))))).bind
          fun shouldPropagate s6 =>
            (propagateIf env (AddInput env fuel) shouldPropagate
                (newTurn (emit env (.tryMerge false) s)) (clearInputs s6)).bind
              fun _ s8 =>
                postProcessTurn env (AddInput env fuel) fuel
                  (newTurn (emit env (.tryMerge false) s)) s8 := by
  unfold DoTransaction
  simp only [Engine.TryMerge, hmerge, Bool.false_eq_true, if_false, makeTurn_fst]
  have hS : Engine.OnTurnAdmissionStart env (newTurn (emit env (.tryMerge false) s))
      (setActive true (makeTurn env flags (emit env (.tryMerge false) s)).2)
      = admissionStarted env flags (emit env (.tryMerge false) s) := rfl
  rw [hS, runUser_buffer env fuel func _ (by simpa using hset)]
  by_cases hf : funcFails func = true
  · simp only [hf, if_true, bind_threw]
  · simp only [hf, Bool.false_eq_true, if_false, bind_returned]
    have hin : (setActive false (Engine.OnTurnAdmissionEnd env
        (newTurn (emit env (.tryMerge false) s))
        (bufferAll (funcInputs func)
          (admissionStarted env flags (emit env (.tryMerge false) s))))).transactionState_.inputs
        = s.transactionState_.inputs := by
      simp [setActive, Engine.OnTurnAdmissionEnd, emit]
    rw [hin]
    rfl

end buffered

section runs
variable {ε : Type} (env : Env ε)

theorem inputEvents_mem (a : Bool) (ins : List NodeId) (rvs : List (NodeId × Value)) :
    ∀ e ∈ inputEvents a ins rvs, e.active = a ∧ ∃ r v, e.call = .nodeAddInput r v := by
  induction rvs generalizing ins with
  | nil => simp [inputEvents]
  | cons p rvs ih =>
    intro e he
    simp only [inputEvents, List.mem_cons] at he
    rcases he with rfl | he
    · exact ⟨rfl, p.1, p.2, rfl⟩
    · exact ih _ e he

theorem inputEvents_calls (a : Bool) (ins : List NodeId) (rvs : List (NodeId × Value)) :
    (inputEvents a ins rvs).map Event.call = rvs.map fun p => Call.nodeAddInput p.1 p.2 := by
  induction rvs generalizing ins with
  | nil => simp [inputEvents]
  | cons p rvs ih => simp [inputEvents, ih]

/-- Whatever follows a call of `Engine::OnTurnPropagate(turn)`, the record
continues with the begin record and the engine's `OnTurnPropagate`, both made in
the state of the call. -/
theorem OnTurnPropagate_bind_trace (addInput : NodeId → Value → State ε → Outcome ε Unit)
    (hadd : ∀ r v s, (addInput r v s).All (Extends s)) (turn : TurnRef) (s : State ε)
    (k : Unit → State ε → Outcome ε Unit) (hk : ∀ u s1, (k u s1).All (Extends s1)) :
    ((Engine.OnTurnPropagate env addInput turn s).bind k).All fun s1 =>
      ∃ evs, s1.trace = s.trace ++ snap (.logTransactionBegin turn.id) s
        :: snap (.onTurnPropagate turn.id) s :: evs := by
  have h1 : ((Engine.OnTurnPropagate env addInput turn s).bind k).All
      (Extends (emit env (.onTurnPropagate turn.id) (emit env (.logTransactionBegin turn.id) s))) := by
    unfold Engine.OnTurnPropagate
    simp only
    have hst : Stable env (Extends : State ε → State ε → Prop) := Extends.stable
    refine hst.bind_rel ?_ hk
    exact hst.bind_rel (hst.rel_runEngine addInput hadd turn _ _) fun _ s3 => hst.step_emit _ s3
  refine h1.mono ?_
  rintro s1 ⟨evs, h⟩
  exact ⟨evs, by rw [h]; simp [emit, snap]⟩

/-- The run of `DoTransaction` up to the end of the input loop, when the merge is
refused, the closure does not throw and no `Tick` throws. -/
theorem DoTransaction_run (htot : TotalTicks env) (fuel : Nat) (func : List UserCmd)
    (flags : TurnFlagsT) (s : State ε)
    (hmerge : env.tryMerge func s.ext = false) (hfunc : funcFails func = false) :
    ∃ (funcEvs : List Event) (enlisted : List NodeId) (ticks : List Call) (s7 : State ε),
      (∀ e ∈ funcEvs, e.active = true ∧ ∃ r v, e.call = .nodeAddInput r v)
      ∧ (s.continuationHolder_ = none →
          funcEvs = inputEvents true s.transactionState_.inputs (funcInputs func)
          ∧ enlisted = s.transactionState_.inputs ++ (funcInputs func).map Prod.fst)
      ∧ (∀ c ∈ ticks, ∃ p res, c = .nodeTick p s.nextTurnId_ (some res))
      ∧ ticks.map Call.tickNode = enlisted.map some
      ∧ s7.trace = s.trace
          ++ [snap (.tryMerge false) s, snap (.turnCreate s.nextTurnId_ flags) s,
              { call := .onTurnAdmissionStart s.nextTurnId_, active := true,
                inputs := s.transactionState_.inputs }]
          ++ funcEvs
          ++ [{ call := .onTurnAdmissionEnd s.nextTurnId_, active := true, inputs := enlisted }]
          ++ ticks.map (fun c => { call := c, active := false, inputs := enlisted })
      ∧ s7.transactionState_ = { active := false, inputs := [] }
      ∧ s7.nextTurnId_ = (nextTurnIdAt s.nextTurnId_).2
      ∧ s7.turnCount = s.turnCount + 1
      ∧ s7.turnFlags_ = s.turnFlags_
      ∧ (s.continuationHolder_ = none → s7.continuationHolder_ = none
          ∧ s7.turns = Function.update s.turns s.turnCount
              { id := s.nextTurnId_, flags := flags, detachedObservers_ := [],
                continuation_ := { bufferedInputs_ := [] } })
      ∧ DoTransaction env fuel func flags s =
          (propagateIf env (AddInput env fuel) (ticks.any Call.isPulsed)
              { addr := s.turnCount, id := s.nextTurnId_ } s7).bind fun _ s8 =>
            postProcessTurn env (AddInput env fuel) fuel
              { addr := s.turnCount, id := s.nextTurnId_ } s8 := by
  cases hh : s.continuationHolder_ with
  | none =>
    obtain ⟨t1, t2, t3⟩ := tickCalls_total env htot s.nextTurnId_
      (turnAdmitted env flags (funcInputs func)
        (emit env (.tryMerge false) s)).transactionState_.inputs
      (turnAdmitted env flags (funcInputs func) (emit env (.tryMerge false) s)).ext
    refine ⟨inputEvents true s.transactionState_.inputs (funcInputs func),
      s.transactionState_.inputs ++ (funcInputs func).map Prod.fst,
      turnTickCalls env flags (funcInputs func) (emit env (.tryMerge false) s),
      turnTicked env flags (funcInputs func) (emit env (.tryMerge false) s),
      inputEvents_mem _ _ _, fun _ => ⟨rfl, rfl⟩, t3, ?_, ?_, ?_, ?_, ?_, ?_, ?_, ?_⟩
    · rw [show turnTickCalls env flags (funcInputs func) (emit env (.tryMerge false) s)
          = tickCalls env s.nextTurnId_ _ _ from rfl, t2]
      simp [emit]
    · rw [turnTicked_trace, turnAdmitted_trace]
      simp [emit, snap]
    · simp
    · simp [emit]
    · simp [emit]
    · simp [emit]
    · intro _
      simp [emit, hh]
    · rw [DoTransaction_eq env fuel func flags s hmerge hh]
      have t1' : (turnTickCalls env flags (funcInputs func) (emit env (.tryMerge false) s)).any
          Call.isThrow = false := t1
      simp only [hfunc, t1', Bool.false_eq_true, if_false]
      rfl
  | some addr =>
    obtain ⟨t1, t2, t3⟩ := tickCalls_total env htot s.nextTurnId_ s.transactionState_.inputs
      (setActive false (Engine.OnTurnAdmissionEnd env (newTurn (emit env (.tryMerge false) s))
        (bufferAll (funcInputs func)
          (admissionStarted env flags (emit env (.tryMerge false) s))))).ext
    refine ⟨[], s.transactionState_.inputs, _, clearInputs (emitAll env
        (tickCalls env s.nextTurnId_ s.transactionState_.inputs
          (setActive false (Engine.OnTurnAdmissionEnd env (newTurn (emit env (.tryMerge false) s))
            (bufferAll (funcInputs func)
              (admissionStarted env flags (emit env (.tryMerge false) s))))).ext)
        (setActive false (Engine.OnTurnAdmissionEnd env (newTurn (emit env (.tryMerge false) s))
          (bufferAll (funcInputs func)
            (admissionStarted env flags (emit env (.tryMerge false) s)))))),
      by simp, by simp, t3, t2, ?_, ?_, ?_, ?_, ?_, by simp, ?_⟩
    · simp [clearInputs, setActive, Engine.OnTurnAdmissionEnd, emit, snap, newTurn]
    · simp [clearInputs, setActive, Engine.OnTurnAdmissionEnd, emit]
    · simp [clearInputs, setActive, Engine.OnTurnAdmissionEnd, emit]
    · simp [clearInputs, setActive, Engine.OnTurnAdmissionEnd, emit]
    · simp [clearInputs, setActive, Engine.OnTurnAdmissionEnd, emit]
    · rw [DoTransaction_eq_buffered env fuel func flags s hmerge (by simp [hh]), tickInputs_eq]
      have hid : (newTurn (emit env (.tryMerge false) s)).id = s.nextTurnId_ := rfl
      simp only [hid, hfunc, t1, Bool.false_eq_true, if_false, bind_returned, Bool.false_or]
      rfl

end runs

section runs2
variable {ε : Type} (env : Env ε)

/-- One continuation turn up to the end of its input loop, when no `Tick`
throws. -/
theorem continuationTurn_run (htot : TotalTicks env)
    (addInput : NodeId → Value → State ε → Outcome ε Unit) (fuel : Nat)
    (cont : ContinuationInput InputClosure) (flags : TurnFlagsT) (s : State ε) :
    ∃ (ticks : List Call) (s7 : State ε),
      (∀ c ∈ ticks, ∃ p res, c = .nodeTick p s.nextTurnId_ (some res))
      ∧ ticks.map Call.tickNode
          = (s.transactionState_.inputs ++ (closureInputs cont).map Prod.fst).map some
      ∧ s7.trace = s.trace
          ++ [snap (.turnCreate s.nextTurnId_ flags) s,
              { call := .onTurnAdmissionStart s.nextTurnId_, active := true,
                inputs := s.transactionState_.inputs }]
          ++ inputEvents true s.transactionState_.inputs (closureInputs cont)
          ++ [{ call := .onTurnAdmissionEnd s.nextTurnId_, active := true,
                inputs := s.transactionState_.inputs ++ (closureInputs cont).map Prod.fst }]
          ++ ticks.map (fun c => Event.mk c false
                (s.transactionState_.inputs ++ (closureInputs cont).map Prod.fst))
      ∧ s7.transactionState_ = { active := false, inputs := [] }
      ∧ s7.nextTurnId_ = (nextTurnIdAt s.nextTurnId_).2
      ∧ s7.turnCount = s.turnCount + 1
      ∧ s7.turnFlags_ = s.turnFlags_
      ∧ s7.continuationHolder_ = s.continuationHolder_
      ∧ s7.turns = Function.update s.turns s.turnCount
              { id := s.nextTurnId_, flags := flags, detachedObservers_ := [],
                continuation_ := { bufferedInputs_ := [] } }
      ∧ processContinuationsLoop env addInput (fuel + 1) cont flags s =
          (propagateIf env addInput (ticks.any Call.isPulsed)
              { addr := s.turnCount, id := s.nextTurnId_ } s7).bind fun _ s8 =>
            if ((emitAll env ((s8.turns s.turnCount).detachedObservers_.map Call.unregister) s8).turns
                  s.turnCount).continuation_.IsEmpty then
              .returned ()
                (emitAll env ((s8.turns s.turnCount).detachedObservers_.map Call.unregister) s8)
            else
              processContinuationsLoop env addInput fuel
                ((emitAll env ((s8.turns s.turnCount).detachedObservers_.map Call.unregister) s8).turns
                  s.turnCount).continuation_ flags
                (emitAll env ((s8.turns s.turnCount).detachedObservers_.map Call.unregister) s8) := by
  obtain ⟨t1, t2, t3⟩ := tickCalls_total env htot s.nextTurnId_
    (turnAdmitted env flags (closureInputs cont) s).transactionState_.inputs
    (turnAdmitted env flags (closureInputs cont) s).ext
  refine ⟨turnTickCalls env flags (closureInputs cont) s,
    turnTicked env flags (closureInputs cont) s, t3, ?_, ?_, by simp, by simp, by simp, by simp,
    by simp, by simp, ?_⟩
  · rw [show turnTickCalls env flags (closureInputs cont) s
        = tickCalls env s.nextTurnId_ _ _ from rfl, t2]
    simp
  · rw [turnTicked_trace, turnAdmitted_trace]
  · rw [processContinuationsLoop_succ]
    have t1' : (turnTickCalls env flags (closureInputs cont) s).any Call.isThrow = false := t1
    simp only [t1', Bool.false_eq_true, if_false]
    rfl

/-- When no input pulsed the turn object is still as constructed, so
post-processing has nothing to do. -/
theorem postProcessTurn_new (addInput : NodeId → Value → State ε → Outcome ε Unit) (fuel : Nat)
    (turn : TurnRef) (s : State ε) (id : TurnIdT) (flags : TurnFlagsT)
    (h : s.turns turn.addr = { id := id, flags := flags, detachedObservers_ := [],
                               continuation_ := { bufferedInputs_ := [] } }) :
    postProcessTurn env addInput fuel turn s = .returned () s := by
  rw [postProcessTurn_eq, h]
  simp [ContinuationInput.IsEmpty, emitAll]

end runs2

theorem sampleEnv_total (merge : Bool) : TotalTicks (sampleEnv merge) := by
  intro p id e h
  simp [sampleEnv] at h

/-- C3. Input tick phase and propagation condition, when no `Tick` throws.
In `DoTransaction` (merge refused, `func` not throwing, no current continuation)
and in every continuation turn, after `OnTurnAdmissionEnd` the domain calls
`Tick` with the turn on every entry of the enlisted list, once per entry and in
the order of the list, whatever the results; the list is empty afterwards; if
one of the results was `pulsed` the next step is one call of
`Engine::OnTurnPropagate` for the turn (the record continues with its begin
record and the engine call), and if none was the turn ends there, with no
further call. -/
theorem input_tick_phase {ε : Type} (env : Env ε) (htot : TotalTicks env) :
    (∀ (fuel : Nat) (func : List UserCmd) (flags : TurnFlagsT) (s : State ε),
      env.tryMerge func s.ext = false → funcFails func = false →
      s.continuationHolder_ = none →
      ∃ (ticks : List Call) (s7 : State ε),
        ticks.map Call.tickNode
          = (s.transactionState_.inputs ++ (funcInputs func).map Prod.fst).map some
        ∧ (∀ c ∈ ticks, ∃ p res, c = .nodeTick p s.nextTurnId_ (some res))
        ∧ s7.trace = s.trace
            ++ [snap (.tryMerge false) s, snap (.turnCreate s.nextTurnId_ flags) s,
                { call := .onTurnAdmissionStart s.nextTurnId_, active := true,
                  inputs := s.transactionState_.inputs }]
            ++ inputEvents true s.transactionState_.inputs (funcInputs func)
            ++ [{ call := .onTurnAdmissionEnd s.nextTurnId_, active := true,
                  inputs := s.transactionState_.inputs ++ (funcInputs func).map Prod.fst }]
            ++ ticks.map (fun c => Event.mk c false
                  (s.transactionState_.inputs ++ (funcInputs func).map Prod.fst))
        ∧ s7.transactionState_.inputs = []
        ∧ (ticks.any Call.isPulsed = true →
            DoTransaction env fuel func flags s =
              (Engine.OnTurnPropagate env (AddInput env fuel)
                  { addr := s.turnCount, id := s.nextTurnId_ } s7).bind (fun _ s8 =>
                postProcessTurn env (AddInput env fuel) fuel
                  { addr := s.turnCount, id := s.nextTurnId_ } s8)
            ∧ (DoTransaction env fuel func flags s).All fun s9 =>
                ∃ evs, s9.trace = s7.trace
                  ++ { call := .logTransactionBegin s.nextTurnId_, active := false, inputs := [] }
                  :: { call := .onTurnPropagate s.nextTurnId_, active := false, inputs := [] }
                  :: evs)
        ∧ (ticks.any Call.isPulsed = false →
            DoTransaction env fuel func flags s = .returned () s7))
    ∧ (∀ (n fuel : Nat) (cont : ContinuationInput InputClosure) (flags : TurnFlagsT)
        (s : State ε),
      ∃ (ticks : List Call) (s7 : State ε),
        ticks.map Call.tickNode
          = (s.transactionState_.inputs ++ (closureInputs cont).map Prod.fst).map some
        ∧ (∀ c ∈ ticks, ∃ p res, c = .nodeTick p s.nextTurnId_ (some res))
        ∧ s7.trace = s.trace
            ++ [snap (.turnCreate s.nextTurnId_ flags) s,
                { call := .onTurnAdmissionStart s.nextTurnId_, active := true,
                  inputs := s.transactionState_.inputs }]
            ++ inputEvents true s.transactionState_.inputs (closureInputs cont)
            ++ [{ call := .onTurnAdmissionEnd s.nextTurnId_, active := true,
                  inputs := s.transactionState_.inputs ++ (closureInputs cont).map Prod.fst }]
            ++ ticks.map (fun c => Event.mk c false
                  (s.transactionState_.inputs ++ (closureInputs cont).map Prod.fst))
        ∧ s7.transactionState_.inputs = []
        ∧ (ticks.any Call.isPulsed = true →
            processContinuationsLoop env (AddInput env n) (fuel + 1) cont flags s =
              (Engine.OnTurnPropagate env (AddInput env n)
                  { addr := s.turnCount, id := s.nextTurnId_ } s7).bind (fun _ s8 =>
                if ((emitAll env ((s8.turns s.turnCount).detachedObservers_.map Call.unregister)
                    s8).turns s.turnCount).continuation_.IsEmpty then
                  .returned ()
                    (emitAll env ((s8.turns s.turnCount).detachedObservers_.map Call.unregister) s8)
                else
                  processContinuationsLoop env (AddInput env n) fuel
                    ((emitAll env ((s8.turns s.turnCount).detachedObservers_.map Call.unregister)
                      s8).turns s.turnCount).continuation_ flags
                    (emitAll env ((s8.turns s.turnCount).detachedObservers_.map Call.unregister)
                      s8))
            ∧ (processContinuationsLoop env (AddInput env n) (fuel + 1) cont flags s).All fun s9 =>
                ∃ evs, s9.trace = s7.trace
                  ++ { call := .logTransactionBegin s.nextTurnId_, active := false, inputs := [] }
                  :: { call := .onTurnPropagate s.nextTurnId_, active := false, inputs := [] }
                  :: evs)
        ∧ (ticks.any Call.isPulsed = false →
            processContinuationsLoop env (AddInput env n) (fuel + 1) cont flags s
              = .returned () s7)) := by
  refine ⟨?_, ?_⟩
  · intro fuel func flags s hmerge hfunc hnull
    obtain ⟨funcEvs, enlisted, ticks, s7, -, h2, h3, h4, h5, h6, -, -, -, h10, h11⟩ :=
      DoTransaction_run env htot fuel func flags s hmerge hfunc
    obtain ⟨rfl, rfl⟩ := h2 hnull
    refine ⟨ticks, s7, h4, h3, h5, by rw [h6], ?_, ?_⟩
    · intro hp
      have heq : DoTransaction env fuel func flags s =
          (Engine.OnTurnPropagate env (AddInput env fuel)
              { addr := s.turnCount, id := s.nextTurnId_ } s7).bind (fun _ s8 =>
            postProcessTurn env (AddInput env fuel) fuel
              { addr := s.turnCount, id := s.nextTurnId_ } s8) := by
        rw [h11]; simp only [propagateIf, hp, if_true]
      refine ⟨heq, ?_⟩
      rw [heq]
      have h := OnTurnPropagate_bind_trace env (AddInput env fuel)
        (Extends.stable.rel_AddInput fuel) { addr := s.turnCount, id := s.nextTurnId_ } s7
        (fun _ s8 => postProcessTurn env (AddInput env fuel) fuel
          { addr := s.turnCount, id := s.nextTurnId_ } s8)
        (fun _ s8 => Extends.stable.rel_postProcessTurn _ (Extends.stable.rel_AddInput fuel)
          fuel _ s8)
      simpa [snap, h6] using h
    · intro hp
      rw [h11]
      simp only [propagateIf, hp, Bool.false_eq_true, if_false, bind_returned]
      exact postProcessTurn_new env _ fuel _ s7 s.nextTurnId_ flags
        (by rw [(h10 hnull).2]; simp)
  · intro n fuel cont flags s
    obtain ⟨ticks, s7, h1, h2, h3, h4, -, -, -, -, h9, h10⟩ :=
      continuationTurn_run env htot (AddInput env n) fuel cont flags s
    refine ⟨ticks, s7, h2, h1, h3, by rw [h4], ?_, ?_⟩
    · intro hp
      rw [h10]
      simp only [propagateIf, hp, if_true]
      refine ⟨trivial, ?_⟩
      have hst : Stable env (Extends : State ε → State ε → Prop) := Extends.stable
      have h := OnTurnPropagate_bind_trace env (AddInput env n)
        (hst.rel_AddInput n) { addr := s.turnCount, id := s.nextTurnId_ } s7
        (fun _ s8 =>
          if ((emitAll env ((s8.turns s.turnCount).detachedObservers_.map Call.unregister)
              s8).turns s.turnCount).continuation_.IsEmpty then
            .returned ()
              (emitAll env ((s8.turns s.turnCount).detachedObservers_.map Call.unregister) s8)
          else
            processContinuationsLoop env (AddInput env n) fuel
              ((emitAll env ((s8.turns s.turnCount).detachedObservers_.map Call.unregister)
                s8).turns s.turnCount).continuation_ flags
              (emitAll env ((s8.turns s.turnCount).detachedObservers_.map Call.unregister) s8))
        (fun _ s8 => by
          beta_reduce
          split
          · exact hst.rel_emitAll _ _
          · exact hst.after (hst.rel_emitAll _ s8)
              (hst.rel_processContinuationsLoop _ (hst.rel_AddInput n) fuel _ _ _))
      simpa [snap, h4] using h
    · intro hp
      rw [h10]
      simp only [propagateIf, hp, Bool.false_eq_true, if_false, bind_returned]
      simp [h9, ContinuationInput.IsEmpty, emitAll]

/-- A transaction with the two inputs 1 and 2, and a continuation turn with one
closure. -/
theorem input_tick_phase_witness :
    TotalTicks (sampleEnv false)
    ∧ (∃ (ticks : List Call) (s7 : State Unit),
        ticks.map Call.tickNode = (([] : List NodeId) ++ [1, 2]).map some
        ∧ s7.transactionState_.inputs = [])
    ∧ (∃ (ticks : List Call) (s7 : State Unit),
        ticks.map Call.tickNode = (([] : List NodeId) ++ [7]).map some
        ∧ s7.transactionState_.inputs = []) :=
  ⟨sampleEnv_total false,
    match (input_tick_phase (sampleEnv false) (sampleEnv_total false)).1 2
      [.addInput 1 10, .addInput 2 20] 1 (State.init ()) rfl rfl rfl with
    | ⟨ticks, s7, h1, _, _, h4, _⟩ => ⟨ticks, s7, h1, h4⟩,
    match (input_tick_phase (sampleEnv false) (sampleEnv_total false)).2 1 1
      { bufferedInputs_ := [{ r := 7, v := 5 }] } 0 (State.init ()) with
    | ⟨ticks, s7, h1, _, _, h4, _⟩ => ⟨ticks, s7, h1, h4⟩⟩

/-! ## No transaction state is left behind -/

section quiet
variable {ε : Type} {env : Env ε}

theorem quiet_emit {s : State ε} (h : Quiet s) (c : Call) : Quiet (emit env c s) := h

theorem quiet_emitAll {s : State ε} (h : Quiet s) (cs : List Call) : Quiet (emitAll env cs s) := by
  unfold Quiet; rw [emitAll_transactionState]; exact h

theorem quiet_turnTicked (flags : TurnFlagsT) (rvs : List (NodeId × Value)) (s : State ε) :
    Quiet (turnTicked env flags rvs s) :=
  turnTicked_transactionState env flags rvs s

section reentrant
variable (htot : TotalTicks env) (addInput : NodeId → Value → State ε → Outcome ε Unit)
  (hadd : ∀ r v s, Quiet s → (addInput r v s).All Quiet)
include hadd

theorem quiet_runUser (cmds : List UserCmd) (s : State ε) (hq : Quiet s) :
    (runUser addInput cmds s).All Quiet := by
  induction cmds generalizing s with
  | nil => exact hq
  | cons c rest ih =>
    cases c with
    | fail => exact hq
    | addInput r v => exact (hadd r v s hq).bind_all (fun _ h => h) fun _ s1 h1 => ih s1 h1

theorem quiet_runEngine (turn : TurnRef) (cmds : List PropCmd) (s : State ε) (hq : Quiet s) :
    (runEngine addInput turn cmds s).All Quiet := by
  induction cmds generalizing s with
  | nil => exact hq
  | cons c rest ih =>
    cases c with
    | setCurrentContinuation => exact ih _ hq
    | clearCurrentContinuation => exact ih _ hq
    | detachObserver o => exact ih _ hq
    | user c =>
      exact (quiet_runUser addInput hadd [c] s hq).bind_all (fun _ h => h) fun _ s1 h1 => ih s1 h1

theorem quiet_OnTurnPropagate (turn : TurnRef) (s : State ε) (hq : Quiet s) :
    (Engine.OnTurnPropagate env addInput turn s).All Quiet := by
  unfold Engine.OnTurnPropagate
  refine Outcome.All.bind_all (quiet_runEngine addInput hadd turn _ _ hq) (fun _ h => h) ?_
  intro _ s3 h3
  exact h3

theorem quiet_propagateIf (b : Bool) (turn : TurnRef) (s : State ε) (hq : Quiet s) :
    (propagateIf env addInput b turn s).All Quiet := by
  unfold propagateIf
  split
  · exact quiet_OnTurnPropagate addInput hadd turn s hq
  · exact hq

include htot

theorem quiet_processContinuationsLoop (fuel : Nat) (cont : ContinuationInput InputClosure)
    (flags : TurnFlagsT) (s : State ε) :
    (processContinuationsLoop env addInput fuel cont flags s).All Quiet := by
  induction fuel generalizing cont s with
  | zero => trivial
  | succ fuel ih =>
    rw [processContinuationsLoop_succ]
    have t1 : (turnTickCalls env flags (closureInputs cont) s).any Call.isThrow = false :=
      (tickCalls_total env htot _ _ _).1
    simp only [t1, Bool.false_eq_true, if_false]
    refine (quiet_propagateIf addInput hadd _ _ _ (quiet_turnTicked flags _ s)).bind_all
      (fun _ h => h) fun _ s8 h8 => ?_
    split
    · exact quiet_emitAll h8 _
    · exact ih _ _

theorem quiet_postProcessTurn (fuel : Nat) (turn : TurnRef) (s : State ε) (hq : Quiet s) :
    (postProcessTurn env addInput fuel turn s).All Quiet := by
  rw [postProcessTurn_eq]
  split
  · exact quiet_emitAll hq _
  · exact quiet_processContinuationsLoop htot addInput hadd fuel _ _ _

theorem quiet_addSimpleInput (fuel : Nat) (r : NodeId) (v : Value) (s : State ε) (hq : Quiet s) :
    (addSimpleInput env addInput fuel r v s).All Quiet := by
  unfold addSimpleInput
  simp only
  split
  · exact hq
  · refine Outcome.All.bind_all (P := Quiet) ?_ (fun _ h => h)
      fun _ s5 h5 => quiet_postProcessTurn htot addInput hadd fuel _ s5 h5
    split
    · exact quiet_OnTurnPropagate addInput hadd _ _ hq
    · exact hq

end reentrant

theorem quiet_AddInput (htot : TotalTicks env) (fuel : Nat) (r : NodeId) (v : Value)
    (s : State ε) (hq : Quiet s) : (AddInput env fuel r v s).All Quiet := by
  have hact : s.transactionState_.active = false := by rw [hq]
  have hbuf : Quiet (addContinuationInput r v s) := by
    unfold addContinuationInput; split
    · exact hq
    · exact hq
  induction fuel generalizing r v s with
  | zero =>
    unfold AddInput
    split
    · exact hbuf
    · simp [hact, Outcome.All]
  | succ fuel ih =>
    unfold AddInput
    split
    · exact hbuf
    · simp only [hact, Bool.false_eq_true, if_false]
      refine quiet_addSimpleInput htot (AddInput env fuel) ?_ fuel r v s hq
      intro r1 v1 s1 h1
      refine ih r1 v1 s1 h1 (by rw [h1]) ?_
      unfold addContinuationInput; split
      · exact h1
      · exact h1

/-- A transaction that is not merged and whose closure does not throw leaves,
however it ends, `active` cleared and the input list empty, provided no `Tick`
throws. -/
theorem quiet_DoTransaction (htot : TotalTicks env) (fuel : Nat) (func : List UserCmd)
    (flags : TurnFlagsT) (s : State ε) (hmerge : env.tryMerge func s.ext = false)
    (hfunc : funcFails func = false) : (DoTransaction env fuel func flags s).All Quiet := by
  obtain ⟨funcEvs, enlisted, ticks, s7, -, -, -, -, -, h6, -, -, -, -, h11⟩ :=
    DoTransaction_run env htot fuel func flags s hmerge hfunc
  rw [h11]
  exact (quiet_propagateIf _ (fun r v s1 h1 => quiet_AddInput htot fuel r v s1 h1) _ _ s7 h6).bind_all
    (fun _ h => h) fun _ s8 h8 =>
      quiet_postProcessTurn htot _ (fun r v s1 h1 => quiet_AddInput htot fuel r v s1 h1) fuel _ s8 h8

end quiet

theorem tickCalls_nodes {ε : Type} (env : Env ε) (id : TurnIdT) (ps : List NodeId) (e : ε)
    (h : (tickCalls env id ps e).any Call.isThrow = false) :
    (tickCalls env id ps e).map Call.tickNode = ps.map some := by
  induction ps generalizing e with
  | nil => simp [tickCalls]
  | cons p ps ih =>
    simp only [tickCalls] at h ⊢
    cases ht : env.tick p id e with
    | none => simp [ht, Call.isThrow] at h
    | some res =>
      simp only [ht, List.any_cons, Bool.or_eq_false_iff] at h
      simp [Call.tickNode, ih _ h.2]

/-- C9, as stated, fails: the closure enlists node 1 and then throws; the
error reaches the caller, `OnTurnAdmissionStart` was called for turn 0, and
`OnTurnAdmissionEnd` is never called. -/
theorem DoTransaction_admission_not_closed :
    ∃ s1, DoTransaction (sampleEnv false) 1 [.addInput 1 10, .fail] 0 (State.init ()) = .threw s1
      ∧ s1.trace.map Event.call
          = [.tryMerge false, .turnCreate 0 0, .onTurnAdmissionStart 0, .nodeAddInput 1 10]
      ∧ ∀ e ∈ s1.trace, e.call ≠ .onTurnAdmissionEnd 0 :=
  ⟨_, rfl, rfl, by decide⟩

/-- C9, amended. When `func` throws inside `DoTransaction` (merge refused),
the error surfaces to the caller of `DoTransaction`; `OnTurnAdmissionStart` was
called for the turn, and after it the domain made no call but the
`node.AddInput` calls of `func` before the failure: `OnTurnAdmissionEnd` is
not called for the turn, and `active` stays set. -/
theorem DoTransaction_failing_func {ε : Type} (env : Env ε) (fuel : Nat)
    (func : List UserCmd) (flags : TurnFlagsT) (s : State ε)
    (hmerge : env.tryMerge func s.ext = false) (hfail : funcFails func = true) :
    ∃ (funcEvs : List Event) (s1 : State ε),
      DoTransaction env fuel func flags s = .threw s1
      ∧ s1.trace = s.trace
          ++ [snap (.tryMerge false) s, snap (.turnCreate s.nextTurnId_ flags) s,
              { call := .onTurnAdmissionStart s.nextTurnId_, active := true,
                inputs := s.transactionState_.inputs }]
          ++ funcEvs
      ∧ (∀ e ∈ funcEvs, ∃ r v, e.call = .nodeAddInput r v)
      ∧ (∀ e ∈ funcEvs, e.call ≠ .onTurnAdmissionEnd s.nextTurnId_)
      ∧ s1.transactionState_.active = true := by
  cases hh : s.continuationHolder_ with
  | none =>
    refine ⟨inputEvents true s.transactionState_.inputs (funcInputs func),
      enlistAll env (funcInputs func) (admissionStarted env flags (emit env (.tryMerge false) s)),
      ?_, ?_, ?_, ?_, ?_⟩
    · rw [DoTransaction_eq env fuel func flags s hmerge hh]; simp [hfail]
    · simp [emit, snap]
    · exact fun e he => (inputEvents_mem _ _ _ e he).2
    · intro e he
      obtain ⟨r, v, h⟩ := (inputEvents_mem _ _ _ e he).2
      simp [h]
    · simp
  | some addr =>
    refine ⟨[], bufferAll (funcInputs func)
      (admissionStarted env flags (emit env (.tryMerge false) s)), ?_, ?_, by simp, by simp, ?_⟩
    · rw [DoTransaction_eq_buffered env fuel func flags s hmerge (by simp [hh])]; simp [hfail]
    · simp [emit, snap]
    · simp

/-- The closure of the counterexample, in the initial state. -/
theorem DoTransaction_failing_func_witness :
    (sampleEnv false).tryMerge [.addInput 1 10, .fail] () = false
    ∧ funcFails [.addInput 1 10, .fail] = true
    ∧ ∃ (funcEvs : List Event) (s1 : State Unit),
        DoTransaction (sampleEnv false) 1 [.addInput 1 10, .fail] 0 (State.init ()) = .threw s1
        ∧ (∀ e ∈ funcEvs, e.call ≠ .onTurnAdmissionEnd 0)
        ∧ s1.transactionState_.active = true :=
  ⟨rfl, rfl,
    match DoTransaction_failing_func (sampleEnv false) 1 [.addInput 1 10, .fail] 0
      (State.init ()) rfl rfl with
    | ⟨funcEvs, s1, h1, _, _, h4, h5⟩ => ⟨funcEvs, s1, h1, h4, h5⟩⟩

/-- C10, as stated, fails: the closure of the first transaction enlists node 1
and throws; node 1 stays enlisted and `active` stays set, and the next
transaction, whose closure enlists node 2 only, calls `Tick` on node 1 as
well. -/
theorem stale_inputs_after_failed_func :
    ∃ s1 s2,
      DoTransaction (sampleEnv false) 1 [.addInput 1 10, .fail] 0 (State.init ()) = .threw s1
      ∧ s1.transactionState_ = { active := true, inputs := [1] }
      ∧ DoTransaction (sampleEnv false) 1 [.addInput 2 20] 0 s1 = .returned () s2
      ∧ s2.trace.map Event.call
          = [.tryMerge false, .turnCreate 0 0, .onTurnAdmissionStart 0, .nodeAddInput 1 10,
             .tryMerge false, .turnCreate 1 0, .onTurnAdmissionStart 1, .nodeAddInput 2 20,
             .onTurnAdmissionEnd 1, .nodeTick 1 1 (some .pulsed), .nodeTick 2 1 (some .pulsed),
             .logTransactionBegin 1, .onTurnPropagate 1, .logTransactionEnd 1] :=
  ⟨_, _, rfl, rfl, rfl, rfl⟩

/-- C10, amended. For a `DoTransaction` that is not merged and starts with no
current continuation: (1) if `func` does not throw and no `Tick` throws, then
however the run ends (also when the propagation throws) `active` is cleared and
the input list is empty; (2) if `func` throws, the nodes it enlisted stay in the
list and `active` stays set; (3) if a `Tick` throws, the list keeps all its
entries; (4) the input loop of a transaction whose loop completes calls `Tick`
on the entries that were in the list when the transaction began and then on the
nodes its own `func` enlisted. -/
theorem failed_turn_inputs {ε : Type} (env : Env ε) (fuel : Nat) (func : List UserCmd)
    (flags : TurnFlagsT) (s : State ε)
    (hmerge : env.tryMerge func s.ext = false) (hnull : s.continuationHolder_ = none) :
    (TotalTicks env → funcFails func = false →
      (DoTransaction env fuel func flags s).All fun s1 =>
        s1.transactionState_ = { active := false, inputs := [] })
    ∧ (funcFails func = true →
      ∃ s1, DoTransaction env fuel func flags s = .threw s1
        ∧ s1.transactionState_
            = { active := true,
                inputs := s.transactionState_.inputs ++ (funcInputs func).map Prod.fst }
        ∧ s1.continuationHolder_ = none)
    ∧ (funcFails func = false →
        (turnTickCalls env flags (funcInputs func) (emit env (.tryMerge false) s)).any
          Call.isThrow = true →
      ∃ s1, DoTransaction env fuel func flags s = .threw s1
        ∧ s1.transactionState_
            = { active := false,
                inputs := s.transactionState_.inputs ++ (funcInputs func).map Prod.fst }
        ∧ s1.continuationHolder_ = none)
    ∧ (funcFails func = false →
        (turnTickCalls env flags (funcInputs func) (emit env (.tryMerge false) s)).any
          Call.isThrow = false →
      (turnTickCalls env flags (funcInputs func) (emit env (.tryMerge false) s)).map
          Call.tickNode
        = (s.transactionState_.inputs ++ (funcInputs func).map Prod.fst).map some
      ∧ (DoTransaction env fuel func flags s).All fun s1 =>
          ∃ evs, s1.trace
            = (turnAdmitted env flags (funcInputs func) (emit env (.tryMerge false) s)).trace
              ++ (turnTickCalls env flags (funcInputs func) (emit env (.tryMerge false) s)).map
                  (fun c => Event.mk c false
                    (s.transactionState_.inputs ++ (funcInputs func).map Prod.fst))
              ++ evs) := by
  refine ⟨?_, ?_, ?_, ?_⟩
  · intro htot hfunc
    exact quiet_DoTransaction htot fuel func flags s hmerge hfunc
  · intro hfail
    refine ⟨enlistAll env (funcInputs func)
        (admissionStarted env flags (emit env (.tryMerge false) s)),
      by rw [DoTransaction_eq env fuel func flags s hmerge hnull]; simp [hfail], ?_, ?_⟩
    · have h1 := enlistAll_active env (funcInputs func)
        (admissionStarted env flags (emit env (.tryMerge false) s))
      have h2 := enlistAll_inputs env (funcInputs func)
        (admissionStarted env flags (emit env (.tryMerge false) s))
      simp only [admissionStarted_transactionState] at h1 h2
      cases hts : (enlistAll env (funcInputs func)
        (admissionStarted env flags (emit env (.tryMerge false) s))).transactionState_ with
      | mk a l =>
        rw [hts] at h1 h2
        simp only at h1 h2
        rw [h1, h2]
        rfl
    · simpa [emit] using hnull
  · intro hfunc hthrow
    refine ⟨turnTickedRaw env flags (funcInputs func) (emit env (.tryMerge false) s),
      by rw [DoTransaction_eq env fuel func flags s hmerge hnull]; simp [hfunc, hthrow], ?_, ?_⟩
    · simp [emit]
    · simpa [turnTickedRaw, emit] using hnull
  · intro hfunc hok
    refine ⟨?_, ?_⟩
    · have h := tickCalls_nodes env (emit env (.tryMerge false) s).nextTurnId_
        (turnAdmitted env flags (funcInputs func)
          (emit env (.tryMerge false) s)).transactionState_.inputs
        (turnAdmitted env flags (funcInputs func) (emit env (.tryMerge false) s)).ext hok
      have h2 : (turnTickCalls env flags (funcInputs func) (emit env (.tryMerge false) s)).map
          Call.tickNode
          = (turnAdmitted env flags (funcInputs func)
              (emit env (.tryMerge false) s)).transactionState_.inputs.map some := h
      rw [turnAdmitted_transactionState] at h2
      exact h2
    · rw [DoTransaction_eq env fuel func flags s hmerge hnull]
      simp only [hfunc, hok, Bool.false_eq_true, if_false]
      have hst : Stable env (Extends : State ε → State ε → Prop) := Extends.stable
      have h : ((propagateIf env (AddInput env fuel)
          ((turnTickCalls env flags (funcInputs func) (emit env (.tryMerge false) s)).any
            Call.isPulsed) (newTurn (emit env (.tryMerge false) s))
          (turnTicked env flags (funcInputs func) (emit env (.tryMerge false) s))).bind
          fun _ s8 => postProcessTurn env (AddInput env fuel) fuel
            (newTurn (emit env (.tryMerge false) s)) s8).All
          (Extends (turnTicked env flags (funcInputs func) (emit env (.tryMerge false) s))) :=
        hst.bind_rel (hst.rel_propagateIf _ (hst.rel_AddInput fuel) _ _ _)
          fun _ s8 => hst.rel_postProcessTurn _ (hst.rel_AddInput fuel) fuel _ s8
      refine h.mono ?_
      rintro s1 ⟨evs, he⟩
      refine ⟨evs, ?_⟩
      rw [he, turnTicked_trace]
      simp [emit]

/-- The four cases: a transaction whose propagation throws; one whose closure
throws after enlisting node 1; one in which the `Tick` of node 2 throws; and one
that starts with node 1 left in the list and enlists node 2. -/
theorem failed_turn_inputs_witness :
    (∃ s1, DoTransaction propagationFailEnv 2 [.addInput 1 10] 0 (State.init ()) = .threw s1)
    ∧ ((DoTransaction propagationFailEnv 2 [.addInput 1 10] 0 (State.init ())).All fun s1 =>
        s1.transactionState_ = { active := false, inputs := [] })
    ∧ (∃ s1, DoTransaction (sampleEnv false) 2 [.addInput 1 10, .fail] 0 (State.init ())
          = .threw s1
        ∧ s1.transactionState_ = { active := true, inputs := [] ++ [1] })
    ∧ (∃ s1, DoTransaction tickFailEnv 2 [.addInput 1 10, .addInput 2 20] 0 (State.init ())
          = .threw s1
        ∧ s1.transactionState_ = { active := false, inputs := [] ++ [1, 2] })
    ∧ (turnTickCalls (sampleEnv false) 0 (funcInputs [.addInput 2 20])
          (emit (sampleEnv false) (.tryMerge false)
            (stateWith { active := true, inputs := [1] }))).map Call.tickNode
        = ([1] ++ [2]).map some :=
  ⟨⟨_, rfl⟩,
    (failed_turn_inputs propagationFailEnv 2 [.addInput 1 10] 0 (State.init ()) rfl rfl).1
      (fun _ _ _ h => Option.noConfusion h) rfl,
    match (failed_turn_inputs (sampleEnv false) 2 [.addInput 1 10, .fail] 0 (State.init ())
      rfl rfl).2.1 rfl with
    | ⟨s1, h1, h2, _⟩ => ⟨s1, h1, h2⟩,
    match (failed_turn_inputs tickFailEnv 2 [.addInput 1 10, .addInput 2 20] 0 (State.init ())
      rfl rfl).2.2.1 rfl rfl with
    | ⟨s1, h1, h2, _⟩ => ⟨s1, h1, h2⟩,
    ((failed_turn_inputs (sampleEnv false) 2 [.addInput 2 20] 0
      (stateWith { active := true, inputs := [1] }) rfl rfl).2.2.2 rfl rfl).1⟩

/-! ## Post-processing and continuation turns -/

section post
variable {ε : Type} (env : Env ε)

@[simp] theorem unregistered_trace (turn : TurnRef) (s : State ε) :
    (unregistered env turn s).trace
      = s.trace ++ (s.turns turn.addr).detachedObservers_.map fun o => snap (.unregister o) s := by
  simp [unregistered, List.map_map, Function.comp_def]

@[simp] theorem unregistered_transactionState (turn : TurnRef) (s : State ε) :
    (unregistered env turn s).transactionState_ = s.transactionState_ := by
  simp [unregistered]

@[simp] theorem unregistered_nextTurnId (turn : TurnRef) (s : State ε) :
    (unregistered env turn s).nextTurnId_ = s.nextTurnId_ := by
  simp [unregistered]

@[simp] theorem unregistered_turns (turn : TurnRef) (s : State ε) :
    (unregistered env turn s).turns = s.turns := by
  simp [unregistered]

@[simp] theorem unregistered_holder (turn : TurnRef) (s : State ε) :
    (unregistered env turn s).continuationHolder_ = s.continuationHolder_ := by
  simp [unregistered]

theorem clear_merging_zero : (0 : Nat) &&& (UINT_RANGE - 1 - enable_input_merging) = 0 := by
  decide

/-- The function `postProcessTurn` in terms of `unregistered`. -/
theorem postProcessTurn_unregistered (addInput : NodeId → Value → State ε → Outcome ε Unit)
    (fuel : Nat) (turn : TurnRef) (s : State ε) :
    postProcessTurn env addInput fuel turn s =
      if (s.turns turn.addr).continuation_.IsEmpty then .returned () (unregistered env turn s)
      else processContinuationsLoop env addInput fuel (s.turns turn.addr).continuation_ 0
        (unregistered env turn s) := by
  rw [postProcessTurn_eq]
  simp only [processContinuations, clear_merging_zero]
  rfl

end post

section buffered_engine
variable {ε : Type} (env : Env ε)

/-- A propagation script that makes its `AddInput` calls with the current
continuation set adds nothing to the record of calls and leaves
`transactionState_`, the turn-id counter and the number of turn objects as they
were, whether it returns or throws. -/
theorem runEngine_buffered (fuel : Nat) (turn : TurnRef) (cmds : List PropCmd) (s : State ε)
    (h : buffersInputs s.continuationHolder_.isSome cmds = true) :
    (runEngine (AddInput env fuel) turn cmds s).All (fun s1 =>
        s1.trace = s.trace ∧ s1.transactionState_ = s.transactionState_
        ∧ s1.nextTurnId_ = s.nextTurnId_ ∧ s1.turnCount = s.turnCount)
    ∧ runEngine (AddInput env fuel) turn cmds s ≠ .outOfFuel := by
  induction cmds generalizing s with
  | nil => exact ⟨⟨rfl, rfl, rfl, rfl⟩, by simp [runEngine]⟩
  | cons c rest ih =>
    cases c with
    | setCurrentContinuation =>
      simp only [buffersInputs] at h
      exact ih (SetCurrentContinuation turn s) (by simpa [SetCurrentContinuation] using h)
    | clearCurrentContinuation =>
      simp only [buffersInputs] at h
      exact ih (ClearCurrentContinuation s) (by simpa [ClearCurrentContinuation] using h)
    | detachObserver o =>
      simp only [buffersInputs] at h
      exact ih (updateTurn turn.addr _ s) (by simpa [updateTurn] using h)
    | user c =>
      cases c with
      | fail => exact ⟨⟨rfl, rfl, rfl, rfl⟩, by simp [runEngine, runUser]⟩
      | addInput r v =>
        simp only [buffersInputs, Bool.and_eq_true] at h
        have h1 : AddInput env fuel r v s = .returned () (addContinuationInput r v s) := by
          unfold AddInput; simp [h.1]
        have hs : (addContinuationInput r v s).continuationHolder_ = s.continuationHolder_
            ∧ (addContinuationInput r v s).trace = s.trace
            ∧ (addContinuationInput r v s).transactionState_ = s.transactionState_
            ∧ (addContinuationInput r v s).nextTurnId_ = s.nextTurnId_
            ∧ (addContinuationInput r v s).turnCount = s.turnCount := by
          unfold addContinuationInput; split <;> simp [updateTurn]
        have := ih (addContinuationInput r v s) (by rw [hs.1]; exact h.2)
        simp only [runEngine, runUser, h1, bind_returned]
        rw [hs.2.1, hs.2.2.1, hs.2.2.2.1, hs.2.2.2.2] at this
        exact this

/-- The calls of `Engine::OnTurnPropagate` when the engine's script makes its
`AddInput` calls with the current continuation set: the begin record, the
engine call and, unless user code threw, the end record. -/
theorem OnTurnPropagate_buffered (fuel : Nat) (turn : TurnRef) (s : State ε)
    (h : buffersInputs s.continuationHolder_.isSome
      (env.propagate turn.id
        (emit env (.onTurnPropagate turn.id) (emit env (.logTransactionBegin turn.id) s)).ext)
      = true) :
    (Engine.OnTurnPropagate env (AddInput env fuel) turn s).Returns (fun s1 =>
        s1.trace = s.trace ++ [snap (.logTransactionBegin turn.id) s,
          snap (.onTurnPropagate turn.id) s, snap (.logTransactionEnd turn.id) s]
        ∧ s1.transactionState_ = s.transactionState_
        ∧ s1.nextTurnId_ = s.nextTurnId_ ∧ s1.turnCount = s.turnCount)
    ∨ (Engine.OnTurnPropagate env (AddInput env fuel) turn s).Throws (fun s1 =>
        s1.trace = s.trace ++ [snap (.logTransactionBegin turn.id) s,
          snap (.onTurnPropagate turn.id) s]
        ∧ s1.transactionState_ = s.transactionState_
        ∧ s1.nextTurnId_ = s.nextTurnId_ ∧ s1.turnCount = s.turnCount) := by
  obtain ⟨h1, h2⟩ := runEngine_buffered env fuel turn _
    (emit env (.onTurnPropagate turn.id) (emit env (.logTransactionBegin turn.id) s)) h
  unfold Engine.OnTurnPropagate
  simp only
  cases hr : runEngine (AddInput env fuel) turn
      (env.propagate turn.id
        (emit env (.onTurnPropagate turn.id) (emit env (.logTransactionBegin turn.id) s)).ext)
      (emit env (.onTurnPropagate turn.id) (emit env (.logTransactionBegin turn.id) s)) with
  | returned u s3 =>
    rw [hr] at h1
    obtain ⟨a, b, c, d⟩ := h1
    left
    simp only [bind_returned, Outcome.Returns]
    refine ⟨?_, ?_, ?_, ?_⟩
    · simp [emit, snap, a, b]
    · simp [emit, b]
    · simp [emit, c]
    · simp [emit, d]
  | threw s3 =>
    rw [hr] at h1
    obtain ⟨a, b, c, d⟩ := h1
    right
    simp only [bind_threw, Outcome.Throws]
    refine ⟨?_, ?_, ?_, ?_⟩
    · simp [emit, snap, a]
    · simp [emit, b]
    · simp [emit, c]
    · simp [emit, d]
  | outOfFuel => exact absurd hr h2

/-- The turn of `addSimpleInput` up to its `Tick`, when no `Tick` throws. -/
theorem addSimpleInput_run (htot : TotalTicks env)
    (addInput : NodeId → Value → State ε → Outcome ε Unit) (fuel : Nat) (r : NodeId)
    (v : Value) (s : State ε) :
    ∃ (res : ETickResult) (s4 : State ε),
      s4.trace = s.trace
        ++ [snap (.turnCreate s.nextTurnId_ 0) s, snap (.onTurnAdmissionStart s.nextTurnId_) s,
            snap (.nodeAddInput r v) s, snap (.onTurnAdmissionEnd s.nextTurnId_) s,
            snap (.nodeTick r s.nextTurnId_ (some res)) s]
      ∧ s4.transactionState_ = s.transactionState_
      ∧ s4.nextTurnId_ = (nextTurnIdAt s.nextTurnId_).2
      ∧ s4.turnCount = s.turnCount + 1
      ∧ s4.turnFlags_ = s.turnFlags_
      ∧ s4.continuationHolder_ = s.continuationHolder_
      ∧ s4.turns = Function.update s.turns s.turnCount
          { id := s.nextTurnId_, flags := 0, detachedObservers_ := [],
            continuation_ := { bufferedInputs_ := [] } }
      ∧ addSimpleInput env addInput fuel r v s =
          (propagateIf env addInput (decide (res = ETickResult.pulsed))
              { addr := s.turnCount, id := s.nextTurnId_ } s4).bind fun _ s5 =>
            postProcessTurn env addInput fuel { addr := s.turnCount, id := s.nextTurnId_ } s5 := by
  unfold addSimpleInput
  simp only [makeTurn_fst]
  cases ht : env.tick r (newTurn s).id
      (Engine.OnTurnAdmissionEnd env (newTurn s) (emit env (.nodeAddInput r v)
        (Engine.OnTurnAdmissionStart env (newTurn s) (makeTurn env 0 s).2))).ext with
  | none => exact absurd ht (htot _ _ _)
  | some res =>
    refine ⟨res, emit env (.nodeTick r (newTurn s).id (some res))
      (Engine.OnTurnAdmissionEnd env (newTurn s) (emit env (.nodeAddInput r v)
        (Engine.OnTurnAdmissionStart env (newTurn s) (makeTurn env 0 s).2))), ?_, ?_, ?_, ?_,
      ?_, ?_, ?_, ?_⟩
    · simp [Engine.OnTurnAdmissionEnd, Engine.OnTurnAdmissionStart, emit, makeTurn, nextTurnId,
        nextTurnIdAt_fst, snap, newTurn]
    · simp [Engine.OnTurnAdmissionEnd, Engine.OnTurnAdmissionStart, emit, makeTurn, nextTurnId]
    · simp [Engine.OnTurnAdmissionEnd, Engine.OnTurnAdmissionStart, emit, makeTurn, nextTurnId]
    · simp [Engine.OnTurnAdmissionEnd, Engine.OnTurnAdmissionStart, emit, makeTurn, nextTurnId]
    · simp [Engine.OnTurnAdmissionEnd, Engine.OnTurnAdmissionStart, emit, makeTurn, nextTurnId]
    · simp [Engine.OnTurnAdmissionEnd, Engine.OnTurnAdmissionStart, emit, makeTurn, nextTurnId]
    · simp [Engine.OnTurnAdmissionEnd, Engine.OnTurnAdmissionStart, emit, makeTurn, nextTurnId,
        nextTurnIdAt_fst]
    · simp only [propagateIf]
      cases res <;> simp <;> rfl

/-- Every run of a round of the loop of `processContinuations` starts with the
construction of the turn and `OnTurnAdmissionStart`. -/
theorem processContinuationsLoop_starts (fuel n : Nat) (cont : ContinuationInput InputClosure)
    (flags : TurnFlagsT) (s : State ε) :
    (processContinuationsLoop env (AddInput env n) fuel cont flags s).All fun s1 =>
      ∃ evs, s1.trace = s.trace ++ snap (.turnCreate s.nextTurnId_ flags) s
        :: { call := .onTurnAdmissionStart s.nextTurnId_, active := true,
             inputs := s.transactionState_.inputs } :: evs := by
  have hst : Stable env (Extends : State ε → State ε → Prop) := Extends.stable
  have hadm : ∀ s1, Extends (turnAdmitted env flags (closureInputs cont) s) s1 →
      ∃ evs, s1.trace = s.trace ++ snap (.turnCreate s.nextTurnId_ flags) s
        :: { call := .onTurnAdmissionStart s.nextTurnId_, active := true,
             inputs := s.transactionState_.inputs } :: evs := by
    rintro s1 ⟨evs, he⟩
    rw [he, turnAdmitted_trace]
    exact ⟨inputEvents true s.transactionState_.inputs (closureInputs cont)
      ++ [{ call := .onTurnAdmissionEnd s.nextTurnId_, active := true,
            inputs := s.transactionState_.inputs ++ (closureInputs cont).map Prod.fst }]
      ++ evs, by simp⟩
  cases fuel with
  | zero => trivial
  | succ fuel =>
    rw [processContinuationsLoop_succ]
    split
    · exact hadm _ (hst.rel_emitAll _ _)
    · have h : ((propagateIf env (AddInput env n)
          ((turnTickCalls env flags (closureInputs cont) s).any Call.isPulsed) (newTurn s)
          (turnTicked env flags (closureInputs cont) s)).bind fun _ s8 =>
            if ((emitAll env ((s8.turns (newTurn s).addr).detachedObservers_.map Call.unregister)
                s8).turns (newTurn s).addr).continuation_.IsEmpty then
              Outcome.returned ()
                (emitAll env ((s8.turns (newTurn s).addr).detachedObservers_.map Call.unregister)
                  s8)
            else
              processContinuationsLoop env (AddInput env n) fuel
                ((emitAll env ((s8.turns (newTurn s).addr).detachedObservers_.map Call.unregister)
                  s8).turns (newTurn s).addr).continuation_ flags
                (emitAll env ((s8.turns (newTurn s).addr).detachedObservers_.map Call.unregister)
                  s8)).All (Extends (turnTicked env flags (closureInputs cont) s)) := by
        refine hst.bind_rel (hst.rel_propagateIf _ (hst.rel_AddInput n) _ _ _) fun _ s8 => ?_
        split
        · exact hst.rel_emitAll _ _
        · exact hst.after (hst.rel_emitAll _ s8)
            (hst.rel_processContinuationsLoop _ (hst.rel_AddInput n) fuel _ _ _)
      refine h.mono fun s1 h1 => hadm s1 ?_
      exact hst.trans _ _ _ (hst.trans _ _ _ (hst.rel_emitAll _ _) (hst.rel_clearInputs _)) h1

end buffered_engine

/-- C7, amended. Deferred observer detachment, when no `Tick` throws. (1) Post-processing
of a turn starts with one `Unregister` call for each entry of the turn's
`detachedObservers_`, in list order, and no other; a follow-up turn, if any, is
constructed and admitted after these calls. (2), (3), (4) In the turn of
`DoTransaction`, of `addSimpleInput` and in a continuation turn no `Unregister`
call is made during admission and input ticking, and the unregister loop comes
after the turn's propagation phase has returned. (5) During the propagation of
a turn whose engine buffers the inputs of user code, the domain records the
begin record, the engine call and the end record, and makes no `Unregister`
call. -/
theorem deferred_observer_detachment {ε : Type} (env : Env ε) (htot : TotalTicks env)
    (n : Nat) :
    (∀ (fuel : Nat) (turn : TurnRef) (s : State ε),
      (unregistered env turn s).trace
          = s.trace ++ (s.turns turn.addr).detachedObservers_.map
              (fun o => snap (.unregister o) s)
        ∧ postProcessTurn env (AddInput env n) fuel turn s =
            (if (s.turns turn.addr).continuation_.IsEmpty then
              .returned () (unregistered env turn s)
            else
              processContinuationsLoop env (AddInput env n) fuel
                (s.turns turn.addr).continuation_ 0 (unregistered env turn s))
        ∧ (processContinuationsLoop env (AddInput env n) fuel
              (s.turns turn.addr).continuation_ 0 (unregistered env turn s)).All fun s1 =>
            ∃ evs, s1.trace = (unregistered env turn s).trace
              ++ { call := .turnCreate s.nextTurnId_ 0, active := s.transactionState_.active,
                   inputs := s.transactionState_.inputs }
              :: { call := .onTurnAdmissionStart s.nextTurnId_, active := true,
                   inputs := s.transactionState_.inputs } :: evs)
    ∧ (∀ (fuel : Nat) (func : List UserCmd) (flags : TurnFlagsT) (s : State ε),
      env.tryMerge func s.ext = false → funcFails func = false →
      ∃ (evs : List Event) (s7 : State ε) (b : Bool),
        s7.trace = s.trace ++ evs
        ∧ (∀ e ∈ evs, ∀ o, e.call ≠ .unregister o)
        ∧ DoTransaction env fuel func flags s =
            (propagateIf env (AddInput env fuel) b
                { addr := s.turnCount, id := s.nextTurnId_ } s7).bind fun _ s8 =>
              postProcessTurn env (AddInput env fuel) fuel
                { addr := s.turnCount, id := s.nextTurnId_ } s8)
    ∧ (∀ (fuel : Nat) (r : NodeId) (v : Value) (s : State ε),
      ∃ (evs : List Event) (s4 : State ε) (b : Bool),
        s4.trace = s.trace ++ evs
        ∧ (∀ e ∈ evs, ∀ o, e.call ≠ .unregister o)
        ∧ addSimpleInput env (AddInput env n) fuel r v s =
            (propagateIf env (AddInput env n) b
                { addr := s.turnCount, id := s.nextTurnId_ } s4).bind fun _ s5 =>
              postProcessTurn env (AddInput env n) fuel
                { addr := s.turnCount, id := s.nextTurnId_ } s5)
    ∧ (∀ (fuel : Nat) (cont : ContinuationInput InputClosure) (flags : TurnFlagsT)
        (s : State ε),
      ∃ (evs : List Event) (s7 : State ε) (b : Bool),
        s7.trace = s.trace ++ evs
        ∧ (∀ e ∈ evs, ∀ o, e.call ≠ .unregister o)
        ∧ processContinuationsLoop env (AddInput env n) (fuel + 1) cont flags s =
            (propagateIf env (AddInput env n) b
                { addr := s.turnCount, id := s.nextTurnId_ } s7).bind fun _ s8 =>
              if ((unregistered env { addr := s.turnCount, id := s.nextTurnId_ } s8).turns
                    s.turnCount).continuation_.IsEmpty then
                .returned () (unregistered env { addr := s.turnCount, id := s.nextTurnId_ } s8)
              else
                processContinuationsLoop env (AddInput env n) fuel
                  ((unregistered env { addr := s.turnCount, id := s.nextTurnId_ } s8).turns
                    s.turnCount).continuation_ flags
                  (unregistered env { addr := s.turnCount, id := s.nextTurnId_ } s8))
    ∧ (∀ (fuel : Nat) (turn : TurnRef) (s : State ε),
      buffersInputs s.continuationHolder_.isSome
        (env.propagate turn.id
          (emit env (.onTurnPropagate turn.id) (emit env (.logTransactionBegin turn.id) s)).ext)
        = true →
      (Engine.OnTurnPropagate env (AddInput env fuel) turn s).All fun s1 =>
        ∃ evs, s1.trace = s.trace ++ evs ∧ ∀ e ∈ evs, ∀ o, e.call ≠ .unregister o) := by
  refine ⟨?_, ?_, ?_, ?_, ?_⟩
  · intro fuel turn s
    refine ⟨unregistered_trace env turn s, postProcessTurn_unregistered env _ fuel turn s, ?_⟩
    have h := processContinuationsLoop_starts env fuel n (s.turns turn.addr).continuation_ 0
      (unregistered env turn s)
    simpa [snap] using h
  · intro fuel func flags s hmerge hfunc
    obtain ⟨funcEvs, enlisted, ticks, s7, h1, -, h3, -, h5, -, -, -, -, -, h11⟩ :=
      DoTransaction_run env htot fuel func flags s hmerge hfunc
    refine ⟨[snap (.tryMerge false) s, snap (.turnCreate s.nextTurnId_ flags) s,
          { call := .onTurnAdmissionStart s.nextTurnId_, active := true,
            inputs := s.transactionState_.inputs }]
        ++ funcEvs
        ++ [{ call := .onTurnAdmissionEnd s.nextTurnId_, active := true, inputs := enlisted }]
        ++ ticks.map (fun c => { call := c, active := false, inputs := enlisted }),
      s7, ticks.any Call.isPulsed, by rw [h5]; simp only [List.append_assoc], ?_, h11⟩
    intro e he o
    simp only [List.mem_append, List.mem_cons, List.mem_singleton, List.mem_map,
      List.not_mem_nil, or_false] at he
    rcases he with (((rfl | rfl | rfl) | he) | rfl) | ⟨c, hc, rfl⟩
    · simp [snap]
    · simp [snap]
    · simp
    · obtain ⟨-, r, v, h⟩ := h1 e he
      simp [h]
    · simp
    · obtain ⟨p, res, h⟩ := h3 c hc
      simp [h]
  · intro fuel r v s
    obtain ⟨res, s4, h1, -, -, -, -, -, -, h8⟩ :=
      addSimpleInput_run env htot (AddInput env n) fuel r v s
    refine ⟨_, s4, decide (res = ETickResult.pulsed), h1, ?_, h8⟩
    intro e he o
    simp only [List.mem_cons, List.mem_singleton, List.not_mem_nil, or_false] at he
    rcases he with rfl | rfl | rfl | rfl | rfl <;> simp [snap]
  · intro fuel cont flags s
    obtain ⟨ticks, s7, h1, -, h3, -, -, -, -, -, -, h10⟩ :=
      continuationTurn_run env htot (AddInput env n) fuel cont flags s
    refine ⟨[snap (.turnCreate s.nextTurnId_ flags) s,
          { call := .onTurnAdmissionStart s.nextTurnId_, active := true,
            inputs := s.transactionState_.inputs }]
        ++ inputEvents true s.transactionState_.inputs (closureInputs cont)
        ++ [{ call := .onTurnAdmissionEnd s.nextTurnId_, active := true,
              inputs := s.transactionState_.inputs ++ (closureInputs cont).map Prod.fst }]
        ++ ticks.map (fun c => Event.mk c false
              (s.transactionState_.inputs ++ (closureInputs cont).map Prod.fst)),
      s7, ticks.any Call.isPulsed, by rw [h3]; simp only [List.append_assoc], ?_, h10⟩
    intro e he o
    simp only [List.mem_append, List.mem_cons, List.mem_singleton, List.mem_map,
      List.not_mem_nil, or_false] at he
    rcases he with (((rfl | rfl) | he) | rfl) | ⟨c, hc, rfl⟩
    · simp [snap]
    · simp
    · obtain ⟨-, r, v, h⟩ := inputEvents_mem _ _ _ e he
      simp [h]
    · simp
    · obtain ⟨p, res, h⟩ := h1 c hc
      simp [h]
  · intro fuel turn s hb
    rcases OnTurnPropagate_buffered env fuel turn s hb with h | h
    · cases ho : Engine.OnTurnPropagate env (AddInput env fuel) turn s with
      | returned u s1 =>
        rw [ho] at h
        refine ⟨_, h.1, ?_⟩
        intro e he o
        simp only [List.mem_cons, List.mem_singleton, List.not_mem_nil, or_false] at he
        rcases he with rfl | rfl | rfl <;> simp [snap]
      | threw s1 => rw [ho] at h; exact absurd h (by simp [Outcome.Returns])
      | outOfFuel => trivial
    · cases ho : Engine.OnTurnPropagate env (AddInput env fuel) turn s with
      | returned u s1 => rw [ho] at h; exact absurd h (by simp [Outcome.Throws])
      | threw s1 =>
        rw [ho] at h
        refine ⟨_, h.1, ?_⟩
        intro e he o
        simp only [List.mem_cons, List.mem_singleton, List.not_mem_nil, or_false] at he
        rcases he with rfl | rfl <;> simp [snap]
      | outOfFuel => trivial

/-- Post-processing of a turn with observer 3 to detach and one buffered input,
and the propagation of turn 0 under the sample engine. -/
theorem deferred_observer_detachment_witness :
    TotalTicks (sampleEnv false)
    ∧ (unregistered (sampleEnv false) { addr := 0, id := 0 } afterPropagation).trace
        = [] ++ [3].map (fun o => snap (.unregister o) afterPropagation)
    ∧ (Engine.OnTurnPropagate (sampleEnv false) (AddInput (sampleEnv false) 1)
          { addr := 0, id := 0 } (State.init ())).All fun s1 =>
        ∃ evs, s1.trace = [] ++ evs ∧ ∀ e ∈ evs, ∀ o, e.call ≠ .unregister o :=
  ⟨sampleEnv_total false,
    ((deferred_observer_detachment (sampleEnv false) (sampleEnv_total false) 1).1 1
      { addr := 0, id := 0 } afterPropagation).1,
    (deferred_observer_detachment (sampleEnv false) (sampleEnv_total false) 1).2.2.2.2 1
      { addr := 0, id := 0 } (State.init ()) rfl⟩

/-- A whole run: a transaction with one input under the sample engine, whose
propagation of turn 0 buffers the input of node 7 and detaches observer 3. The
domain unregisters observer 3 after the propagation and runs one follow-up
turn, with id 1 and flags 0, that admits and ticks node 7. -/
theorem DoTransaction_follow_up_example :
    ∃ s1, DoTransaction (sampleEnv false) 2 [.addInput 1 10] enable_input_merging (State.init ())
        = .returned () s1
      ∧ s1.trace.map Event.call
          = [.tryMerge false, .turnCreate 0 1, .onTurnAdmissionStart 0, .nodeAddInput 1 10,
             .onTurnAdmissionEnd 0, .nodeTick 1 0 (some .pulsed),
             .logTransactionBegin 0, .onTurnPropagate 0, .logTransactionEnd 0,
             .unregister 3,
             .turnCreate 1 0, .onTurnAdmissionStart 1, .nodeAddInput 7 5,
             .onTurnAdmissionEnd 1, .nodeTick 7 1 (some .pulsed),
             .logTransactionBegin 1, .onTurnPropagate 1, .logTransactionEnd 1]
      ∧ s1.transactionState_ = { active := false, inputs := [] }
      ∧ s1.nextTurnId_ = 2
      ∧ s1.continuationHolder_ = none :=
  ⟨_, rfl, rfl, rfl, rfl, rfl⟩

/-! ## Options -/

theorem toUInt_lt (v : Int) : toUInt v < 2 ^ 32 := by
  unfold toUInt
  have h1 : 0 ≤ v % 4294967296 := Int.emod_nonneg v (by decide)
  have h2 : v % 4294967296 < 4294967296 := Int.emod_lt_of_pos v (by decide)
  omega

theorem toUInt_enable_input_merging : toUInt (enable_input_merging : Nat) = 1 := by
  decide

/-- The complement of a 32-bit pattern, bit by bit. -/
theorem complement_testBit (u : Nat) (hu : u < 2 ^ 32) (i : Nat) :
    (UINT_RANGE - 1 - u).testBit i = (decide (i < 32) && !u.testBit i) := by
  have h : UINT_RANGE - 1 - u = 2 ^ 32 - (u + 1) := by
    simp only [UINT_RANGE_eq]; omega
  rw [h, Nat.testBit_two_pow_sub_succ hu]

/-- C14. The option controls over `turnFlags_` form a bitset algebra. For every
flags value and every mask `v` (an `int`, taken as its 32-bit pattern):
`Set(v)` yields `f | v`, `Unset(v)` yields `f & ~v` (bit `i` of the result is
bit `i` of `f` and, among the 32 bits, not bit `i` of `v`), `Reset` yields 0 and
`IsSet(v)` holds iff `f & v != 0`. Hence `IsSet(enable_input_merging)` is true
after `Set(enable_input_merging)` and false after `Unset(enable_input_merging)`
and after `Reset`; `Set` and `Unset` are idempotent; `Unset(v)` after `Set(v)`
clears exactly the bits of `v`; and `Set` and `Unset` leave every bit outside
`v` unchanged. -/
theorem turnFlags_bitset {ε : Type} (s : State ε) (v : Int) :
    (Set v s).turnFlags_ = s.turnFlags_ ||| toUInt v
    ∧ (Unset v s).turnFlags_ = s.turnFlags_ &&& (UINT_RANGE - 1 - toUInt v)
    ∧ (∀ i, (Unset v s).turnFlags_.testBit i
        = (s.turnFlags_.testBit i && (decide (i < 32) && !(toUInt v).testBit i)))
    ∧ (Reset s).turnFlags_ = 0
    ∧ (IsSet v s = true ↔ s.turnFlags_ &&& toUInt v ≠ 0)
    ∧ IsSet (enable_input_merging : Nat) (Set (enable_input_merging : Nat) s) = true
    ∧ IsSet (enable_input_merging : Nat) (Unset (enable_input_merging : Nat) s) = false
    ∧ IsSet v (Reset s) = false
    ∧ Set v (Set v s) = Set v s
    ∧ Unset v (Unset v s) = Unset v s
    ∧ (∀ i, (Unset v (Set v s)).turnFlags_.testBit i
        = (s.turnFlags_.testBit i && (decide (i < 32) && !(toUInt v).testBit i)))
    ∧ (∀ i, (toUInt v).testBit i = false →
        (Set v s).turnFlags_.testBit i = s.turnFlags_.testBit i)
    ∧ (∀ i, i < 32 → (toUInt v).testBit i = false →
        (Unset v s).turnFlags_.testBit i = s.turnFlags_.testBit i) := by
  have hc := complement_testBit (toUInt v) (toUInt_lt v)
  refine ⟨rfl, rfl, ?_, rfl, ?_, ?_, ?_, ?_, ?_, ?_, ?_, ?_, ?_⟩
  · intro i
    simp only [Unset, Nat.testBit_and, hc]
  · simp [IsSet]
  · simp only [IsSet, Set, toUInt_enable_input_merging, bne_iff_ne, ne_eq]
    intro h
    have h0 := congrArg (fun n => n.testBit 0) h
    simp [Nat.testBit_and, Nat.testBit_or] at h0
  · simp only [IsSet, Unset, toUInt_enable_input_merging, UINT_RANGE_eq]
    have h : s.turnFlags_ &&& (4294967296 - 1 - 1) &&& 1 = 0 := by
      apply Nat.eq_of_testBit_eq
      intro i
      simp only [Nat.testBit_and, Nat.zero_testBit]
      cases i with
      | zero => simp
      | succ i => simp [Nat.testBit_succ]
    simp [h]
  · simp [IsSet, Reset]
  · simp only [Set, Nat.lor_assoc, Nat.or_self]
  · simp only [Unset, Nat.land_assoc, Nat.and_self]
  · intro i
    simp only [Unset, Set, Nat.testBit_and, Nat.testBit_or, hc]
    cases s.turnFlags_.testBit i <;> cases (toUInt v).testBit i <;> simp
  · intro i hi
    simp [Set, Nat.testBit_or, hi]
  · intro i hi hv
    simp [Unset, Nat.testBit_and, hc, hi, hv]

/-- The mask `enable_input_merging` on the flags 6: bit 1 lies outside the
mask and is kept by `Set` and by `Unset`. -/
theorem turnFlags_bitset_witness :
    (Set (enable_input_merging : Nat) { State.init () with turnFlags_ := 6 }).turnFlags_.testBit 1
        = (6 : Nat).testBit 1
    ∧ (Unset (enable_input_merging : Nat)
          { State.init () with turnFlags_ := 6 }).turnFlags_.testBit 1 = (6 : Nat).testBit 1 :=
  ⟨(turnFlags_bitset { State.init () with turnFlags_ := 6 }
      (enable_input_merging : Nat)).2.2.2.2.2.2.2.2.2.2.2.1 1 (by decide),
   (turnFlags_bitset { State.init () with turnFlags_ := 6 }
      (enable_input_merging : Nat)).2.2.2.2.2.2.2.2.2.2.2.2 1 (by decide) (by decide)⟩

/-! ## The sequence of turn ids -/

theorem issuedIds_zero_succ (n : Nat) : issuedIds (n + 1) 0 = 0 :: issuedIds n 1 := by
  have hs : (nextTurnIdAt 0).2 = 1 := by decide
  rw [issuedIds, nextTurnIdAt_fst, hs]

theorem issuedIds_one (n : Nat) (hn : n ≤ INT_MAX) :
    issuedIds n 1 = (List.range n).map (fun k => k + 1) := by
  rw [issuedIds_closed n 1 (Nat.le_refl 1) (by simp only [INT_MAX_eq]; omega)]
  apply List.map_congr_left
  intro k hk
  simp only [List.mem_range] at hk
  simp only [INT_MAX_eq] at hn ⊢
  omega

theorem issuedIds_append (m n c : Nat) :
    issuedIds (m + n) c = issuedIds m c ++ issuedIds n (counterAfter m c) := by
  induction m generalizing c with
  | zero => simp [issuedIds, counterAfter]
  | succ m ih =>
    rw [show m + 1 + n = (m + n) + 1 by omega, issuedIds, issuedIds, counterAfter, ih]
    rfl

theorem counterAfter_of_le (n : Nat) (hn : n ≤ INT_MAX) : counterAfter n 0 = n := by
  have key : ∀ (m c : Nat), c + m ≤ INT_MAX → counterAfter m c = c + m := by
    intro m
    induction m with
    | zero => intro c _; rfl
    | succ m ih =>
      intro c hc
      have hlt : c < INT_MAX := by omega
      rw [counterAfter, nextTurnIdAt_snd_of_lt c hlt, ih (c + 1) (by omega)]
      omega
  simpa using key n 0 (by simpa using hn)

/-- C16. Turn-id wrap. A call of `nextTurnId` returns the value the counter
had before the call. Starting from the counter 0, the first 2^31 ids are
0, 1, 2, ..., 2^31-1. When the id returned is 2^31-1 (`INT_MAX`) the counter,
raised to 2^31, is lowered by `INT_MAX` to 1, so the next id is 1. Every id
issued lies in 0 .. 2^31-1, and the id 0 is issued by the first call only. -/
theorem turn_id_wrap :
    (∀ c, (nextTurnIdAt c).1 = c)
    ∧ (∀ n, n ≤ 2 ^ 31 → issuedIds n 0 = List.range n)
    ∧ nextTurnIdAt INT_MAX = (2 ^ 31 - 1, (2 ^ 31 - 1 + 1) - INT_MAX)
    ∧ (∀ n, issuedIds (2 ^ 31 + (n + 1)) 0
        = List.range (2 ^ 31) ++ 1 :: issuedIds n (nextTurnIdAt 1).2)
    ∧ (∀ n, ∀ x ∈ issuedIds n 0, x ≤ 2 ^ 31 - 1)
    ∧ (∀ n, issuedIds (n + 1) 0 = 0 :: issuedIds n 1 ∧ ∀ x ∈ issuedIds n 1, x ≠ 0) := by
  have hM := INT_MAX_eq
  have hrange : ∀ n, n ≤ 2 ^ 31 → issuedIds n 0 = List.range n := by
    intro n hn
    cases n with
    | zero => rfl
    | succ n =>
      rw [issuedIds_zero_succ, issuedIds_one n (by omega), List.range_succ_eq_map]
  refine ⟨nextTurnIdAt_fst, hrange, by decide, ?_, ?_, ?_⟩
  · intro n
    rw [issuedIds_append, hrange _ (Nat.le_refl _)]
    have hc : counterAfter (2 ^ 31) 0 = 1 := by
      have h1 : counterAfter (INT_MAX + 1) 0 = counterAfter 1 (counterAfter INT_MAX 0) := by
        have key : ∀ (m k c : Nat), counterAfter (m + k) c = counterAfter k (counterAfter m c) := by
          intro m
          induction m with
          | zero => intro k c; simp [counterAfter]
          | succ m ih =>
            intro k c
            rw [show m + 1 + k = (m + k) + 1 by omega, counterAfter, counterAfter, ih]
        exact key INT_MAX 1 0
      rw [show (2 : Nat) ^ 31 = INT_MAX + 1 by rw [hM]; norm_num, h1, counterAfter_of_le INT_MAX (Nat.le_refl _)]
      simp only [counterAfter]
      exact nextTurnIdAt_snd_max
    rw [hc, issuedIds, nextTurnIdAt_fst]
  · intro n x hx
    cases n with
    | zero => simp [issuedIds] at hx
    | succ n =>
      rw [issuedIds_zero_succ, List.mem_cons] at hx
      rcases hx with rfl | hx
      · omega
      · rw [issuedIds_closed n 1 (Nat.le_refl 1) (by omega)] at hx
        simp only [List.mem_map, INT_MAX_eq] at hx
        obtain ⟨k, _, rfl⟩ := hx
        omega
  · intro n
    refine ⟨issuedIds_zero_succ n, ?_⟩
    intro x hx h0
    have := issuedIds_pos n 1 (Nat.le_refl 1) (by omega) x hx
    omega

/-- The first four ids, and the ids around the wrap. -/
theorem turn_id_wrap_witness :
    issuedIds 4 0 = List.range 4
    ∧ issuedIds (2 ^ 31 + (1 + 1)) 0
        = List.range (2 ^ 31) ++ 1 :: issuedIds 1 (nextTurnIdAt 1).2
    ∧ ∀ x ∈ issuedIds 5 0, x ≤ 2 ^ 31 - 1 :=
  ⟨turn_id_wrap.2.1 4 (by norm_num), turn_id_wrap.2.2.2.1 1, turn_id_wrap.2.2.2.2.1 5⟩

/-! ## The flags of a new turn -/

section opens
variable {ε : Type} {env : Env ε} {R : State ε → State ε → Prop}

/-- Whatever a relation respected by every step says, it says of the rest of a
transaction from the start of its admission on. -/
theorem DoTransaction_from_admission (hR : Stable env R) (fuel : Nat) (func : List UserCmd)
    (flags : TurnFlagsT) (s : State ε) (hmerge : env.tryMerge func s.ext = false) :
    (DoTransaction env fuel func flags s).All
      (R (admissionStarted env flags (emit env (.tryMerge false) s))) := by
  unfold DoTransaction Engine.TryMerge
  simp only [hmerge, Bool.false_eq_true, if_false, makeTurn_fst]
  have hS : Engine.OnTurnAdmissionStart env (newTurn (emit env (.tryMerge false) s))
      (setActive true (makeTurn env flags (emit env (.tryMerge false) s)).2)
      = admissionStarted env flags (emit env (.tryMerge false) s) := rfl
  rw [hS]
  generalize admissionStarted env flags (emit env (.tryMerge false) s) = s2
  generalize newTurn (emit env (.tryMerge false) s) = turn
  refine hR.bind_rel (hR.rel_runUser _ (hR.rel_AddInput fuel) func _) fun _ s3 => ?_
  refine hR.afterAt (setActive false (Engine.OnTurnAdmissionEnd env turn s3))
    (hR.trans _ _ _ (hR.step_emit _ s3) (hR.step_setActive false _)) ?_
  rw [tickInputs_eq]
  split
  · exact hR.rel_emitAll _ _
  · simp only [bind_returned]
    refine hR.afterAt (clearInputs (emitAll env
        (tickCalls env turn.id
          (setActive false (Engine.OnTurnAdmissionEnd env turn s3)).transactionState_.inputs
          (setActive false (Engine.OnTurnAdmissionEnd env turn s3)).ext)
        (setActive false (Engine.OnTurnAdmissionEnd env turn s3))))
      (hR.trans _ _ _ (hR.rel_emitAll _ _) (hR.rel_clearInputs _)) ?_
    refine hR.bind_rel ?_ fun _ s8 => hR.rel_postProcessTurn _ (hR.rel_AddInput fuel) fuel _ s8
    split
    · exact hR.rel_OnTurnPropagate _ (hR.rel_AddInput fuel) _ _
    · exact hR.refl _

/-- The same for `addSimpleInput`, from the construction of its turn on. -/
theorem addSimpleInput_from_turn (hR : Stable env R)
    (addInput : NodeId → Value → State ε → Outcome ε Unit)
    (hadd : ∀ r v s, (addInput r v s).All (R s)) (fuel : Nat) (r : NodeId) (v : Value)
    (s : State ε) :
    (addSimpleInput env addInput fuel r v s).All (R (makeTurn env 0 s).2) := by
  have h3 : R (makeTurn env 0 s).2 (Engine.OnTurnAdmissionEnd env (makeTurn env 0 s).1
      (emit env (.nodeAddInput r v)
        (Engine.OnTurnAdmissionStart env (makeTurn env 0 s).1 (makeTurn env 0 s).2))) :=
    hR.trans _ _ _ (hR.trans _ _ _ (hR.step_emit _ _) (hR.step_emit _ _)) (hR.step_emit _ _)
  unfold addSimpleInput
  simp only
  split
  · exact hR.trans _ _ _ h3 (hR.step_emit _ _)
  · rename_i res _
    refine hR.afterAt (emit env (.nodeTick r (makeTurn env 0 s).1.id (some res))
      (Engine.OnTurnAdmissionEnd env (makeTurn env 0 s).1
        (emit env (.nodeAddInput r v)
          (Engine.OnTurnAdmissionStart env (makeTurn env 0 s).1 (makeTurn env 0 s).2))))
      (hR.trans _ _ _ h3 (hR.step_emit _ _)) ?_
    refine hR.bind_rel ?_ fun _ s5 => hR.rel_postProcessTurn addInput hadd fuel _ s5
    split
    · exact hR.rel_OnTurnPropagate addInput hadd _ _
    · exact hR.refl _

theorem makeTurn_trace (flags : TurnFlagsT) (s : State ε) :
    (makeTurn env flags s).2.trace = s.trace ++ [snap (.turnCreate s.nextTurnId_ flags) s] := by
  simp [makeTurn, nextTurnId, nextTurnIdAt_fst, emit, snap]

end opens

/-- C15. Default flags. `DoTransaction(func)` is `DoTransaction(func, f)` for
the value `f` that `turnFlags_` has when it is called, for every `func` and
every `f`. So when the merge is refused, the turn it opens is constructed with
flags `f`, right after the `TryMerge` call and under the next turn id, however
the run goes on; after `Set(v)` the flags are the old ones with the bits of `v`
set, after `Set(enable_input_merging)` on reset options they are
`enable_input_merging`, after `Reset()` they are 0. The turn that an
`AddInput` outside a transaction (no current continuation, `active` clear)
opens is constructed with flags 0 whatever `turnFlags_` is. -/
theorem DoTransaction_default_flags {ε : Type} (env : Env ε) (fuel : Nat) (func : List UserCmd)
    (s : State ε) :
    DoTransactionDefault env fuel func s = DoTransaction env fuel func s.turnFlags_ s
    ∧ (env.tryMerge func s.ext = false →
        (DoTransactionDefault env fuel func s).All fun s1 =>
          ∃ evs, s1.trace = s.trace ++ snap (.tryMerge false) s
            :: snap (.turnCreate s.nextTurnId_ s.turnFlags_) s :: evs)
    ∧ (∀ v : Int, DoTransactionDefault env fuel func (Set v s)
        = DoTransaction env fuel func (s.turnFlags_ ||| toUInt v) (Set v s))
    ∧ DoTransactionDefault env fuel func (Set (enable_input_merging : Nat) (Reset s))
        = DoTransaction env fuel func enable_input_merging
            (Set (enable_input_merging : Nat) (Reset s))
    ∧ DoTransactionDefault env fuel func (Reset s) = DoTransaction env fuel func 0 (Reset s)
    ∧ (∀ r v, s.continuationHolder_ = none → s.transactionState_.active = false →
        AddInput env (fuel + 1) r v s = addSimpleInput env (AddInput env fuel) fuel r v s
        ∧ (AddInput env (fuel + 1) r v s).All fun s1 =>
            ∃ evs, s1.trace = s.trace ++ snap (.turnCreate s.nextTurnId_ 0) s :: evs) := by
  have hst : Stable env (Extends : State ε → State ε → Prop) := Extends.stable
  refine ⟨rfl, ?_, fun v => rfl, ?_, rfl, ?_⟩
  · intro hmerge
    refine (DoTransaction_from_admission hst fuel func s.turnFlags_ s hmerge).mono ?_
    rintro s1 ⟨evs, he⟩
    rw [he, admissionStarted_trace]
    exact ⟨Event.mk (.onTurnAdmissionStart s.nextTurnId_) true s.transactionState_.inputs :: evs,
      by simp [emit, snap]⟩
  · have h : (Set (enable_input_merging : Nat) (Reset s)).turnFlags_ = enable_input_merging := by
      show 0 ||| toUInt ((enable_input_merging : Nat) : Int) = enable_input_merging
      rw [toUInt_enable_input_merging]
      rfl
    unfold DoTransactionDefault
    rw [h]
  · intro r v hnull hact
    have hd : AddInput env (fuel + 1) r v s
        = addSimpleInput env (AddInput env fuel) fuel r v s := by
      rw [AddInput]
      simp [hnull, hact]
    refine ⟨hd, ?_⟩
    rw [hd]
    refine (addSimpleInput_from_turn hst _ (hst.rel_AddInput fuel) fuel r v s).mono ?_
    rintro s1 ⟨evs, he⟩
    rw [he, makeTurn_trace]
    exact ⟨evs, by simp⟩

theorem DoTransaction_default_flags_witness :
    (Set (enable_input_merging : Nat) (State.init ())).continuationHolder_ = none
    ∧ (Set (enable_input_merging : Nat) (State.init ())).transactionState_.active = false
    ∧ AddInput (sampleEnv false) (2 + 1) 4 9 (Set (enable_input_merging : Nat) (State.init ()))
        = addSimpleInput (sampleEnv false) (AddInput (sampleEnv false) 2) 2 4 9
            (Set (enable_input_merging : Nat) (State.init ()))
    ∧ (AddInput (sampleEnv false) (2 + 1) 4 9
        (Set (enable_input_merging : Nat) (State.init ()))).All (fun s1 =>
          ∃ evs, s1.trace = (Set (enable_input_merging : Nat) (State.init ())).trace
            ++ snap (.turnCreate
                (Set (enable_input_merging : Nat) (State.init ())).nextTurnId_ 0)
                (Set (enable_input_merging : Nat) (State.init ())) :: evs) :=
  ⟨rfl, rfl,
    (DoTransaction_default_flags (sampleEnv false) 2 [] (Set (enable_input_merging : Nat)
      (State.init ()))).2.2.2.2.2 4 9 rfl rfl⟩

/-! ## Runs that start without transaction state -/

section regular
variable {ε : Type} {env : Env ε}

theorem tickCalls_isTick (id : TurnIdT) (ps : List NodeId) (e : ε) :
    ∀ c ∈ tickCalls env id ps e, ∃ p res, c = .nodeTick p id res := by
  induction ps generalizing e with
  | nil => simp [tickCalls]
  | cons p ps ih =>
    intro c hc
    simp only [tickCalls] at hc
    split at hc
    · simp only [List.mem_singleton] at hc
      exact ⟨p, none, hc⟩
    · rename_i res _
      simp only [List.mem_cons] at hc
      rcases hc with rfl | hc
      · exact ⟨p, some res, rfl⟩
      · exact ih _ c hc

theorem follows_refl (s : State ε) : Follows s s :=
  ⟨[], by simp, by simp⟩

theorem follows_append {s0 s s1 : State ε} (h : Follows s0 s) (evs : List Event)
    (ht : s1.trace = s.trace ++ evs) (hr : ∀ e ∈ evs, e.regular = true) : Follows s0 s1 := by
  obtain ⟨evs0, h0, hr0⟩ := h
  refine ⟨evs0 ++ evs, by rw [ht, h0, List.append_assoc], ?_⟩
  intro e he
  rcases List.mem_append.1 he with he | he
  · exact hr0 e he
  · exact hr e he

theorem follows_trans {s0 s s1 : State ε} (h : Follows s0 s) (h1 : Follows s s1) :
    Follows s0 s1 := by
  obtain ⟨evs, ht, hr⟩ := h1
  exact follows_append h evs ht hr

theorem follows_same {s0 s s1 : State ε} (h : Follows s0 s) (ht : s1.trace = s.trace) :
    Follows s0 s1 :=
  follows_append h [] (by simp [ht]) (by simp)

theorem settled_refl {s : State ε} (hq : Quiet s) : Settled s s :=
  ⟨follows_refl s, hq⟩

theorem settled_same {s0 s s1 : State ε} (h : Settled s0 s) (ht : s1.trace = s.trace)
    (hts : s1.transactionState_ = s.transactionState_) : Settled s0 s1 :=
  ⟨follows_same h.1 ht, by unfold Quiet; rw [hts]; exact h.2⟩

theorem snap_quiet {s : State ε} (hq : Quiet s) (c : Call) : snap c s = Event.mk c false [] := by
  unfold snap
  rw [hq]

theorem settled_emit {s0 s : State ε} (h : Settled s0 s) (c : Call)
    (hc : (Event.mk c false []).regular = true) : Settled s0 (emit env c s) := by
  refine ⟨follows_append h.1 [snap c s] rfl ?_, h.2⟩
  intro e he
  rw [List.mem_singleton.1 he, snap_quiet h.2]
  exact hc

theorem settled_unregistered {s0 s : State ε} (h : Settled s0 s) (os : List ObsId) :
    Settled s0 (emitAll env (os.map Call.unregister) s) := by
  induction os generalizing s with
  | nil => exact h
  | cons o os ih => exact ih (settled_emit h (.unregister o) rfl)

theorem follows_turnTickedRaw {s0 s : State ε} (h : Settled s0 s)
    (rvs : List (NodeId × Value)) : Follows s0 (turnTickedRaw env 0 rvs s) := by
  have hin : s.transactionState_.inputs = [] := by rw [h.2]
  refine follows_append h.1
    ([snap (.turnCreate s.nextTurnId_ 0) s,
        Event.mk (.onTurnAdmissionStart s.nextTurnId_) true s.transactionState_.inputs]
      ++ inputEvents true s.transactionState_.inputs rvs
      ++ [Event.mk (.onTurnAdmissionEnd s.nextTurnId_) true
            (s.transactionState_.inputs ++ rvs.map Prod.fst)]
      ++ (turnTickCalls env 0 rvs s).map fun c =>
          Event.mk c false (s.transactionState_.inputs ++ rvs.map Prod.fst))
    (by rw [turnTickedRaw_trace, turnAdmitted_trace]; simp only [List.append_assoc]) ?_
  intro e he
  simp only [List.mem_append, List.mem_cons, List.mem_map, List.mem_singleton, List.not_mem_nil,
    or_false] at he
  rcases he with (((rfl | rfl) | he) | rfl) | ⟨c, hc, rfl⟩
  · rw [snap_quiet h.2]; rfl
  · simp [Event.regular, hin]
  · obtain ⟨ha, r, v, hcall⟩ := inputEvents_mem _ _ _ e he
    simp [Event.regular, hcall, ha]
  · simp [Event.regular]
  · obtain ⟨p, res, rfl⟩ := tickCalls_isTick _ _ _ c hc
    simp [Event.regular]

theorem settled_turnTicked {s0 s : State ε} (h : Settled s0 s) (rvs : List (NodeId × Value)) :
    Settled s0 (turnTicked env 0 rvs s) :=
  ⟨follows_same (follows_turnTickedRaw h rvs) rfl, turnTicked_transactionState env 0 rvs s⟩

theorem settles_bind {α β : Type} {s0 : State ε} {o : Outcome ε α}
    {k : α → State ε → Outcome ε β} (ho : o.Settles s0)
    (hk : ∀ a s, Settled s0 s → (k a s).Settles s0) : (o.bind k).Settles s0 := by
  cases o with
  | returned a s => exact hk a s ho
  | threw s => exact ho
  | outOfFuel => trivial

theorem settled_makeTurn {s0 s : State ε} (h : Settled s0 s) :
    Settled s0 (makeTurn env 0 s).2 := by
  refine ⟨follows_append h.1 _ (makeTurn_trace 0 s) ?_, h.2⟩
  intro e he
  rw [List.mem_singleton.1 he, snap_quiet h.2]
  rfl

section reentrant
variable (addInput : NodeId → Value → State ε → Outcome ε Unit)
  (hadd : ∀ s0 r v s, Settled s0 s → (addInput r v s).Settles s0)
include hadd

theorem settles_runUser {s0 : State ε} (cmds : List UserCmd) (s : State ε) (h : Settled s0 s) :
    (runUser addInput cmds s).Settles s0 := by
  induction cmds generalizing s with
  | nil => exact h
  | cons c rest ih =>
    cases c with
    | fail => exact h.1
    | addInput r v => exact settles_bind (hadd s0 r v s h) fun _ s1 h1 => ih s1 h1

theorem settles_runEngine {s0 : State ε} (turn : TurnRef) (cmds : List PropCmd) (s : State ε)
    (h : Settled s0 s) : (runEngine addInput turn cmds s).Settles s0 := by
  induction cmds generalizing s with
  | nil => exact h
  | cons c rest ih =>
    cases c with
    | setCurrentContinuation => exact ih _ (settled_same h rfl rfl)
    | clearCurrentContinuation => exact ih _ (settled_same h rfl rfl)
    | detachObserver o => exact ih _ (settled_same h rfl rfl)
    | user c =>
      exact settles_bind (settles_runUser addInput hadd [c] s h) fun _ s1 h1 => ih s1 h1

theorem settles_OnTurnPropagate {s0 : State ε} (turn : TurnRef) (s : State ε)
    (h : Settled s0 s) : (Engine.OnTurnPropagate env addInput turn s).Settles s0 := by
  unfold Engine.OnTurnPropagate
  refine settles_bind (settles_runEngine addInput hadd turn _ _
    (settled_emit (settled_emit h (.logTransactionBegin turn.id) rfl)
      (.onTurnPropagate turn.id) rfl)) fun _ s3 h3 => ?_
  exact settled_emit h3 (.logTransactionEnd turn.id) rfl

theorem settles_propagateIf {s0 : State ε} (b : Bool) (turn : TurnRef) (s : State ε)
    (h : Settled s0 s) : (propagateIf env addInput b turn s).Settles s0 := by
  unfold propagateIf
  split
  · exact settles_OnTurnPropagate addInput hadd turn s h
  · exact h

theorem settles_processContinuationsLoop {s0 : State ε} (fuel : Nat)
    (cont : ContinuationInput InputClosure) (s : State ε) (h : Settled s0 s) :
    (processContinuationsLoop env addInput fuel cont 0 s).Settles s0 := by
  induction fuel generalizing cont s with
  | zero => trivial
  | succ fuel ih =>
    rw [processContinuationsLoop_succ]
    split
    · exact follows_turnTickedRaw h _
    · refine settles_bind (settles_propagateIf addInput hadd _ _ _ (settled_turnTicked h _))
        fun _ s8 h8 => ?_
      split
      · exact settled_unregistered h8 _
      · exact ih _ _ (settled_unregistered h8 _)

theorem settles_postProcessTurn {s0 : State ε} (fuel : Nat) (turn : TurnRef) (s : State ε)
    (h : Settled s0 s) : (postProcessTurn env addInput fuel turn s).Settles s0 := by
  rw [postProcessTurn_unregistered]
  split
  · exact settled_unregistered h _
  · exact settles_processContinuationsLoop addInput hadd fuel _ _ (settled_unregistered h _)

theorem settles_addSimpleInput {s0 : State ε} (fuel : Nat) (r : NodeId) (v : Value)
    (s : State ε) (h : Settled s0 s) : (addSimpleInput env addInput fuel r v s).Settles s0 := by
  have h3 : Settled s0 (Engine.OnTurnAdmissionEnd env (makeTurn env 0 s).1
      (emit env (.nodeAddInput r v)
        (Engine.OnTurnAdmissionStart env (makeTurn env 0 s).1 (makeTurn env 0 s).2))) :=
    settled_emit (settled_emit (settled_emit (settled_makeTurn h)
      (.onTurnAdmissionStart (makeTurn env 0 s).1.id) rfl) (.nodeAddInput r v) rfl)
      (.onTurnAdmissionEnd (makeTurn env 0 s).1.id) rfl
  unfold addSimpleInput
  simp only
  split
  · exact (settled_emit h3 (.nodeTick r (makeTurn env 0 s).1.id none) rfl).1
  · rename_i res _
    refine settles_bind ?_ fun _ s5 h5 => settles_postProcessTurn addInput hadd fuel _ s5 h5
    split
    · exact settles_OnTurnPropagate addInput hadd _ _
        (settled_emit h3 (.nodeTick r (makeTurn env 0 s).1.id (some res)) rfl)
    · exact settled_emit h3 (.nodeTick r (makeTurn env 0 s).1.id (some res)) rfl

end reentrant

theorem settles_AddInput (fuel : Nat) (s0 : State ε) (r : NodeId) (v : Value) (s : State ε)
    (h : Settled s0 s) : (AddInput env fuel r v s).Settles s0 := by
  have hact : s.transactionState_.active = false := by rw [h.2]
  have hbuf : Settled s0 (addContinuationInput r v s) := by
    unfold addContinuationInput; split
    · exact settled_same h rfl rfl
    · exact h
  induction fuel generalizing s0 r v s with
  | zero =>
    unfold AddInput
    split
    · exact hbuf
    · simp [hact, Outcome.Settles]
  | succ fuel ih =>
    unfold AddInput
    split
    · exact hbuf
    · simp only [hact, Bool.false_eq_true, if_false]
      refine settles_addSimpleInput (AddInput env fuel) ?_ fuel r v s h
      intro s2 r1 v1 s1 h1
      refine ih s2 r1 v1 s1 h1 (by rw [h1.2]) ?_
      unfold addContinuationInput; split
      · exact settled_same h1 rfl rfl
      · exact h1

end regular

section regular_transaction
variable {ε : Type} {env : Env ε}

theorem regular_inputs (e : Event) (h : e.regular = true) (hin : e.inputs ≠ []) :
    (∃ r v, e.call = .nodeAddInput r v ∧ e.active = true)
    ∨ (∃ id, e.call = .onTurnAdmissionEnd id ∧ e.active = true)
    ∨ (∃ p id res, e.call = .nodeTick p id res ∧ e.active = false) := by
  obtain ⟨c, a, l⟩ := e
  cases c <;> simp_all [Event.regular]

theorem regular_flags (e : Event) (h : e.regular = true) (id : TurnIdT) (flags : TurnFlagsT)
    (hc : e.call = .turnCreate id flags) : flags = 0 := by
  obtain ⟨c, a, l⟩ := e
  cases c <;> simp_all [Event.regular]

theorem regular_not_merge (e : Event) (h : e.regular = true) (b : Bool) :
    e.call ≠ .tryMerge b := by
  obtain ⟨c, a, l⟩ := e
  cases c <;> simp_all [Event.regular]

theorem tickInputs_nil (turn : TurnRef) (b : Bool) (s : State ε) :
    tickInputs env turn [] b s = .returned b s := rfl

/-- A transaction that starts without transaction state and is not merged:
once its turn is constructed, the run records regular calls only, and it
returns without transaction state. -/
theorem DoTransaction_settles (fuel : Nat) (func : List UserCmd) (flags : TurnFlagsT)
    (s : State ε) (hq : Quiet s) (hmerge : env.tryMerge func s.ext = false) :
    (DoTransaction env fuel func flags s).Settles
      (makeTurn env flags (emit env (.tryMerge false) s)).2 := by
  have hq0 : Quiet (emit env (.tryMerge false) s) := hq
  have hin : (emit env (.tryMerge false) s).transactionState_.inputs = [] := by rw [hq0]
  have hb : ((makeTurn env flags (emit env (.tryMerge false) s)).2).trace
      = (emit env (.tryMerge false) s).trace
        ++ [snap (.turnCreate (emit env (.tryMerge false) s).nextTurnId_ flags)
              (emit env (.tryMerge false) s)] := makeTurn_trace flags _
  generalize hs0 : emit env (.tryMerge false) s = s0 at hq0 hin hb
  have hraw : ∀ rvs, Follows (makeTurn env flags s0).2 (turnTickedRaw env flags rvs s0) := by
    intro rvs
    refine follows_append (follows_refl _)
      ([Event.mk (.onTurnAdmissionStart s0.nextTurnId_) true s0.transactionState_.inputs]
        ++ inputEvents true s0.transactionState_.inputs rvs
        ++ [Event.mk (.onTurnAdmissionEnd s0.nextTurnId_) true
              (s0.transactionState_.inputs ++ rvs.map Prod.fst)]
        ++ (turnTickCalls env flags rvs s0).map fun c =>
            Event.mk c false (s0.transactionState_.inputs ++ rvs.map Prod.fst))
      (by rw [turnTickedRaw_trace, turnAdmitted_trace, hb]; simp) ?_
    intro e he
    simp only [List.mem_append, List.mem_cons, List.mem_map, List.mem_singleton,
      List.not_mem_nil, or_false] at he
    rcases he with ((rfl | he) | rfl) | ⟨c, hc, rfl⟩
    · simp [Event.regular, hin]
    · obtain ⟨ha, r, v, hcall⟩ := inputEvents_mem _ _ _ e he
      simp [Event.regular, hcall, ha]
    · simp [Event.regular]
    · obtain ⟨p, res, rfl⟩ := tickCalls_isTick _ _ _ c hc
      simp [Event.regular]
  have hadd : ∀ (b : State ε) r v s1, Settled b s1 → (AddInput env fuel r v s1).Settles b :=
    fun b r v s1 h1 => settles_AddInput fuel b r v s1 h1
  have hstart : (admissionStarted env flags s0).trace = (makeTurn env flags s0).2.trace
      ++ [Event.mk (.onTurnAdmissionStart s0.nextTurnId_) true s0.transactionState_.inputs] := by
    rw [admissionStarted_trace, hb]; simp
  have hstartReg : ∀ e ∈ [Event.mk (.onTurnAdmissionStart s0.nextTurnId_) true
      s0.transactionState_.inputs], e.regular = true := by
    intro e he
    rw [List.mem_singleton.1 he]
    simp [Event.regular, hin]
  cases hh : s.continuationHolder_ with
  | none =>
    rw [DoTransaction_eq env fuel func flags s hmerge hh, hs0]
    split
    · refine follows_append (follows_append (follows_refl _) _ hstart hstartReg)
        (inputEvents true s0.transactionState_.inputs (funcInputs func))
        (by rw [enlistAll_trace]; simp) ?_
      intro e he
      obtain ⟨ha, r, v, hcall⟩ := inputEvents_mem _ _ _ e he
      simp [Event.regular, hcall, ha]
    · split
      · exact hraw _
      · refine settles_bind (settles_propagateIf _ hadd _ _ _
          ⟨follows_same (hraw _) rfl, turnTicked_transactionState env flags _ s0⟩)
          fun _ s8 h8 => settles_postProcessTurn _ hadd fuel _ s8 h8
  | some addr =>
    rw [DoTransaction_eq_buffered env fuel func flags s hmerge (by simp [hh]), hs0]
    split
    · exact follows_same (follows_append (follows_refl _) _ hstart hstartReg) (by simp)
    · have hnil : s.transactionState_.inputs = [] := by rw [hq]
      rw [hnil, tickInputs_nil, bind_returned]
      have hS : Settled (makeTurn env flags s0).2
          (clearInputs (setActive false (Engine.OnTurnAdmissionEnd env (newTurn s0)
            (bufferAll (funcInputs func) (admissionStarted env flags s0))))) := by
        refine ⟨follows_append (follows_append (follows_refl _) _ hstart hstartReg)
          [Event.mk (.onTurnAdmissionEnd s0.nextTurnId_) true s0.transactionState_.inputs]
          (by simp [clearInputs, setActive, Engine.OnTurnAdmissionEnd, emit, newTurn]) ?_, ?_⟩
        · intro e he
          rw [List.mem_singleton.1 he]
          simp [Event.regular]
        · simp [Quiet, clearInputs, setActive, Engine.OnTurnAdmissionEnd, emit]
      simp only [propagateIf, Bool.false_eq_true, if_false, bind_returned]
      exact settles_postProcessTurn _ hadd fuel _ _ hS

theorem DoTransaction_record (fuel : Nat) (func : List UserCmd) (flags : TurnFlagsT)
    (s : State ε) (hq : Quiet s) (hmerge : env.tryMerge func s.ext = false) :
    ((DoTransaction env fuel func flags s).All fun s1 =>
        ∃ evs, s1.trace = s.trace ++ snap (.tryMerge false) s
            :: snap (.turnCreate s.nextTurnId_ flags) s :: evs
          ∧ ∀ e ∈ evs, e.regular = true)
    ∧ ∀ s1, DoTransaction env fuel func flags s = .returned () s1 → Quiet s1 := by
  have h := DoTransaction_settles fuel func flags s hq hmerge
  have hb : (makeTurn env flags (emit env (.tryMerge false) s)).2.trace
      = s.trace ++ [snap (.tryMerge false) s, snap (.turnCreate s.nextTurnId_ flags) s] := by
    rw [makeTurn_trace]; simp [emit, snap]
  have key : ∀ s1, Follows (makeTurn env flags (emit env (.tryMerge false) s)).2 s1 →
      ∃ evs, s1.trace = s.trace ++ snap (.tryMerge false) s
          :: snap (.turnCreate s.nextTurnId_ flags) s :: evs
        ∧ ∀ e ∈ evs, e.regular = true := by
    rintro s1 ⟨evs, ht, hr⟩
    exact ⟨evs, by rw [ht, hb]; simp, hr⟩
  cases ho : DoTransaction env fuel func flags s with
  | returned u s1 =>
    rw [ho] at h
    exact ⟨key s1 h.1, fun s2 h2 => by cases h2; exact h.2⟩
  | threw s1 =>
    rw [ho] at h
    exact ⟨key s1 h, fun s2 h2 => by cases h2⟩
  | outOfFuel => exact ⟨trivial, fun s2 h2 => by cases h2⟩

theorem AddInput_record (fuel : Nat) (r : NodeId) (v : Value) (s : State ε) (hq : Quiet s) :
    (AddInput env fuel r v s).All (Follows s)
    ∧ ∀ s1, AddInput env fuel r v s = .returned () s1 → Quiet s1 := by
  have h : (AddInput env fuel r v s).Settles s := settles_AddInput fuel s r v s (settled_refl hq)
  cases ho : AddInput env fuel r v s with
  | returned u s1 =>
    rw [ho] at h
    exact ⟨h.1, fun s2 h2 => by cases h2; exact h.2⟩
  | threw s1 =>
    rw [ho] at h
    exact ⟨h, fun s2 h2 => by cases h2⟩
  | outOfFuel => exact ⟨trivial, fun s2 h2 => by cases h2⟩

theorem DoTransaction_merged (fuel : Nat) (func : List UserCmd) (flags : TurnFlagsT)
    (s : State ε) (hmerge : env.tryMerge func s.ext = true) :
    DoTransaction env fuel func flags s = .returned () (emit env (.tryMerge true) s) := by
  unfold DoTransaction Engine.TryMerge
  simp [hmerge]

end regular_transaction

/-- C13. Return to the quiescent state. Take a state with `active` clear and an
empty input list. Every `DoTransaction` (any `func`, any flags, merged or not)
and every `AddInput` called in it that returns normally returns in a state with
`active` clear and an empty input list, whatever the `Tick` results, the
number of enlisted inputs and the number of continuation turns. And however
the call ends, each call it records while the input list is not empty is made
between an admission start and the end of the following input loop: it is a
`node.AddInput` or the `OnTurnAdmissionEnd` of an admission (`active` set), or
a `Tick` of the input loop (`active` clear). -/
theorem return_to_quiescent {ε : Type} (env : Env ε) (fuel : Nat) (s : State ε)
    (hq : s.transactionState_.active = false ∧ s.transactionState_.inputs = []) :
    (∀ func flags,
      (∀ s1, DoTransaction env fuel func flags s = .returned () s1 →
        s1.transactionState_.active = false ∧ s1.transactionState_.inputs = [])
      ∧ (DoTransaction env fuel func flags s).All fun s1 =>
          ∃ evs, s1.trace = s.trace ++ evs ∧ ∀ e ∈ evs, e.inputs ≠ [] →
            (∃ r v, e.call = .nodeAddInput r v ∧ e.active = true)
            ∨ (∃ id, e.call = .onTurnAdmissionEnd id ∧ e.active = true)
            ∨ (∃ p id res, e.call = .nodeTick p id res ∧ e.active = false))
    ∧ (∀ r v,
      (∀ s1, AddInput env fuel r v s = .returned () s1 →
        s1.transactionState_.active = false ∧ s1.transactionState_.inputs = [])
      ∧ (AddInput env fuel r v s).All fun s1 =>
          ∃ evs, s1.trace = s.trace ++ evs ∧ ∀ e ∈ evs, e.inputs ≠ [] →
            (∃ r v, e.call = .nodeAddInput r v ∧ e.active = true)
            ∨ (∃ id, e.call = .onTurnAdmissionEnd id ∧ e.active = true)
            ∨ (∃ p id res, e.call = .nodeTick p id res ∧ e.active = false)) := by
  have hQ : Quiet s := by
    obtain ⟨h1, h2⟩ := hq
    unfold Quiet
    cases hts : s.transactionState_ with
    | mk a l => rw [hts] at h1 h2; simp only at h1 h2; rw [h1, h2]
  have hquiet : ∀ s1 : State ε, Quiet s1 →
      s1.transactionState_.active = false ∧ s1.transactionState_.inputs = [] := by
    intro s1 h1
    rw [h1]
    exact ⟨rfl, rfl⟩
  refine ⟨fun func flags => ?_, fun r v => ?_⟩
  · cases hm : env.tryMerge func s.ext with
    | true =>
      rw [DoTransaction_merged fuel func flags s hm]
      refine ⟨fun s1 h1 => ?_, [snap (.tryMerge true) s], rfl, ?_⟩
      · cases h1
        exact hquiet _ hQ
      · intro e he hin
        rw [List.mem_singleton.1 he, snap_quiet hQ] at hin
        exact absurd rfl hin
    | false =>
      obtain ⟨h1, h2⟩ := DoTransaction_record fuel func flags s hQ hm
      refine ⟨fun s1 hs1 => hquiet s1 (h2 s1 hs1), h1.mono ?_⟩
      rintro s1 ⟨evs, ht, hr⟩
      refine ⟨_ :: _ :: evs, ht, ?_⟩
      intro e he hin
      simp only [List.mem_cons] at he
      rcases he with rfl | rfl | he
      · rw [snap_quiet hQ] at hin; exact absurd rfl hin
      · rw [snap_quiet hQ] at hin; exact absurd rfl hin
      · exact regular_inputs e (hr e he) hin
  · obtain ⟨h1, h2⟩ := @AddInput_record ε env fuel r v s hQ
    refine ⟨fun s1 hs1 => hquiet s1 (h2 s1 hs1), h1.mono ?_⟩
    rintro s1 ⟨evs, ht, hr⟩
    exact ⟨evs, ht, fun e he hin => regular_inputs e (hr e he) hin⟩

theorem return_to_quiescent_witness :
    ((State.init ()).transactionState_.active = false
      ∧ (State.init ()).transactionState_.inputs = [])
    ∧ ∃ s1, DoTransaction (sampleEnv false) 3 [.addInput 1 2, .addInput 4 6] 1 (State.init ())
          = .returned () s1
        ∧ s1.transactionState_.active = false ∧ s1.transactionState_.inputs = [] :=
  ⟨⟨rfl, rfl⟩, _, rfl,
    ((return_to_quiescent (sampleEnv false) 3 (State.init ()) ⟨rfl, rfl⟩).1
      [.addInput 1 2, .addInput 4 6] 1).1 _ rfl⟩

theorem clear_merging_bit (flags : Nat) :
    (flags &&& (UINT_RANGE - 1 - enable_input_merging)) &&& enable_input_merging = 0 := by
  apply Nat.eq_of_testBit_eq
  intro i
  have h1 : enable_input_merging = 1 := rfl
  rw [Nat.testBit_and, Nat.testBit_and, h1, complement_testBit 1 (by norm_num) i]
  cases i with
  | zero => simp
  | succ i => simp [Nat.testBit_succ]

/-- C12. Continuations never merge. `postProcessTurn` hands the flags 0 to
`processContinuations`, whatever the flags of the turn it post-processes and
whatever `turnFlags_` is; `processContinuations` clears the
`enable_input_merging` bit of the flags it is given; every round of its loop
constructs its turn with the flags the loop runs with. So in a run of
`DoTransaction` (with any flags, or with the default flags `turnFlags_`) that
starts without transaction state and is not merged, the first turn is
constructed with the given flags and every turn constructed after it, the
follow-up turns among them, is constructed with flags exactly 0; the same holds
of every turn constructed in a run of `AddInput`. -/
theorem continuations_never_merge {ε : Type} (env : Env ε) (fuel : Nat) :
    (∀ (addInput : NodeId → Value → State ε → Outcome ε Unit) (turn : TurnRef) (s : State ε),
      postProcessTurn env addInput fuel turn s =
        if (s.turns turn.addr).continuation_.IsEmpty then .returned () (unregistered env turn s)
        else processContinuationsLoop env addInput fuel (s.turns turn.addr).continuation_ 0
          (unregistered env turn s))
    ∧ (∀ (addInput : NodeId → Value → State ε → Outcome ε Unit)
        (cont : ContinuationInput InputClosure) (flags : TurnFlagsT) (s : State ε),
      processContinuations env addInput fuel cont flags s
        = processContinuationsLoop env addInput fuel cont
            (flags &&& (UINT_RANGE - 1 - enable_input_merging)) s
      ∧ (flags &&& (UINT_RANGE - 1 - enable_input_merging)) &&& enable_input_merging = 0)
    ∧ (∀ (n : Nat) (cont : ContinuationInput InputClosure) (flags : TurnFlagsT) (s : State ε),
      (processContinuationsLoop env (AddInput env n) fuel cont flags s).All fun s1 =>
        ∃ evs, s1.trace = s.trace ++ snap (.turnCreate s.nextTurnId_ flags) s :: evs)
    ∧ (∀ (func : List UserCmd) (flags : TurnFlagsT) (s : State ε),
      Quiet s → env.tryMerge func s.ext = false →
      (DoTransaction env fuel func flags s).All fun s1 =>
        ∃ evs, s1.trace = s.trace ++ snap (.tryMerge false) s
            :: snap (.turnCreate s.nextTurnId_ flags) s :: evs
          ∧ ∀ e ∈ evs, ∀ id f, e.call = .turnCreate id f → f = 0)
    ∧ (∀ (func : List UserCmd) (s : State ε),
      Quiet s → env.tryMerge func s.ext = false →
      (DoTransactionDefault env fuel func s).All fun s1 =>
        ∃ evs, s1.trace = s.trace ++ snap (.tryMerge false) s
            :: snap (.turnCreate s.nextTurnId_ s.turnFlags_) s :: evs
          ∧ ∀ e ∈ evs, ∀ id f, e.call = .turnCreate id f → f = 0)
    ∧ (∀ (r : NodeId) (v : Value) (s : State ε), Quiet s →
      (AddInput env fuel r v s).All fun s1 =>
        ∃ evs, s1.trace = s.trace ++ evs
          ∧ ∀ e ∈ evs, ∀ id f, e.call = .turnCreate id f → f = 0) := by
  have hD : ∀ (func : List UserCmd) (flags : TurnFlagsT) (s : State ε),
      Quiet s → env.tryMerge func s.ext = false →
      (DoTransaction env fuel func flags s).All fun s1 =>
        ∃ evs, s1.trace = s.trace ++ snap (.tryMerge false) s
            :: snap (.turnCreate s.nextTurnId_ flags) s :: evs
          ∧ ∀ e ∈ evs, ∀ id f, e.call = .turnCreate id f → f = 0 := by
    intro func flags s hq hm
    refine (DoTransaction_record fuel func flags s hq hm).1.mono ?_
    rintro s1 ⟨evs, ht, hr⟩
    exact ⟨evs, ht, fun e he id f hc => regular_flags e (hr e he) id f hc⟩
  refine ⟨fun addInput turn s => postProcessTurn_unregistered env addInput fuel turn s,
    fun addInput cont flags s => ⟨rfl, clear_merging_bit flags⟩, ?_, hD,
    fun func s hq hm => hD func s.turnFlags_ s hq hm, ?_⟩
  · intro n cont flags s
    refine (processContinuationsLoop_starts env fuel n cont flags s).mono ?_
    rintro s1 ⟨evs, ht⟩
    exact ⟨_ :: evs, ht⟩
  · intro r v s hq
    refine (@AddInput_record ε env fuel r v s hq).1.mono ?_
    rintro s1 ⟨evs, ht, hr⟩
    exact ⟨evs, ht, fun e he id f hc => regular_flags e (hr e he) id f hc⟩

theorem continuations_never_merge_witness :
    Quiet (State.init ())
    ∧ (sampleEnv false).tryMerge [.addInput 1 2] (State.init ()).ext = false
    ∧ (∃ s1, DoTransaction (sampleEnv false) 3 [.addInput 1 2] enable_input_merging
          (State.init ()) = .returned () s1
        ∧ s1.trace.map Event.call
          = [.tryMerge false, .turnCreate 0 enable_input_merging, .onTurnAdmissionStart 0,
             .nodeAddInput 1 2, .onTurnAdmissionEnd 0, .nodeTick 1 0 (some .pulsed),
             .logTransactionBegin 0, .onTurnPropagate 0, .logTransactionEnd 0, .unregister 3,
             .turnCreate 1 0, .onTurnAdmissionStart 1, .nodeAddInput 7 5,
             .onTurnAdmissionEnd 1, .nodeTick 7 1 (some .pulsed), .logTransactionBegin 1,
             .onTurnPropagate 1, .logTransactionEnd 1])
    ∧ (DoTransaction (sampleEnv false) 3 [.addInput 1 2] enable_input_merging
        (State.init ())).All (fun s1 =>
          ∃ evs, s1.trace = (State.init ()).trace ++ snap (.tryMerge false) (State.init ())
              :: snap (.turnCreate (State.init ()).nextTurnId_ enable_input_merging)
                  (State.init ()) :: evs
            ∧ ∀ e ∈ evs, ∀ id f, e.call = .turnCreate id f → f = 0) :=
  ⟨rfl, rfl, ⟨_, rfl, rfl⟩,
    (continuations_never_merge (sampleEnv false) 3).2.2.2.1 [.addInput 1 2] enable_input_merging
      (State.init ()) rfl rfl⟩

/-! ## Inputs of user code during propagation -/

section buffers
variable {ε : Type} (env : Env ε)

theorem buffersInputs_mono (cmds : List PropCmd) (h : buffersInputs false cmds = true) (b : Bool) :
    buffersInputs b cmds = true := by
  cases b with
  | false => exact h
  | true =>
    induction cmds with
    | nil => rfl
    | cons c rest ih =>
      cases c with
      | setCurrentContinuation => exact h
      | clearCurrentContinuation => exact h
      | detachObserver o => exact ih h
      | user c =>
        cases c with
        | fail => rfl
        | addInput r v => simp [buffersInputs] at h

theorem closureInputs_inputClosures (rvs : List (NodeId × Value)) :
    closureInputs (ContinuationInput.addAll (inputClosures rvs) ContinuationInput.empty) = rvs := by
  simp [closureInputs, addAll_bufferedInputs, inputClosures, ContinuationInput.empty,
    List.map_map, Function.comp_def]

/-- A propagation script that makes its `AddInput` calls with the current
continuation set to its turn: the run ends (by a return, or by the failure of
user code), no call is recorded, no turn id is taken, no turn object is made,
`transactionState_` is as before, and the inputs are in the continuation of the
turn, after those it held, in the order of the calls. -/
theorem runEngine_buffers (fuel : Nat) (turn : TurnRef) (cmds : List PropCmd) (b : Bool)
    (s : State ε) (h : buffersInputs b cmds = true)
    (hb : b = true → s.continuationHolder_ = some turn.addr) :
    ∃ s1, runEngine (AddInput env fuel) turn cmds s
        = (if scriptFails cmds then .threw s1 else .returned () s1)
      ∧ s1.trace = s.trace ∧ s1.transactionState_ = s.transactionState_
      ∧ s1.nextTurnId_ = s.nextTurnId_ ∧ s1.turnCount = s.turnCount
      ∧ s1.ext = s.ext ∧ s1.turnFlags_ = s.turnFlags_
      ∧ (s1.turns turn.addr).continuation_
          = ContinuationInput.addAll (inputClosures (scriptInputs cmds))
              (s.turns turn.addr).continuation_
      ∧ ∀ a, a ≠ turn.addr → s1.turns a = s.turns a := by
  induction cmds generalizing b s with
  | nil =>
    exact ⟨s, by simp [runEngine, scriptFails], rfl, rfl, rfl, rfl, rfl, rfl,
      by simp [scriptInputs, inputClosures, ContinuationInput.addAll], fun _ _ => rfl⟩
  | cons c rest ih =>
    cases c with
    | setCurrentContinuation =>
      obtain ⟨s1, h1, h2⟩ := ih true (SetCurrentContinuation turn s) h (fun _ => rfl)
      exact ⟨s1, by simpa [runEngine, scriptFails] using h1, h2⟩
    | clearCurrentContinuation =>
      obtain ⟨s1, h1, h2⟩ := ih false (ClearCurrentContinuation s) h (fun hf => by cases hf)
      exact ⟨s1, by simpa [runEngine, scriptFails] using h1, h2⟩
    | detachObserver o =>
      obtain ⟨s1, h1, h2, h3, h4, h5, h6, h7, h8, h9⟩ := ih b
        (updateTurn turn.addr
          (fun t => { t with detachedObservers_ := t.detachedObservers_ ++ [o] }) s) h hb
      refine ⟨s1, by simpa [runEngine, scriptFails] using h1, h2, h3, h4, h5, h6, h7, ?_, ?_⟩
      · rw [h8]; simp [updateTurn, scriptInputs]
      · intro a ha
        rw [h9 a ha]
        simp [updateTurn, Function.update_noteq ha]
    | user c =>
      cases c with
      | fail =>
        exact ⟨s, by simp [runEngine, runUser, scriptFails], rfl, rfl, rfl, rfl, rfl, rfl,
          by simp [scriptInputs, inputClosures, ContinuationInput.addAll], fun _ _ => rfl⟩
      | addInput r v =>
        simp only [buffersInputs, Bool.and_eq_true] at h
        have hset := hb h.1
        have hA : AddInput env fuel r v s = .returned () (addContinuationInput r v s) := by
          unfold AddInput; simp [hset]
        have hC : addContinuationInput r v s
            = updateTurn turn.addr
                (fun t => { t with continuation_ := t.continuation_.Add { r := r, v := v } }) s := by
          unfold addContinuationInput; rw [hset]
        obtain ⟨s1, h1, h2, h3, h4, h5, h6, h7, h8, h9⟩ := ih b (addContinuationInput r v s) h.2
          (fun hb1 => by rw [hC]; exact hb hb1)
        refine ⟨s1, by simpa [runEngine, runUser, hA, scriptFails] using h1, ?_, ?_, ?_, ?_, ?_,
          ?_, ?_, ?_⟩
        · rw [h2, hC]; rfl
        · rw [h3, hC]; rfl
        · rw [h4, hC]; rfl
        · rw [h5, hC]; rfl
        · rw [h6, hC]; rfl
        · rw [h7, hC]; rfl
        · rw [h8, hC]
          simp [updateTurn, scriptInputs, inputClosures, ContinuationInput.addAll]
        · intro a ha
          rw [h9 a ha, hC]
          simp [updateTurn, Function.update_noteq ha]

/-- The calls of `Engine::OnTurnPropagate(turn)` with an engine that sets the
current continuation for user code, and what it leaves in the turn's
continuation. -/
theorem OnTurnPropagate_buffers (hbuf : EngineBuffers env) (fuel : Nat) (turn : TurnRef)
    (s : State ε) :
    ∃ s1, Engine.OnTurnPropagate env (AddInput env fuel) turn s
        = (if scriptFails (propagationScript env turn s) then .threw s1 else .returned () s1)
      ∧ s1.trace = s.trace
          ++ [snap (.logTransactionBegin turn.id) s, snap (.onTurnPropagate turn.id) s]
          ++ (if scriptFails (propagationScript env turn s) then []
              else [snap (.logTransactionEnd turn.id) s])
      ∧ s1.transactionState_ = s.transactionState_
      ∧ s1.nextTurnId_ = s.nextTurnId_ ∧ s1.turnCount = s.turnCount
      ∧ s1.turnFlags_ = s.turnFlags_
      ∧ (s1.turns turn.addr).continuation_
          = ContinuationInput.addAll (inputClosures (scriptInputs (propagationScript env turn s)))
              (s.turns turn.addr).continuation_
      ∧ ∀ a, a ≠ turn.addr → s1.turns a = s.turns a := by
  obtain ⟨s3, h1, h2, h3, h4, h5, -, h7, h8, h9⟩ := runEngine_buffers env fuel turn
    (propagationScript env turn s) false
    (emit env (.onTurnPropagate turn.id) (emit env (.logTransactionBegin turn.id) s))
    (hbuf _ _) (fun hf => by cases hf)
  have hrun : Engine.OnTurnPropagate env (AddInput env fuel) turn s
      = (runEngine (AddInput env fuel) turn (propagationScript env turn s)
          (emit env (.onTurnPropagate turn.id) (emit env (.logTransactionBegin turn.id) s))).bind
        (fun _ s3 => .returned () (emit env (.logTransactionEnd turn.id) s3)) := rfl
  rw [hrun, h1]
  by_cases hf : scriptFails (propagationScript env turn s) = true
  · refine ⟨s3, by simp [hf], ?_, h3, h4, h5, h7, h8, h9⟩
    rw [h2]; simp [hf, emit, snap]
  · refine ⟨emit env (.logTransactionEnd turn.id) s3, by simp [hf], ?_, h3, h4, h5, h7, h8, h9⟩
    simp [hf, emit, snap, h2, h3]

/-- Every run of the loop of `processContinuations` starts with the admission
of the closures it is given. -/
theorem processContinuationsLoop_admitted (fuel n : Nat) (cont : ContinuationInput InputClosure)
    (flags : TurnFlagsT) (s : State ε) :
    (processContinuationsLoop env (AddInput env n) fuel cont flags s).All
      (Extends (turnAdmitted env flags (closureInputs cont) s)) := by
  have hst : Stable env (Extends : State ε → State ε → Prop) := Extends.stable
  cases fuel with
  | zero => trivial
  | succ fuel =>
    rw [processContinuationsLoop_succ]
    split
    · exact hst.rel_emitAll _ _
    · refine hst.afterAt (turnTicked env flags (closureInputs cont) s)
        (hst.trans _ _ _ (hst.rel_emitAll _ _) (hst.rel_clearInputs _)) ?_
      refine hst.bind_rel (hst.rel_propagateIf _ (hst.rel_AddInput n) _ _ _) fun _ s8 => ?_
      split
      · exact hst.rel_emitAll _ _
      · exact hst.after (hst.rel_emitAll _ s8)
          (hst.rel_processContinuationsLoop _ (hst.rel_AddInput n) fuel _ _ _)

/-- Post-processing of a turn that holds buffered inputs: the observers are
unregistered, then the follow-up turn is constructed and admits the buffered
inputs. -/
theorem postProcessTurn_follow_up (fuel n : Nat) (turn : TurnRef) (s : State ε)
    (hne : (s.turns turn.addr).continuation_.IsEmpty = false) :
    (postProcessTurn env (AddInput env n) fuel turn s).All fun s1 =>
      ∃ evs, s1.trace = s.trace
        ++ (s.turns turn.addr).detachedObservers_.map (fun o => snap (.unregister o) s)
        ++ [snap (.turnCreate s.nextTurnId_ 0) s,
            Event.mk (.onTurnAdmissionStart s.nextTurnId_) true s.transactionState_.inputs]
        ++ inputEvents true s.transactionState_.inputs
            (closureInputs (s.turns turn.addr).continuation_)
        ++ [Event.mk (.onTurnAdmissionEnd s.nextTurnId_) true
              (s.transactionState_.inputs
                ++ (closureInputs (s.turns turn.addr).continuation_).map Prod.fst)]
        ++ evs := by
  rw [postProcessTurn_unregistered]
  simp only [hne, Bool.false_eq_true, if_false]
  refine (processContinuationsLoop_admitted env fuel n _ 0 _).mono ?_
  rintro s1 ⟨evs, ht⟩
  refine ⟨evs, ?_⟩
  rw [ht, turnAdmitted_trace]
  simp [snap]

end buffers

theorem sampleEnv_buffers (merge : Bool) : EngineBuffers (sampleEnv merge) := by
  intro id e
  unfold sampleEnv
  simp only
  split <;> rfl

/-! ## The propagation calls of a run -/

theorem takeWhile_any_append (q p : Call → Bool) (xs ys : List Call)
    (h : (ys.takeWhile q).any p = false) :
    ((xs ++ ys).takeWhile q).any p = (xs.takeWhile q).any p := by
  induction xs with
  | nil => simpa using h
  | cons x xs ih =>
    simp only [List.cons_append, List.takeWhile_cons]
    split
    · simp only [List.any_cons, ih]
    · rfl

theorem pulsedTurns_append (xs ys : List Call)
    (h : (ys.takeWhile fun c => !c.isCreate).any Call.isPulsed = false) :
    pulsedTurns (xs ++ ys) = pulsedTurns xs ++ pulsedTurns ys := by
  induction xs with
  | nil => rfl
  | cons c xs ih =>
    cases c with
    | turnCreate id f =>
      have e1 : pulsedTurns (.turnCreate id f :: (xs ++ ys))
          = if ((xs ++ ys).takeWhile fun c => !c.isCreate).any Call.isPulsed then
              id :: pulsedTurns (xs ++ ys)
            else pulsedTurns (xs ++ ys) := rfl
      have e2 : pulsedTurns (.turnCreate id f :: xs)
          = if (xs.takeWhile fun c => !c.isCreate).any Call.isPulsed then id :: pulsedTurns xs
            else pulsedTurns xs := rfl
      rw [List.cons_append, e1, e2, takeWhile_any_append _ _ xs ys h, ih]
      split <;> rfl
    | _ => simpa only [List.cons_append, pulsedTurns] using ih

theorem propagationRecords_append (xs ys : List TurnIdT) :
    propagationRecords (xs ++ ys) = propagationRecords xs ++ propagationRecords ys := by
  induction xs with
  | nil => rfl
  | cons t ts ih => simp [propagationRecords, ih]

theorem pairedCalls_nil : PairedCalls [] := ⟨rfl, rfl⟩

theorem pairedCalls_append {xs ys : List Call} (hx : PairedCalls xs) (hy : PairedCalls ys) :
    PairedCalls (xs ++ ys) := by
  refine ⟨?_, ?_⟩
  · rw [takeWhile_any_append _ _ xs ys hy.1]; exact hx.1
  · rw [List.filter_append, pulsedTurns_append xs ys hy.1, propagationRecords_append, hx.2, hy.2]

theorem takeWhile_noCreate (l : List Call) (h : ∀ c ∈ l, c.isCreate = false) :
    (l.takeWhile fun c => !c.isCreate) = l := by
  induction l with
  | nil => rfl
  | cons c l ih =>
    have hc := h c (List.mem_cons_self _ _)
    simp only [List.takeWhile_cons, hc, Bool.not_false, if_true]
    rw [ih fun d hd => h d (List.mem_cons_of_mem _ hd)]

theorem pulsedTurns_noCreate (l : List Call) (h : ∀ c ∈ l, c.isCreate = false) :
    pulsedTurns l = [] := by
  induction l with
  | nil => rfl
  | cons c l ih =>
    have hc := h c (List.mem_cons_self _ _)
    have hl := ih fun d hd => h d (List.mem_cons_of_mem _ hd)
    cases c <;> simp_all [pulsedTurns, Call.isCreate]

theorem filter_none (p : Call → Bool) (l : List Call) (h : ∀ c ∈ l, p c = false) :
    l.filter p = [] := by
  rw [List.filter_eq_nil_iff]
  intro c hc
  simp [h c hc]

theorem any_none (p : Call → Bool) (l : List Call) (h : ∀ c ∈ l, p c = false) :
    l.any p = false := by
  rw [List.any_eq_false]
  intro c hc
  simp [h c hc]

/-- The calls of one turn: its construction, calls `pre` up to the end of the
input loop, the three propagation calls when a `Tick` in `pre` pulsed, and
calls `post`. -/
theorem pairedCalls_turn (id : TurnIdT) (f : TurnFlagsT) (pre post : List Call)
    (hpre : ∀ c ∈ pre, c.isCreate = false ∧ c.isPropagation = false)
    (hpost : ∀ c ∈ post, c.isCreate = false ∧ c.isPropagation = false ∧ c.isPulsed = false) :
    PairedCalls (.turnCreate id f :: (pre
      ++ ((if pre.any Call.isPulsed then
            [.logTransactionBegin id, .onTurnPropagate id, .logTransactionEnd id]
          else [])
      ++ post))) := by
  have hbody : ∀ c ∈ pre ++ ((if pre.any Call.isPulsed then
      [Call.logTransactionBegin id, .onTurnPropagate id, .logTransactionEnd id] else []) ++ post),
      c.isCreate = false := by
    intro c hc
    simp only [List.mem_append] at hc
    rcases hc with hc | hc | hc
    · exact (hpre c hc).1
    · split at hc
      · simp only [List.mem_cons, List.mem_singleton, List.not_mem_nil, or_false] at hc
        rcases hc with rfl | rfl | rfl <;> rfl
      · cases hc
    · exact (hpost c hc).1
  refine ⟨by simp [List.takeWhile_cons, Call.isCreate], ?_⟩
  have e : ∀ body, pulsedTurns (.turnCreate id f :: body)
      = if (body.takeWhile fun c => !c.isCreate).any Call.isPulsed then id :: pulsedTurns body
        else pulsedTurns body := fun _ => rfl
  rw [e, takeWhile_noCreate _ hbody, pulsedTurns_noCreate _ hbody]
  have h1 : pre.filter Call.isPropagation = [] := filter_none _ _ fun c hc => (hpre c hc).2
  have h2 : post.filter Call.isPropagation = [] := filter_none _ _ fun c hc => (hpost c hc).2.1
  have h3 : post.any Call.isPulsed = false := any_none _ _ fun c hc => (hpost c hc).2.2
  simp only [List.filter_cons, Call.isPropagation, List.filter_append, h1, h2, List.any_append, h3]
  cases hp : pre.any Call.isPulsed <;>
    simp [propagationRecords, Call.isPropagation, Call.isPulsed]

section paired
variable {ε : Type} {env : Env ε}

theorem onReturn_mono {α : Type} {P Q : State ε → Prop} (h : ∀ s, P s → Q s)
    {o : Outcome ε α} (ho : o.OnReturn P) : o.OnReturn Q := by
  cases o with
  | returned a s => exact h s ho
  | threw s => trivial
  | outOfFuel => trivial

theorem onReturn_bind {α β : Type} {P Q : State ε → Prop} {o : Outcome ε α}
    {k : α → State ε → Outcome ε β} (ho : o.OnReturn P)
    (hk : ∀ a s, P s → (k a s).OnReturn Q) : (o.bind k).OnReturn Q := by
  cases o with
  | returned a s => exact hk a s ho
  | threw s => trivial
  | outOfFuel => trivial

theorem onReturn_iff {α : Type} {P : State ε → Prop} {o : Outcome ε α} :
    o.OnReturn P ↔ ∀ a s1, o = .returned a s1 → P s1 := by
  cases o with
  | returned a s =>
    exact ⟨fun h a1 s1 h1 => by cases h1; exact h, fun h => h a s rfl⟩
  | threw s => exact ⟨fun _ a1 s1 h1 => (by cases h1), fun _ => trivial⟩
  | outOfFuel => exact ⟨fun _ a1 s1 h1 => (by cases h1), fun _ => trivial⟩

theorem pairedRun_trans {s0 s s1 : State ε} (h : PairedRun s0 s) (h1 : PairedRun s s1) :
    PairedRun s0 s1 := by
  obtain ⟨cs, hc, hp⟩ := h
  obtain ⟨cs1, hc1, hp1⟩ := h1
  exact ⟨cs ++ cs1, by rw [hc1, hc, List.append_assoc], pairedCalls_append hp hp1⟩

theorem pairedCalls_plain (cs : List Call)
    (h : ∀ c ∈ cs, c.isCreate = false ∧ c.isPropagation = false ∧ c.isPulsed = false) :
    PairedCalls cs := by
  refine ⟨?_, ?_⟩
  · rw [takeWhile_noCreate _ fun c hc => (h c hc).1]
    exact any_none _ _ fun c hc => (h c hc).2.2
  · rw [pulsedTurns_noCreate _ fun c hc => (h c hc).1]
    exact filter_none _ _ fun c hc => (h c hc).2.1

theorem calls_emit (c : Call) (s : State ε) : (emit env c s).calls = s.calls ++ [c] := by
  simp [State.calls, emit]

theorem calls_emitAll (cs : List Call) (s : State ε) :
    (emitAll env cs s).calls = s.calls ++ cs := by
  simp [State.calls, List.map_map, Function.comp_def, snap]

theorem calls_turnTicked (flags : TurnFlagsT) (rvs : List (NodeId × Value)) (s : State ε) :
    (turnTicked env flags rvs s).calls = s.calls ++ .turnCreate s.nextTurnId_ flags
      :: (.onTurnAdmissionStart s.nextTurnId_ :: (rvs.map fun p => Call.nodeAddInput p.1 p.2)
        ++ .onTurnAdmissionEnd s.nextTurnId_ :: turnTickCalls env flags rvs s) := by
  simp [State.calls, turnTicked_trace, turnAdmitted_trace, inputEvents_calls, List.map_map,
    Function.comp_def, snap]

theorem admission_plain (id : TurnIdT) (rvs : List (NodeId × Value)) (ticks : List Call)
    (hticks : ∀ c ∈ ticks, ∃ p i res, c = Call.nodeTick p i res) :
    ∀ c ∈ Call.onTurnAdmissionStart id :: (rvs.map fun p => Call.nodeAddInput p.1 p.2)
        ++ .onTurnAdmissionEnd id :: ticks,
      c.isCreate = false ∧ c.isPropagation = false := by
  intro c hc
  simp only [List.cons_append, List.mem_cons, List.mem_append, List.mem_map] at hc
  rcases hc with rfl | ⟨p, -, rfl⟩ | rfl | hc
  · exact ⟨rfl, rfl⟩
  · exact ⟨rfl, rfl⟩
  · exact ⟨rfl, rfl⟩
  · obtain ⟨p, i, res, rfl⟩ := hticks c hc
    exact ⟨rfl, rfl⟩

theorem admission_any_pulsed (id : TurnIdT) (rvs : List (NodeId × Value)) (ticks : List Call) :
    (Call.onTurnAdmissionStart id :: (rvs.map fun p => Call.nodeAddInput p.1 p.2)
        ++ .onTurnAdmissionEnd id :: ticks).any Call.isPulsed = ticks.any Call.isPulsed := by
  have h : (rvs.map fun p => Call.nodeAddInput p.1 p.2).any Call.isPulsed = false :=
    any_none _ _ fun c hc => by
      obtain ⟨p, -, rfl⟩ := List.mem_map.1 hc
      rfl
  simp [List.any_append, h, Call.isPulsed]

theorem unregister_plain (os : List ObsId) :
    ∀ c ∈ os.map Call.unregister,
      c.isCreate = false ∧ c.isPropagation = false ∧ c.isPulsed = false := by
  intro c hc
  obtain ⟨o, -, rfl⟩ := List.mem_map.1 hc
  exact ⟨rfl, rfl, rfl⟩

variable (hbuf : EngineBuffers env)
include hbuf

theorem propagateIf_calls (n : Nat) (b : Bool) (turn : TurnRef) (s : State ε) :
    (propagateIf env (AddInput env n) b turn s).OnReturn fun s8 =>
      s8.calls = s.calls ++ (if b then
        [.logTransactionBegin turn.id, .onTurnPropagate turn.id, .logTransactionEnd turn.id]
        else []) := by
  unfold propagateIf
  cases b with
  | false => simp [Outcome.OnReturn]
  | true =>
    obtain ⟨s1, h1, h2, -⟩ := OnTurnPropagate_buffers env hbuf n turn s
    simp only [if_true]
    rw [h1]
    split
    · trivial
    · rename_i hf
      simp only [Outcome.OnReturn, State.calls, h2, hf]
      simp [snap]

/-- A turn from the end of its input loop on: when what follows the propagation
records unregister calls and then paired calls, the calls of the turn and what
follows are paired. -/
theorem turn_paired (n : Nat) (turn : TurnRef) (f : TurnFlagsT) (pre : List Call)
    (s s7 : State ε) (h7 : s7.calls = s.calls ++ .turnCreate turn.id f :: pre)
    (hpre : ∀ c ∈ pre, c.isCreate = false ∧ c.isPropagation = false)
    (k : State ε → Outcome ε Unit)
    (hk : ∀ s8, (k s8).OnReturn fun s1 =>
      ∃ (os : List ObsId) (cs : List Call), s1.calls = s8.calls ++ (os.map Call.unregister ++ cs) ∧ PairedCalls cs) :
    ((propagateIf env (AddInput env n) (pre.any Call.isPulsed) turn s7).bind
      fun _ s8 => k s8).OnReturn (PairedRun s) := by
  refine onReturn_bind (propagateIf_calls hbuf n _ turn s7) fun _ s8 h8 => ?_
  refine onReturn_mono ?_ (hk s8)
  rintro s1 ⟨os, cs, h1, hc⟩
  refine ⟨.turnCreate turn.id f :: (pre
      ++ ((if pre.any Call.isPulsed then
            [.logTransactionBegin turn.id, .onTurnPropagate turn.id, .logTransactionEnd turn.id]
          else [])
      ++ os.map Call.unregister)) ++ cs, ?_,
    pairedCalls_append (pairedCalls_turn turn.id f pre _ hpre (unregister_plain os)) hc⟩
  rw [h1, h8, h7]
  simp

theorem processContinuationsLoop_paired (n fuel : Nat) (cont : ContinuationInput InputClosure)
    (flags : TurnFlagsT) (s : State ε) :
    (processContinuationsLoop env (AddInput env n) fuel cont flags s).OnReturn (PairedRun s) := by
  induction fuel generalizing cont s with
  | zero => trivial
  | succ fuel ih =>
    rw [processContinuationsLoop_succ]
    split
    · trivial
    · rw [← admission_any_pulsed s.nextTurnId_ (closureInputs cont)]
      refine turn_paired hbuf n (newTurn s) flags _ s _ (calls_turnTicked flags _ s)
        (admission_plain _ _ _ fun c hc => ?_) _ fun s8 => ?_
      · obtain ⟨p, res, rfl⟩ := tickCalls_isTick _ _ _ c hc
        exact ⟨p, _, res, rfl⟩
      · split
        · exact ⟨_, [], by rw [calls_emitAll, List.append_nil], pairedCalls_nil⟩
        · refine onReturn_mono ?_ (ih _ _)
          rintro s1 ⟨cs, h1, hc⟩
          exact ⟨_, cs, by rw [h1, calls_emitAll, List.append_assoc], hc⟩

theorem postProcessTurn_paired (n fuel : Nat) (turn : TurnRef) (s8 : State ε) :
    (postProcessTurn env (AddInput env n) fuel turn s8).OnReturn fun s1 =>
      ∃ (os : List ObsId) (cs : List Call), s1.calls = s8.calls ++ (os.map Call.unregister ++ cs) ∧ PairedCalls cs := by
  rw [postProcessTurn_eq]
  split
  · exact ⟨_, [], by rw [calls_emitAll, List.append_nil], pairedCalls_nil⟩
  · refine onReturn_mono ?_ (processContinuationsLoop_paired hbuf n fuel _ _ _)
    rintro s1 ⟨cs, h1, hc⟩
    exact ⟨_, cs, by rw [h1, calls_emitAll, List.append_assoc], hc⟩

end paired

section paired_entry
variable {ε : Type} {env : Env ε} (hbuf : EngineBuffers env)
include hbuf

theorem DoTransaction_paired (fuel : Nat) (func : List UserCmd) (flags : TurnFlagsT)
    (s : State ε) : (DoTransaction env fuel func flags s).OnReturn (PairedRun s) := by
  cases hm : env.tryMerge func s.ext with
  | true =>
    rw [DoTransaction_merged fuel func flags s hm]
    exact ⟨[.tryMerge true], calls_emit _ s, rfl, rfl⟩
  | false =>
    have h0 : PairedRun s (emit env (.tryMerge false) s) :=
      ⟨[.tryMerge false], calls_emit _ s, rfl, rfl⟩
    refine onReturn_mono (fun s1 h1 => pairedRun_trans h0 h1) ?_
    cases hh : s.continuationHolder_ with
    | none =>
      rw [DoTransaction_eq env fuel func flags s hm hh]
      split
      · trivial
      · split
        · trivial
        · rw [← admission_any_pulsed (emit env (.tryMerge false) s).nextTurnId_ (funcInputs func)]
          refine turn_paired hbuf fuel (newTurn (emit env (.tryMerge false) s)) flags _ _ _
            (calls_turnTicked flags _ _) (admission_plain _ _ _ fun c hc => ?_) _
            fun s8 => postProcessTurn_paired hbuf fuel fuel _ s8
          obtain ⟨p, res, rfl⟩ := tickCalls_isTick _ _ _ c hc
          exact ⟨p, _, res, rfl⟩
    | some addr =>
      rw [DoTransaction_eq_buffered env fuel func flags s hm (by simp [hh]), tickInputs_eq]
      split
      · trivial
      · split
        · trivial
        · simp only [bind_returned, Bool.false_or]
          rw [← admission_any_pulsed (emit env (.tryMerge false) s).nextTurnId_ []]
          refine turn_paired hbuf fuel (newTurn (emit env (.tryMerge false) s)) flags _ _ _ ?_
            (admission_plain _ _ _ fun c hc => ?_) _
            fun s8 => postProcessTurn_paired hbuf fuel fuel _ s8
          · simp [State.calls, clearInputs, setActive, Engine.OnTurnAdmissionEnd, emit, snap,
              newTurn, List.map_map, Function.comp_def]
          · obtain ⟨p, res, rfl⟩ := tickCalls_isTick _ _ _ c hc
            exact ⟨p, _, res, rfl⟩

theorem AddInput_paired (fuel : Nat) (r : NodeId) (v : Value) (s : State ε) :
    (AddInput env fuel r v s).OnReturn (PairedRun s) := by
  unfold AddInput
  split
  · refine ⟨[], ?_, pairedCalls_nil⟩
    unfold addContinuationInput
    split <;> simp [State.calls, updateTurn]
  · split
    · refine ⟨[.nodeAddInput r v], ?_, rfl, rfl⟩
      simp [State.calls, addTransactionInput, emit]
    · cases fuel with
      | zero => trivial
      | succ fuel =>
        simp only
        unfold addSimpleInput
        simp only [makeTurn_fst]
        split
        · trivial
        · rename_i res hres
          have hpre : ∀ c ∈ [Call.onTurnAdmissionStart (newTurn s).id, .nodeAddInput r v,
              .onTurnAdmissionEnd (newTurn s).id, .nodeTick r (newTurn s).id (some res)],
              c.isCreate = false ∧ c.isPropagation = false := by
            intro c hc
            simp only [List.mem_cons, List.mem_singleton, List.not_mem_nil, or_false] at hc
            rcases hc with rfl | rfl | rfl | rfl <;> exact ⟨rfl, rfl⟩
          have h := turn_paired hbuf fuel (newTurn s) 0
            [Call.onTurnAdmissionStart (newTurn s).id, .nodeAddInput r v,
              .onTurnAdmissionEnd (newTurn s).id, .nodeTick r (newTurn s).id (some res)] s
            (emit env (.nodeTick r (newTurn s).id (some res))
              (Engine.OnTurnAdmissionEnd env (newTurn s) (emit env (.nodeAddInput r v)
                (Engine.OnTurnAdmissionStart env (newTurn s) (makeTurn env 0 s).2))))
            (by simp [State.calls, Engine.OnTurnAdmissionEnd, Engine.OnTurnAdmissionStart, emit,
                makeTurn, nextTurnId, nextTurnIdAt_fst, newTurn])
            hpre _ fun s8 => postProcessTurn_paired hbuf fuel fuel (newTurn s) s8
          cases res with
          | idle => simpa [propagateIf, Call.isPulsed] using h
          | pulsed => simpa [propagateIf, Call.isPulsed] using h

end paired_entry

theorem filter_logRecords (ts : List TurnIdT) :
    (propagationRecords ts).filter Call.isLogRecord = logRecords ts := by
  induction ts with
  | nil => rfl
  | cons t ts ih => simp [propagationRecords, logRecords, Call.isLogRecord, ih]

theorem filter_isLogRecord (cs : List Call) :
    cs.filter Call.isLogRecord = (cs.filter Call.isPropagation).filter Call.isLogRecord := by
  rw [List.filter_filter]
  congr 1
  funext c
  cases c <;> rfl

theorem runEntries_paired {ε : Type} {env : Env ε} (hbuf : EngineBuffers env) (fuel : Nat)
    (entries : List EntryCall) (s : State ε) :
    (runEntries env fuel entries s).OnReturn (PairedRun s) := by
  induction entries generalizing s with
  | nil => exact ⟨[], by simp, pairedCalls_nil⟩
  | cons c rest ih =>
    have hc : (runEntry env fuel c s).OnReturn (PairedRun s) := by
      cases c with
      | doTransaction func flags => exact DoTransaction_paired hbuf fuel func flags s
      | doTransactionDefault func => exact DoTransaction_paired hbuf fuel func s.turnFlags_ s
      | addInput r v => exact AddInput_paired hbuf fuel r v s
    exact onReturn_bind hc fun _ s1 h1 => onReturn_mono (fun s2 h2 => pairedRun_trans h1 h2) (ih s1)

theorem propagationFailEnv_buffers : EngineBuffers propagationFailEnv := by
  intro id e
  rfl

/-- C18, as stated, fails. In a run in which the engine's propagation
starts no nested turn and user code run by the propagation fails, the begin
record of the turn is appended and its end record is not: the records of
`DoTransaction` with one pulsed input are `Begin(0)` alone, which is not a
sequence of begin/end pairs. -/
theorem unpaired_begin_record :
    EngineBuffers propagationFailEnv
    ∧ ∃ s1, runEntries propagationFailEnv 3 [.doTransaction [.addInput 1 2] 0] (State.init ())
          = .threw s1
        ∧ s1.calls = [.tryMerge false, .turnCreate 0 0, .onTurnAdmissionStart 0,
            .nodeAddInput 1 2, .onTurnAdmissionEnd 0, .nodeTick 1 0 (some .pulsed),
            .logTransactionBegin 0, .onTurnPropagate 0]
        ∧ pulsedTurns s1.calls = [0]
        ∧ s1.calls.filter Call.isLogRecord = [.logTransactionBegin 0]
        ∧ ∀ ts, s1.calls.filter Call.isLogRecord ≠ logRecords ts := by
  refine ⟨propagationFailEnv_buffers, _, rfl, rfl, rfl, rfl, ?_⟩
  intro ts h
  have h1 : ([Call.logTransactionBegin 0] : List Call) = logRecords ts := h
  cases ts with
  | nil => simp [logRecords] at h1
  | cons t ts => simp [logRecords] at h1

/-- C18, amended. Take an engine whose propagation starts no nested turn
(user code adds its inputs with the current continuation set) and a sequential
run of the domain, from any state: calls of `DoTransaction(func, flags)`,
`DoTransaction(func)` and `AddInput` one after the other. If the run returns
(no user code and no `Tick` fails), the transaction-begin and transaction-end
records among the calls it made are `Begin(t1), End(t1), Begin(t2), End(t2), ...`
for the ids `t1, t2, ...` of exactly the turns that had a pulsed input, in the
order in which the turns were constructed; with the engine's `OnTurnPropagate`
calls they are `Begin(t), OnTurnPropagate(t), End(t)` turn by turn, so a turn
without a pulsed input has neither record. When user code run by the
propagation of a turn fails, `Engine::OnTurnPropagate` has recorded the begin
record and the engine call and records no end record. -/
theorem transaction_records_paired {ε : Type} (env : Env ε) (hbuf : EngineBuffers env)
    (fuel : Nat) (s : State ε) :
    (∀ entries s1, runEntries env fuel entries s = .returned () s1 →
      ∃ cs, s1.calls = s.calls ++ cs
        ∧ cs.filter Call.isLogRecord = logRecords (pulsedTurns cs)
        ∧ cs.filter Call.isPropagation = propagationRecords (pulsedTurns cs))
    ∧ (∀ turn, scriptFails (propagationScript env turn s) = true →
      ∃ s1, Engine.OnTurnPropagate env (AddInput env fuel) turn s = .threw s1
        ∧ s1.calls = s.calls ++ [.logTransactionBegin turn.id, .onTurnPropagate turn.id]) := by
  refine ⟨fun entries s1 h1 => ?_, fun turn hf => ?_⟩
  · obtain ⟨cs, hc, -, hp⟩ := onReturn_iff.1 (runEntries_paired hbuf fuel entries s) () s1 h1
    exact ⟨cs, hc, by rw [filter_isLogRecord, hp, filter_logRecords], hp⟩
  · obtain ⟨s1, h1, h2, -⟩ := OnTurnPropagate_buffers env hbuf fuel turn s
    refine ⟨s1, by rw [h1, hf]; rfl, ?_⟩
    simp [State.calls, h2, hf, snap]

theorem transaction_records_paired_witness :
    EngineBuffers (sampleEnv false)
    ∧ ∃ s1, runEntries (sampleEnv false) 3
          [.doTransaction [.addInput 1 2] 0, .addInput 4 9] (State.init ()) = .returned () s1
        ∧ s1.calls.filter Call.isLogRecord
            = [.logTransactionBegin 0, .logTransactionEnd 0, .logTransactionBegin 1,
               .logTransactionEnd 1, .logTransactionBegin 2, .logTransactionEnd 2]
        ∧ ∃ cs, s1.calls = (State.init ()).calls ++ cs
          ∧ cs.filter Call.isLogRecord = logRecords (pulsedTurns cs)
          ∧ cs.filter Call.isPropagation = propagationRecords (pulsedTurns cs) :=
  ⟨sampleEnv_buffers false, _, rfl, rfl,
    (transaction_records_paired (sampleEnv false) (sampleEnv_buffers false) 3
      (State.init ())).1 [.doTransaction [.addInput 1 2] 0, .addInput 4 9] _ rfl⟩

/-! ## The record of calls does not steer a run -/

section natural
variable {ε : Type} {env : Env ε} (pre : List Event)

@[simp] theorem prependTrace_ext (s : State ε) : (prependTrace pre s).ext = s.ext := rfl

@[simp] theorem prependTrace_transactionState (s : State ε) :
    (prependTrace pre s).transactionState_ = s.transactionState_ := rfl

@[simp] theorem prependTrace_holder (s : State ε) :
    (prependTrace pre s).continuationHolder_ = s.continuationHolder_ := rfl

@[simp] theorem prependTrace_turns (s : State ε) : (prependTrace pre s).turns = s.turns := rfl

@[simp] theorem prependTrace_nextTurnId (s : State ε) :
    (prependTrace pre s).nextTurnId_ = s.nextTurnId_ := rfl

@[simp] theorem prependTrace_turnCount (s : State ε) :
    (prependTrace pre s).turnCount = s.turnCount := rfl

@[simp] theorem prependTrace_trace (s : State ε) :
    (prependTrace pre s).trace = pre ++ s.trace := rfl

theorem emit_prependTrace (c : Call) (s : State ε) :
    emit env c (prependTrace pre s) = prependTrace pre (emit env c s) := by
  simp [emit, prependTrace]

theorem setActive_prependTrace (b : Bool) (s : State ε) :
    setActive b (prependTrace pre s) = prependTrace pre (setActive b s) := rfl

theorem clearInputs_prependTrace (s : State ε) :
    clearInputs (prependTrace pre s) = prependTrace pre (clearInputs s) := rfl

theorem emitAll_prependTrace (cs : List Call) (s : State ε) :
    emitAll env cs (prependTrace pre s) = prependTrace pre (emitAll env cs s) := by
  induction cs generalizing s with
  | nil => rfl
  | cons c cs ih => rw [emitAll_cons, emitAll_cons, emit_prependTrace, ih]

theorem makeTurn_prependTrace (flags : TurnFlagsT) (s : State ε) :
    makeTurn env flags (prependTrace pre s)
      = ((makeTurn env flags s).1, prependTrace pre (makeTurn env flags s).2) := by
  simp [makeTurn, nextTurnId, emit, prependTrace]

theorem addTransactionInput_prependTrace (r : NodeId) (v : Value) (s : State ε) :
    addTransactionInput env r v (prependTrace pre s)
      = prependTrace pre (addTransactionInput env r v s) := by
  simp [addTransactionInput, emit, prependTrace]

theorem addContinuationInput_prependTrace (r : NodeId) (v : Value) (s : State ε) :
    addContinuationInput r v (prependTrace pre s)
      = prependTrace pre (addContinuationInput r v s) := by
  unfold addContinuationInput
  simp only [prependTrace_holder]
  split <;> rfl

theorem enlistAll_prependTrace (rvs : List (NodeId × Value)) (s : State ε) :
    enlistAll env rvs (prependTrace pre s) = prependTrace pre (enlistAll env rvs s) := by
  induction rvs generalizing s with
  | nil => rfl
  | cons p rvs ih => rw [enlistAll, enlistAll, addTransactionInput_prependTrace, ih]

theorem newTurn_prependTrace (s : State ε) : newTurn (prependTrace pre s) = newTurn s := rfl

theorem turnAdmitted_prependTrace (flags : TurnFlagsT) (rvs : List (NodeId × Value))
    (s : State ε) :
    turnAdmitted env flags rvs (prependTrace pre s)
      = prependTrace pre (turnAdmitted env flags rvs s) := by
  simp only [turnAdmitted, admissionStarted, Engine.OnTurnAdmissionEnd,
    Engine.OnTurnAdmissionStart, makeTurn_prependTrace, newTurn_prependTrace,
    emit_prependTrace, enlistAll_prependTrace, setActive_prependTrace]

theorem turnTickCalls_prependTrace (flags : TurnFlagsT) (rvs : List (NodeId × Value))
    (s : State ε) :
    turnTickCalls env flags rvs (prependTrace pre s) = turnTickCalls env flags rvs s := by
  simp only [turnTickCalls, turnAdmitted_prependTrace]
  rfl

theorem turnTickedRaw_prependTrace (flags : TurnFlagsT) (rvs : List (NodeId × Value))
    (s : State ε) :
    turnTickedRaw env flags rvs (prependTrace pre s)
      = prependTrace pre (turnTickedRaw env flags rvs s) := by
  simp only [turnTickedRaw, turnTickCalls_prependTrace, turnAdmitted_prependTrace,
    emitAll_prependTrace]

theorem turnTicked_prependTrace (flags : TurnFlagsT) (rvs : List (NodeId × Value))
    (s : State ε) :
    turnTicked env flags rvs (prependTrace pre s)
      = prependTrace pre (turnTicked env flags rvs s) := by
  simp only [turnTicked, turnTickedRaw_prependTrace, clearInputs_prependTrace]

theorem bind_natural {α β : Type} {f : State ε → State ε} {o1 o : Outcome ε α}
    {k1 k : α → State ε → Outcome ε β} (ho : o1 = o.mapState f)
    (hk : ∀ a s, k1 a (f s) = (k a s).mapState f) : o1.bind k1 = (o.bind k).mapState f := by
  subst ho
  cases o with
  | returned a s => exact hk a s
  | threw s => rfl
  | outOfFuel => rfl

section reentrant
variable (addInput : NodeId → Value → State ε → Outcome ε Unit)
  (hadd : ∀ r v s, addInput r v (prependTrace pre s) = (addInput r v s).mapState (prependTrace pre))
include hadd

theorem runUser_prependTrace (cmds : List UserCmd) (s : State ε) :
    runUser addInput cmds (prependTrace pre s)
      = (runUser addInput cmds s).mapState (prependTrace pre) := by
  induction cmds generalizing s with
  | nil => rfl
  | cons c rest ih =>
    cases c with
    | fail => rfl
    | addInput r v => exact bind_natural (hadd r v s) fun _ s1 => ih s1

theorem runEngine_prependTrace (turn : TurnRef) (cmds : List PropCmd) (s : State ε) :
    runEngine addInput turn cmds (prependTrace pre s)
      = (runEngine addInput turn cmds s).mapState (prependTrace pre) := by
  induction cmds generalizing s with
  | nil => rfl
  | cons c rest ih =>
    cases c with
    | setCurrentContinuation => exact ih (SetCurrentContinuation turn s)
    | clearCurrentContinuation => exact ih (ClearCurrentContinuation s)
    | detachObserver o =>
      exact ih (updateTurn turn.addr
        (fun t => { t with detachedObservers_ := t.detachedObservers_ ++ [o] }) s)
    | user c =>
      exact bind_natural (runUser_prependTrace pre addInput hadd [c] s) fun _ s1 => ih s1

theorem OnTurnPropagate_prependTrace (turn : TurnRef) (s : State ε) :
    Engine.OnTurnPropagate env addInput turn (prependTrace pre s)
      = (Engine.OnTurnPropagate env addInput turn s).mapState (prependTrace pre) := by
  unfold Engine.OnTurnPropagate
  simp only [emit_prependTrace, prependTrace_ext]
  exact bind_natural (runEngine_prependTrace pre addInput hadd turn _ _) fun _ s3 => by
    rw [emit_prependTrace]; rfl

theorem propagateIf_prependTrace (b : Bool) (turn : TurnRef) (s : State ε) :
    propagateIf env addInput b turn (prependTrace pre s)
      = (propagateIf env addInput b turn s).mapState (prependTrace pre) := by
  unfold propagateIf
  split
  · exact OnTurnPropagate_prependTrace pre addInput hadd turn s
  · rfl

theorem processContinuationsLoop_prependTrace (fuel : Nat)
    (cont : ContinuationInput InputClosure) (flags : TurnFlagsT) (s : State ε) :
    processContinuationsLoop env addInput fuel cont flags (prependTrace pre s)
      = (processContinuationsLoop env addInput fuel cont flags s).mapState (prependTrace pre) := by
  induction fuel generalizing cont s with
  | zero => rfl
  | succ fuel ih =>
    rw [processContinuationsLoop_succ, processContinuationsLoop_succ]
    simp only [turnTickCalls_prependTrace, turnTickedRaw_prependTrace, turnTicked_prependTrace,
      newTurn_prependTrace]
    split
    · rfl
    · refine bind_natural (propagateIf_prependTrace pre addInput hadd _ _ _) fun _ s8 => ?_
      simp only [prependTrace_turns, emitAll_prependTrace]
      split
      · rfl
      · exact ih _ _

theorem postProcessTurn_prependTrace (fuel : Nat) (turn : TurnRef) (s : State ε) :
    postProcessTurn env addInput fuel turn (prependTrace pre s)
      = (postProcessTurn env addInput fuel turn s).mapState (prependTrace pre) := by
  rw [postProcessTurn_eq, postProcessTurn_eq]
  simp only [prependTrace_turns, emitAll_prependTrace, processContinuations]
  split
  · rfl
  · exact processContinuationsLoop_prependTrace pre addInput hadd fuel _ _ _

theorem addSimpleInput_prependTrace (fuel : Nat) (r : NodeId) (v : Value) (s : State ε) :
    addSimpleInput env addInput fuel r v (prependTrace pre s)
      = (addSimpleInput env addInput fuel r v s).mapState (prependTrace pre) := by
  unfold addSimpleInput
  simp only [makeTurn_prependTrace, Engine.OnTurnAdmissionStart, Engine.OnTurnAdmissionEnd,
    emit_prependTrace, prependTrace_ext]
  split
  · rfl
  · refine bind_natural ?_ fun _ s5 => postProcessTurn_prependTrace pre addInput hadd fuel _ s5
    split
    · exact OnTurnPropagate_prependTrace pre addInput hadd _ _
    · rfl

end reentrant

theorem AddInput_prependTrace (fuel : Nat) (r : NodeId) (v : Value) (s : State ε) :
    AddInput env fuel r v (prependTrace pre s)
      = (AddInput env fuel r v s).mapState (prependTrace pre) := by
  induction fuel generalizing r v s with
  | zero =>
    unfold AddInput
    simp only [prependTrace_holder, prependTrace_transactionState,
      addContinuationInput_prependTrace, addTransactionInput_prependTrace]
    split
    · rfl
    · split <;> rfl
  | succ fuel ih =>
    unfold AddInput
    simp only [prependTrace_holder, prependTrace_transactionState,
      addContinuationInput_prependTrace, addTransactionInput_prependTrace]
    split
    · rfl
    · split
      · rfl
      · exact addSimpleInput_prependTrace pre (AddInput env fuel) (fun r1 v1 s1 => ih r1 v1 s1)
          fuel r v s

end natural

/-! ## The one-input path and the one-input transaction -/

section one_input
variable {ε : Type} {env : Env ε}

theorem state_eq (a b : State ε) (h1 : a.nextTurnId_ = b.nextTurnId_)
    (h2 : a.turnFlags_ = b.turnFlags_) (h3 : a.transactionState_ = b.transactionState_)
    (h4 : a.continuationHolder_ = b.continuationHolder_) (h5 : a.turns = b.turns)
    (h6 : a.turnCount = b.turnCount) (h7 : a.ext = b.ext) (h8 : a.trace = b.trace) : a = b := by
  cases a
  cases b
  simp_all

theorem emitAll_ext (cs : List Call) (s : State ε) :
    (emitAll env cs s).ext = cs.foldl (fun e c => env.effect c e) s.ext := by
  induction cs generalizing s with
  | nil => rfl
  | cons c cs ih => rw [emitAll_cons, ih]; rfl

theorem mapState_all {α : Type} {P : State ε → Prop} {f : State ε → State ε}
    {o : Outcome ε α} : (o.mapState f).All P ↔ o.All fun s => P (f s) := by
  cases o <;> rfl

/-- The run of `addSimpleInput` once its `Tick` returned `res`. -/
theorem addSimpleInput_ticked (addInput : NodeId → Value → State ε → Outcome ε Unit)
    (fuel : Nat) (r : NodeId) (v : Value) (res : ETickResult) (s : State ε)
    (ht : env.tick r s.nextTurnId_ (admittedExt env s.nextTurnId_ r v s.ext) = some res) :
    addSimpleInput env addInput fuel r v s =
      (propagateIf env addInput (decide (res = ETickResult.pulsed)) (newTurn s)
          (simpleTicked env r v res s)).bind fun _ s5 =>
        postProcessTurn env addInput fuel (newTurn s) s5 := by
  have ht1 : env.tick r (newTurn s).id
      (Engine.OnTurnAdmissionEnd env (newTurn s) (emit env (.nodeAddInput r v)
        (Engine.OnTurnAdmissionStart env (newTurn s) (makeTurn env 0 s).2))).ext = some res := by
    rw [← ht]
    simp [Engine.OnTurnAdmissionEnd, Engine.OnTurnAdmissionStart, emit, makeTurn, nextTurnId,
      nextTurnIdAt_fst, admittedExt, newTurn]
  unfold addSimpleInput
  simp only [makeTurn_fst, ht1, propagateIf, simpleTicked]
  cases res <;> simp

/-- The input loop of a transaction whose closure adds the one input `(r, v)`,
opened in a state without transaction state, when the refused `TryMerge` left
the outside as it was. -/
theorem turnTicked_single (r : NodeId) (v : Value) (res : ETickResult) (s : State ε)
    (hq : Quiet s) (heff : env.effect (.tryMerge false) s.ext = s.ext)
    (ht : env.tick r s.nextTurnId_ (admittedExt env s.nextTurnId_ r v s.ext) = some res) :
    turnTickCalls env 0 [(r, v)] (emit env (.tryMerge false) s)
      = [.nodeTick r s.nextTurnId_ (some res)]
    ∧ turnTicked env 0 [(r, v)] (emit env (.tryMerge false) s)
      = prependTrace (s.trace ++
          [snap (.tryMerge false) s, snap (.turnCreate s.nextTurnId_ 0) s,
            Event.mk (.onTurnAdmissionStart s.nextTurnId_) true [],
            Event.mk (.nodeAddInput r v) true [],
            Event.mk (.onTurnAdmissionEnd s.nextTurnId_) true [r],
            Event.mk (.nodeTick r s.nextTurnId_ (some res)) false [r]])
          { simpleTicked env r v res s with trace := [] } := by
  have hin : s.transactionState_.inputs = [] := by rw [hq]
  have hext : (turnAdmitted env 0 [(r, v)] (emit env (.tryMerge false) s)).ext
      = admittedExt env s.nextTurnId_ r v s.ext := by
    simp [turnAdmitted, admissionStarted, enlistAll, addTransactionInput,
      Engine.OnTurnAdmissionEnd, Engine.OnTurnAdmissionStart, emit, makeTurn, nextTurnId,
      nextTurnIdAt_fst, newTurn, setActive, admittedExt, heff]
  have hcalls : turnTickCalls env 0 [(r, v)] (emit env (.tryMerge false) s)
      = [.nodeTick r s.nextTurnId_ (some res)] := by
    unfold turnTickCalls
    rw [turnAdmitted_transactionState, hext]
    have h1 : (emit env (.tryMerge false) s).transactionState_.inputs = [] := hin
    have h2 : (emit env (.tryMerge false) s).nextTurnId_ = s.nextTurnId_ := rfl
    simp only [h1, h2, List.map_cons, List.map_nil, List.nil_append, tickCalls, ht]
  refine ⟨hcalls, state_eq _ _ ?_ ?_ ?_ ?_ ?_ ?_ ?_ ?_⟩
  · simp [simpleTicked, prependTrace, Engine.OnTurnAdmissionEnd, Engine.OnTurnAdmissionStart,
      emit, makeTurn, nextTurnId]
  · simp [simpleTicked, prependTrace, Engine.OnTurnAdmissionEnd, Engine.OnTurnAdmissionStart,
      emit, makeTurn, nextTurnId]
  · rw [turnTicked_transactionState]
    simp [simpleTicked, prependTrace, Engine.OnTurnAdmissionEnd, Engine.OnTurnAdmissionStart,
      emit, makeTurn, nextTurnId, hq.symm]
  · simp [simpleTicked, prependTrace, Engine.OnTurnAdmissionEnd, Engine.OnTurnAdmissionStart,
      emit, makeTurn, nextTurnId]
  · simp [simpleTicked, prependTrace, Engine.OnTurnAdmissionEnd, Engine.OnTurnAdmissionStart,
      emit, makeTurn, nextTurnId, nextTurnIdAt_fst]
  · simp [simpleTicked, prependTrace, Engine.OnTurnAdmissionEnd, Engine.OnTurnAdmissionStart,
      emit, makeTurn, nextTurnId]
  · have h : (turnTicked env 0 [(r, v)] (emit env (.tryMerge false) s)).ext
        = env.effect (.nodeTick r s.nextTurnId_ (some res))
            (admittedExt env s.nextTurnId_ r v s.ext) := by
      show (emitAll env (turnTickCalls env 0 [(r, v)] (emit env (.tryMerge false) s))
        (turnAdmitted env 0 [(r, v)] (emit env (.tryMerge false) s))).ext = _
      rw [emitAll_ext, hcalls, hext]
      rfl
    rw [h]
    simp [simpleTicked, prependTrace, Engine.OnTurnAdmissionEnd, Engine.OnTurnAdmissionStart,
      emit, makeTurn, nextTurnId, nextTurnIdAt_fst, admittedExt, newTurn]
  · rw [turnTicked_trace, turnAdmitted_trace, hcalls]
    simp [prependTrace, inputEvents, emit, snap, hin]

theorem simpleTicked_eq (r : NodeId) (v : Value) (res : ETickResult) (s : State ε) :
    simpleTicked env r v res s
      = prependTrace (s.trace ++
          [snap (.turnCreate s.nextTurnId_ 0) s, snap (.onTurnAdmissionStart s.nextTurnId_) s,
            snap (.nodeAddInput r v) s, snap (.onTurnAdmissionEnd s.nextTurnId_) s,
            snap (.nodeTick r s.nextTurnId_ (some res)) s])
          { simpleTicked env r v res s with trace := [] } := by
  refine state_eq _ _ rfl rfl rfl rfl rfl rfl rfl ?_
  simp [simpleTicked, prependTrace, Engine.OnTurnAdmissionEnd, Engine.OnTurnAdmissionStart,
    emit, makeTurn, nextTurnId, nextTurnIdAt_fst, newTurn, snap]

theorem turn_rest_natural (pre : List Event) (fuel : Nat) (b : Bool) (turn : TurnRef)
    (s : State ε) :
    ((propagateIf env (AddInput env fuel) b turn (prependTrace pre s)).bind fun _ s5 =>
        postProcessTurn env (AddInput env fuel) fuel turn s5)
      = ((propagateIf env (AddInput env fuel) b turn s).bind fun _ s5 =>
          postProcessTurn env (AddInput env fuel) fuel turn s5).mapState (prependTrace pre) :=
  bind_natural
    (propagateIf_prependTrace pre _ (fun r v s1 => AddInput_prependTrace pre fuel r v s1) b turn s)
    fun _ s5 =>
      postProcessTurn_prependTrace pre _ (fun r v s1 => AddInput_prependTrace pre fuel r v s1)
        fuel turn s5

/-- The one-input path and the one-input transaction are the same rest of a
turn, run after different records. -/
theorem one_input_common (fuel : Nat) (r : NodeId) (v : Value) (res : ETickResult)
    (s : State ε) (hq : Quiet s) (hnull : s.continuationHolder_ = none)
    (hmerge : env.tryMerge [.addInput r v] s.ext = false)
    (heff : env.effect (.tryMerge false) s.ext = s.ext)
    (ht : env.tick r s.nextTurnId_ (admittedExt env s.nextTurnId_ r v s.ext) = some res) :
    ∃ o : Outcome ε Unit,
      addSimpleInput env (AddInput env fuel) fuel r v s
        = o.mapState (prependTrace (s.trace ++
            [snap (.turnCreate s.nextTurnId_ 0) s, snap (.onTurnAdmissionStart s.nextTurnId_) s,
              snap (.nodeAddInput r v) s, snap (.onTurnAdmissionEnd s.nextTurnId_) s,
              snap (.nodeTick r s.nextTurnId_ (some res)) s]))
      ∧ DoTransaction env fuel [.addInput r v] 0 s
        = o.mapState (prependTrace (s.trace ++
            [snap (.tryMerge false) s, snap (.turnCreate s.nextTurnId_ 0) s,
              Event.mk (.onTurnAdmissionStart s.nextTurnId_) true [],
              Event.mk (.nodeAddInput r v) true [],
              Event.mk (.onTurnAdmissionEnd s.nextTurnId_) true [r],
              Event.mk (.nodeTick r s.nextTurnId_ (some res)) false [r]]))
      ∧ (res = .idle → ∃ b, o = .returned () b ∧ b.trace = [])
      ∧ (res = .pulsed → o.All fun b =>
          ∃ evs, b.trace = Event.mk (.logTransactionBegin s.nextTurnId_) false []
            :: Event.mk (.onTurnPropagate s.nextTurnId_) false [] :: evs) := by
  obtain ⟨hcalls, hticked⟩ := turnTicked_single r v res s hq heff ht
  refine ⟨(propagateIf env (AddInput env fuel) (decide (res = ETickResult.pulsed)) (newTurn s)
      { simpleTicked env r v res s with trace := [] }).bind fun _ s5 =>
        postProcessTurn env (AddInput env fuel) fuel (newTurn s) s5, ?_, ?_, ?_, ?_⟩
  · rw [addSimpleInput_ticked _ fuel r v res s ht]
    exact (congrArg (fun x => (propagateIf env (AddInput env fuel)
        (decide (res = ETickResult.pulsed)) (newTurn s) x).bind fun _ s5 =>
          postProcessTurn env (AddInput env fuel) fuel (newTurn s) s5)
      (simpleTicked_eq r v res s)).trans (turn_rest_natural _ fuel _ _ _)
  · rw [DoTransaction_eq env fuel [.addInput r v] 0 s hmerge hnull]
    have hf : funcFails [UserCmd.addInput r v] = false := rfl
    have hi : funcInputs [UserCmd.addInput r v] = [(r, v)] := rfl
    have hn : newTurn (emit env (.tryMerge false) s) = newTurn s := rfl
    have hany : [Call.nodeTick r s.nextTurnId_ (some res)].any Call.isPulsed
        = decide (res = ETickResult.pulsed) := by
      cases res <;> rfl
    simp only [hf, hi, hn, hcalls, hticked, hany, List.any_cons, List.any_nil, Call.isThrow,
      Bool.or_false, Bool.false_eq_true, if_false]
    exact turn_rest_natural _ fuel _ _ _
  · intro hres
    subst hres
    refine ⟨{ simpleTicked env r v .idle s with trace := [] }, ?_, rfl⟩
    simp only [propagateIf, decide_eq_true_eq, reduceCtorEq, if_false, bind_returned]
    exact postProcessTurn_new env _ fuel _ _ s.nextTurnId_ 0 (by
      simp [simpleTicked, Engine.OnTurnAdmissionEnd, Engine.OnTurnAdmissionStart, emit, makeTurn,
        nextTurnId, nextTurnIdAt_fst, newTurn])
  · intro hres
    subst hres
    have hst : Stable env (Extends : State ε → State ε → Prop) := Extends.stable
    simp only [propagateIf, decide_True, if_true]
    refine (OnTurnPropagate_bind_trace env _ (hst.rel_AddInput fuel) (newTurn s)
      { simpleTicked env r v .pulsed s with trace := [] } _
      fun _ s1 => hst.rel_postProcessTurn _ (hst.rel_AddInput fuel) fuel _ s1).mono ?_
    rintro b ⟨evs, he⟩
    refine ⟨evs, ?_⟩
    rw [he]
    simp [snap, simpleTicked, Engine.OnTurnAdmissionEnd, Engine.OnTurnAdmissionStart, emit,
      makeTurn, nextTurnId, newTurn]
    constructor <;> rw [hq]

end one_input

/-- C11. The one-input path equals a one-input transaction. Take a state
without transaction state and with no current continuation, in which
`TryMerge` refuses the closure `{ AddInput(r, v) }` and leaves the outside as
it was, and let the `Tick` of the input return `res` (`idle` or `pulsed`).
Then `AddInput(r, v)` is `addSimpleInput(r, v)`, and `addSimpleInput(r, v)`
and `DoTransaction(func, 0)` with `func = { AddInput(r, v) }` end the same way
(both return, or both throw, or both use up the fuel) in states that agree on
the statics of the domain, the turn objects and the outside. Their calls are
the same, in the same order, but for the `TryMerge` call that only
`DoTransaction` makes: the construction of one turn with flags 0 and the next
turn id, `OnTurnAdmissionStart`, `node.AddInput(v)`, `OnTurnAdmissionEnd`,
`node.Tick`, then `rest`, which starts with the begin record and
`OnTurnPropagate` when the `Tick` pulsed, is empty when it did not (both runs
return then), and holds no `TryMerge` call. -/
theorem one_input_transaction {ε : Type} (env : Env ε) (fuel : Nat) (r : NodeId) (v : Value)
    (res : ETickResult) (s : State ε) (hq : Quiet s) (hnull : s.continuationHolder_ = none)
    (hmerge : env.tryMerge [.addInput r v] s.ext = false)
    (heff : env.effect (.tryMerge false) s.ext = s.ext)
    (ht : env.tick r s.nextTurnId_ (admittedExt env s.nextTurnId_ r v s.ext) = some res) :
    AddInput env (fuel + 1) r v s = addSimpleInput env (AddInput env fuel) fuel r v s
    ∧ (addSimpleInput env (AddInput env fuel) fuel r v s).Agree
        (fun s1 s2 => SameDomainState s1 s2
          ∧ ∃ rest,
            s1.calls = s.calls ++ ([.turnCreate s.nextTurnId_ 0,
                .onTurnAdmissionStart s.nextTurnId_, .nodeAddInput r v,
                .onTurnAdmissionEnd s.nextTurnId_, .nodeTick r s.nextTurnId_ (some res)] ++ rest)
            ∧ s2.calls = s.calls ++ (.tryMerge false :: [.turnCreate s.nextTurnId_ 0,
                .onTurnAdmissionStart s.nextTurnId_, .nodeAddInput r v,
                .onTurnAdmissionEnd s.nextTurnId_, .nodeTick r s.nextTurnId_ (some res)] ++ rest)
            ∧ (∀ c ∈ rest, ∀ b, c ≠ .tryMerge b)
            ∧ (res = .pulsed → ∃ rest1, rest = .logTransactionBegin s.nextTurnId_
                :: .onTurnPropagate s.nextTurnId_ :: rest1)
            ∧ (res = .idle → rest = []))
        (DoTransaction env fuel [.addInput r v] 0 s)
    ∧ (res = .idle → ∃ s1 s2,
        addSimpleInput env (AddInput env fuel) fuel r v s = .returned () s1
        ∧ DoTransaction env fuel [.addInput r v] 0 s = .returned () s2) := by
  have hact : s.transactionState_.active = false := by rw [hq]
  have hd : AddInput env (fuel + 1) r v s
      = addSimpleInput env (AddInput env fuel) fuel r v s := by
    rw [AddInput]
    simp [hnull, hact]
  obtain ⟨o, hS, hD, hidle, hpulsed⟩ := one_input_common fuel r v res s hq hnull
    hmerge heff ht
  have hset : (addSimpleInput env (AddInput env fuel) fuel r v s).Settles s :=
    settles_addSimpleInput (AddInput env fuel)
    (fun s0 r1 v1 s1 h1 => settles_AddInput fuel s0 r1 v1 s1 h1) fuel r v s (settled_refl hq)
  rw [hS] at hset
  have aux : ∀ b : State ε,
      Follows s (prependTrace (s.trace ++
        [snap (.turnCreate s.nextTurnId_ 0) s, snap (.onTurnAdmissionStart s.nextTurnId_) s,
          snap (.nodeAddInput r v) s, snap (.onTurnAdmissionEnd s.nextTurnId_) s,
          snap (.nodeTick r s.nextTurnId_ (some res)) s]) b) →
      (res = .pulsed → ∃ evs, b.trace = Event.mk (.logTransactionBegin s.nextTurnId_) false []
        :: Event.mk (.onTurnPropagate s.nextTurnId_) false [] :: evs) →
      (res = .idle → b.trace = []) →
      ∃ rest,
        (prependTrace (s.trace ++
          [snap (.turnCreate s.nextTurnId_ 0) s, snap (.onTurnAdmissionStart s.nextTurnId_) s,
            snap (.nodeAddInput r v) s, snap (.onTurnAdmissionEnd s.nextTurnId_) s,
            snap (.nodeTick r s.nextTurnId_ (some res)) s]) b).calls
          = s.calls ++ ([.turnCreate s.nextTurnId_ 0,
              .onTurnAdmissionStart s.nextTurnId_, .nodeAddInput r v,
              .onTurnAdmissionEnd s.nextTurnId_, .nodeTick r s.nextTurnId_ (some res)] ++ rest)
        ∧ (prependTrace (s.trace ++
          [snap (.tryMerge false) s, snap (.turnCreate s.nextTurnId_ 0) s,
            Event.mk (.onTurnAdmissionStart s.nextTurnId_) true [],
            Event.mk (.nodeAddInput r v) true [],
            Event.mk (.onTurnAdmissionEnd s.nextTurnId_) true [r],
            Event.mk (.nodeTick r s.nextTurnId_ (some res)) false [r]]) b).calls
          = s.calls ++ (.tryMerge false :: [.turnCreate s.nextTurnId_ 0,
              .onTurnAdmissionStart s.nextTurnId_, .nodeAddInput r v,
              .onTurnAdmissionEnd s.nextTurnId_, .nodeTick r s.nextTurnId_ (some res)] ++ rest)
        ∧ (∀ c ∈ rest, ∀ b, c ≠ .tryMerge b)
        ∧ (res = .pulsed → ∃ rest1, rest = .logTransactionBegin s.nextTurnId_
            :: .onTurnPropagate s.nextTurnId_ :: rest1)
        ∧ (res = .idle → rest = []) := by
    rintro b ⟨evs, hev, hreg⟩ hp hi
    refine ⟨b.trace.map Event.call, by simp [State.calls, snap], by simp [State.calls, snap],
      ?_, ?_, ?_⟩
    · intro c hc m
      obtain ⟨e, he, rfl⟩ := List.mem_map.1 hc
      refine regular_not_merge e (hreg e ?_) m
      have h1 : evs = [snap (.turnCreate s.nextTurnId_ 0) s,
          snap (.onTurnAdmissionStart s.nextTurnId_) s, snap (.nodeAddInput r v) s,
          snap (.onTurnAdmissionEnd s.nextTurnId_) s,
          snap (.nodeTick r s.nextTurnId_ (some res)) s] ++ b.trace := by
        rw [prependTrace_trace, List.append_assoc] at hev
        exact (List.append_cancel_left hev).symm
      rw [h1]
      exact List.mem_append_right _ he
    · intro hres
      obtain ⟨evs1, h1⟩ := hp hres
      exact ⟨evs1.map Event.call, by rw [h1]; rfl⟩
    · intro hres
      rw [hi hres]
      rfl
  refine ⟨hd, ?_, ?_⟩
  · rw [hS, hD]
    cases o with
    | returned u b =>
      refine ⟨⟨rfl, rfl, rfl, rfl, rfl, rfl, rfl⟩, aux b hset.1 (fun hres => hpulsed hres) ?_⟩
      intro hres
      obtain ⟨b1, hb1, hb2⟩ := hidle hres
      cases hb1
      exact hb2
    | threw b =>
      refine ⟨⟨rfl, rfl, rfl, rfl, rfl, rfl, rfl⟩, aux b hset (fun hres => hpulsed hres) ?_⟩
      intro hres
      obtain ⟨b1, hb1, -⟩ := hidle hres
      cases hb1
    | outOfFuel => trivial
  · intro hres
    obtain ⟨b1, hb1, -⟩ := hidle hres
    rw [hS, hD, hb1]
    exact ⟨_, _, rfl, rfl⟩

theorem one_input_transaction_witness :
    Quiet (State.init ())
    ∧ (sampleEnv false).tryMerge [.addInput 1 2] (State.init ()).ext = false
    ∧ (∃ s1, addSimpleInput (sampleEnv false) (AddInput (sampleEnv false) 3) 3 1 2 (State.init ())
          = .returned () s1
        ∧ s1.calls = [.turnCreate 0 0, .onTurnAdmissionStart 0, .nodeAddInput 1 2,
            .onTurnAdmissionEnd 0, .nodeTick 1 0 (some .pulsed), .logTransactionBegin 0,
            .onTurnPropagate 0, .logTransactionEnd 0, .unregister 3, .turnCreate 1 0,
            .onTurnAdmissionStart 1, .nodeAddInput 7 5, .onTurnAdmissionEnd 1,
            .nodeTick 7 1 (some .pulsed), .logTransactionBegin 1, .onTurnPropagate 1,
            .logTransactionEnd 1])
    ∧ (addSimpleInput (sampleEnv false) (AddInput (sampleEnv false) 3) 3 1 2
        (State.init ())).Agree
        (fun s1 s2 => SameDomainState s1 s2
          ∧ ∃ rest,
            s1.calls = (State.init ()).calls ++ ([.turnCreate (State.init ()).nextTurnId_ 0,
                .onTurnAdmissionStart (State.init ()).nextTurnId_, .nodeAddInput 1 2,
                .onTurnAdmissionEnd (State.init ()).nextTurnId_,
                .nodeTick 1 (State.init ()).nextTurnId_ (some .pulsed)] ++ rest)
            ∧ s2.calls = (State.init ()).calls ++ (.tryMerge false
                :: [.turnCreate (State.init ()).nextTurnId_ 0,
                .onTurnAdmissionStart (State.init ()).nextTurnId_, .nodeAddInput 1 2,
                .onTurnAdmissionEnd (State.init ()).nextTurnId_,
                .nodeTick 1 (State.init ()).nextTurnId_ (some .pulsed)] ++ rest)
            ∧ (∀ c ∈ rest, ∀ b, c ≠ .tryMerge b)
            ∧ (ETickResult.pulsed = .pulsed → ∃ rest1,
                rest = .logTransactionBegin (State.init ()).nextTurnId_
                  :: .onTurnPropagate (State.init ()).nextTurnId_ :: rest1)
            ∧ (ETickResult.pulsed = .idle → rest = []))
        (DoTransaction (sampleEnv false) 3 [.addInput 1 2] 0 (State.init ())) :=
  ⟨rfl, rfl, ⟨_, rfl, rfl⟩,
    (one_input_transaction (sampleEnv false) 3 1 2 .pulsed (State.init ()) rfl rfl rfl rfl
      rfl).2.1⟩

/-! ## User code that adds an input with no current continuation -/

/-- C2, as stated, fails. No user code fails in this run and the merge is
refused, yet `active` is set while `Engine::OnTurnPropagate` of the turn of
`DoTransaction` (id 0) is running: user code of that propagation calls
`AddInput(7, 5)` with the continuation pointer null, which opens the nested turn
1; the propagation of turn 1 buffers an input, and the follow-up turn 2 of turn
1 is admitted, with `active` set, before the end record of turn 0. -/
theorem active_set_during_propagation :
    nestingEnv.tryMerge [.addInput 1 2] (State.init ()).ext = false
    ∧ funcFails [.addInput 1 2] = false
    ∧ ∃ s1, DoTransaction nestingEnv 3 [.addInput 1 2] 0 (State.init ()) = .returned () s1
      ∧ s1.trace =
        [Event.mk (.tryMerge false) false [], Event.mk (.turnCreate 0 0) false [],
         Event.mk (.onTurnAdmissionStart 0) true [], Event.mk (.nodeAddInput 1 2) true [],
         Event.mk (.onTurnAdmissionEnd 0) true [1],
         Event.mk (.nodeTick 1 0 (some .pulsed)) false [1],
         Event.mk (.logTransactionBegin 0) false []]
        ++ Event.mk (.onTurnPropagate 0) false []
        :: [Event.mk (.turnCreate 1 0) false [], Event.mk (.onTurnAdmissionStart 1) false [],
            Event.mk (.nodeAddInput 7 5) false [], Event.mk (.onTurnAdmissionEnd 1) false [],
            Event.mk (.nodeTick 7 1 (some .pulsed)) false [],
            Event.mk (.logTransactionBegin 1) false [], Event.mk (.onTurnPropagate 1) false [],
            Event.mk (.logTransactionEnd 1) false [], Event.mk (.unregister 3) false [],
            Event.mk (.turnCreate 2 0) false [], Event.mk (.onTurnAdmissionStart 2) true [],
            Event.mk (.nodeAddInput 8 1) true [], Event.mk (.onTurnAdmissionEnd 2) true [8],
            Event.mk (.nodeTick 8 2 (some .pulsed)) false [8],
            Event.mk (.logTransactionBegin 2) false [], Event.mk (.onTurnPropagate 2) false [],
            Event.mk (.logTransactionEnd 2) false []]
        ++ [Event.mk (.logTransactionEnd 0) false []] :=
  ⟨rfl, rfl, _, rfl, rfl⟩

/-- C7, as stated, fails. The domain calls `Unregister` during the propagation
of a turn: user code of the propagation of turn 0 calls `AddInput(7, 5)` with
the continuation pointer null, which opens the nested turn 1; the propagation of
turn 1 detaches observer 3, and the post-processing of turn 1 unregisters it
after the engine's `OnTurnPropagate(0)` was called and before the end record of
turn 0. -/
theorem unregister_during_propagation :
    ∃ s1, DoTransaction nestingEnv 3 [.addInput 1 2] 0 (State.init ()) = .returned () s1
      ∧ s1.calls =
        [.tryMerge false, .turnCreate 0 0, .onTurnAdmissionStart 0, .nodeAddInput 1 2,
         .onTurnAdmissionEnd 0, .nodeTick 1 0 (some .pulsed), .logTransactionBegin 0]
        ++ .onTurnPropagate 0
        :: [.turnCreate 1 0, .onTurnAdmissionStart 1, .nodeAddInput 7 5, .onTurnAdmissionEnd 1,
            .nodeTick 7 1 (some .pulsed), .logTransactionBegin 1, .onTurnPropagate 1,
            .logTransactionEnd 1]
        ++ .unregister 3
        :: [.turnCreate 2 0, .onTurnAdmissionStart 2, .nodeAddInput 8 1, .onTurnAdmissionEnd 2,
            .nodeTick 8 2 (some .pulsed), .logTransactionBegin 2, .onTurnPropagate 2,
            .logTransactionEnd 2]
        ++ [.logTransactionEnd 0]
      ∧ (s1.turns 0).detachedObservers_ = []
      ∧ (s1.turns 1).detachedObservers_ = [3] :=
  ⟨_, rfl, rfl, rfl, rfl⟩

/-- C17, as stated, fails. Turn 0 is in its propagation (after
`OnTurnAdmissionEnd`, `active` clear) when user code calls `AddInput(7, 5)`; the
header has not set the continuation pointer, so the input is not buffered: the
call opens turn 1 and calls `node.AddInput(5)` on node 7 at once, before the
end record and the post-processing of turn 0. Nothing is added to the
continuation of turn 0, and three turn ids are taken. -/
theorem nested_input_not_buffered :
    ∃ s1, DoTransaction nestingEnv 3 [.addInput 1 2] 0 (State.init ()) = .returned () s1
      ∧ s1.calls =
        [.tryMerge false, .turnCreate 0 0, .onTurnAdmissionStart 0, .nodeAddInput 1 2,
         .onTurnAdmissionEnd 0, .nodeTick 1 0 (some .pulsed), .logTransactionBegin 0,
         .onTurnPropagate 0]
        ++ .turnCreate 1 0 :: .onTurnAdmissionStart 1 :: .nodeAddInput 7 5
        :: [.onTurnAdmissionEnd 1, .nodeTick 7 1 (some .pulsed), .logTransactionBegin 1,
            .onTurnPropagate 1, .logTransactionEnd 1, .unregister 3, .turnCreate 2 0,
            .onTurnAdmissionStart 2, .nodeAddInput 8 1, .onTurnAdmissionEnd 2,
            .nodeTick 8 2 (some .pulsed), .logTransactionBegin 2, .onTurnPropagate 2,
            .logTransactionEnd 2]
        ++ [.logTransactionEnd 0]
      ∧ (s1.turns 0).continuation_ = ContinuationInput.empty
      ∧ s1.nextTurnId_ = 3 :=
  ⟨_, rfl, rfl, rfl, rfl⟩

/-! ## The phases of a transaction -/

/-- C2, amended. Phase order of `DoTransaction`: when `TryMerge` returns false,
`func` does not throw and no `Tick` throws, the run makes exactly these calls, in
this order: `TryMerge`, the construction of one turn with the given flags (one id
taken from the counter), `OnTurnAdmissionStart` for it with `active` already
set, the calls of `func` (all with `active` set), `OnTurnAdmissionEnd` with
`active` still set, the input `Tick`s with `active` cleared; then
`Engine::OnTurnPropagate` for the same turn if an input pulsed (called with
`active` cleared and no input enlisted), and then `postProcessTurn` for the same
turn. When `Engine::OnTurnPropagate` returns, `active` is clear and no input is
enlisted again. With an engine that has the current continuation set while user
code adds inputs (so that no nested turn is opened), the propagation records
only the begin record, the engine call and (on return) the end record, all
with `active` clear, and leaves `transactionState_` as it was. -/
theorem DoTransaction_phase_order {ε : Type} (env : Env ε) (htot : TotalTicks env) (fuel : Nat)
    (func : List UserCmd) (flags : TurnFlagsT) (s : State ε)
    (hmerge : env.tryMerge func s.ext = false) (hfunc : funcFails func = false) :
    ∃ (funcEvs : List Event) (enlisted : List NodeId) (ticks : List Call) (s7 : State ε),
      (∀ e ∈ funcEvs, e.active = true ∧ ∃ r v, e.call = .nodeAddInput r v)
      ∧ (s.continuationHolder_ = none →
          funcEvs.map Event.call = (funcInputs func).map fun p => Call.nodeAddInput p.1 p.2)
      ∧ (∀ c ∈ ticks, ∃ p res, c = .nodeTick p s.nextTurnId_ (some res))
      ∧ ticks.map Call.tickNode = enlisted.map some
      ∧ s7.trace = s.trace
          ++ [snap (.tryMerge false) s, snap (.turnCreate s.nextTurnId_ flags) s,
              { call := .onTurnAdmissionStart s.nextTurnId_, active := true,
                inputs := s.transactionState_.inputs }]
          ++ funcEvs
          ++ [{ call := .onTurnAdmissionEnd s.nextTurnId_, active := true, inputs := enlisted }]
          ++ ticks.map (fun c => { call := c, active := false, inputs := enlisted })
      ∧ s7.transactionState_ = { active := false, inputs := [] }
      ∧ s7.nextTurnId_ = (nextTurnIdAt s.nextTurnId_).2
      ∧ s7.turnCount = s.turnCount + 1
      ∧ DoTransaction env fuel func flags s =
          ((if ticks.any Call.isPulsed then
              Engine.OnTurnPropagate env (AddInput env fuel)
                { addr := s.turnCount, id := s.nextTurnId_ } s7
            else .returned () s7).bind fun _ s8 =>
            postProcessTurn env (AddInput env fuel) fuel
              { addr := s.turnCount, id := s.nextTurnId_ } s8)
      ∧ (ticks.any Call.isPulsed = true →
          (DoTransaction env fuel func flags s).All fun s9 =>
            ∃ evs, s9.trace = s7.trace
              ++ { call := .logTransactionBegin s.nextTurnId_, active := false, inputs := [] }
              :: { call := .onTurnPropagate s.nextTurnId_, active := false, inputs := [] }
              :: evs)
      ∧ (∀ s8, Engine.OnTurnPropagate env (AddInput env fuel)
            { addr := s.turnCount, id := s.nextTurnId_ } s7 = .returned () s8 →
          s8.transactionState_ = { active := false, inputs := [] })
      ∧ (EngineBuffers env →
          ∃ s8, Engine.OnTurnPropagate env (AddInput env fuel)
              { addr := s.turnCount, id := s.nextTurnId_ } s7
              = (if scriptFails (propagationScript env
                    { addr := s.turnCount, id := s.nextTurnId_ } s7) then .threw s8
                 else .returned () s8)
            ∧ s8.trace = s7.trace
                ++ [{ call := .logTransactionBegin s.nextTurnId_, active := false, inputs := [] },
                    { call := .onTurnPropagate s.nextTurnId_, active := false, inputs := [] }]
                ++ (if scriptFails (propagationScript env
                      { addr := s.turnCount, id := s.nextTurnId_ } s7) then []
                    else [{ call := .logTransactionEnd s.nextTurnId_, active := false,
                            inputs := [] }])
            ∧ s8.transactionState_ = { active := false, inputs := [] }) := by
  obtain ⟨funcEvs, enlisted, ticks, s7, h1, h2, h3, h4, h5, h6, h7, h8, -, -, h11⟩ :=
    DoTransaction_run env htot fuel func flags s hmerge hfunc
  refine ⟨funcEvs, enlisted, ticks, s7, h1, ?_, h3, h4, h5, h6, h7, h8, h11, ?_, ?_, ?_⟩
  · intro hn
    rw [(h2 hn).1, inputEvents_calls]
  · intro hp
    rw [h11]
    simp only [propagateIf, hp, if_true]
    have h := OnTurnPropagate_bind_trace env (AddInput env fuel)
      (Extends.stable.rel_AddInput fuel) { addr := s.turnCount, id := s.nextTurnId_ } s7
      (fun _ s8 => postProcessTurn env (AddInput env fuel) fuel
        { addr := s.turnCount, id := s.nextTurnId_ } s8)
      (fun _ s8 => Extends.stable.rel_postProcessTurn _ (Extends.stable.rel_AddInput fuel) fuel _ s8)
    simpa [snap, h6] using h
  · intro s8 h8r
    have hs : (Engine.OnTurnPropagate env (AddInput env fuel)
        { addr := s.turnCount, id := s.nextTurnId_ } s7).Settles s7 :=
      settles_OnTurnPropagate (AddInput env fuel)
        (fun s0 r v s1 hs1 => settles_AddInput fuel s0 r v s1 hs1)
        { addr := s.turnCount, id := s.nextTurnId_ } s7 (settled_refl h6)
    rw [h8r] at hs
    exact hs.2
  · intro hbuf
    obtain ⟨s8, e1, e2, e3, -⟩ := OnTurnPropagate_buffers env hbuf fuel
      { addr := s.turnCount, id := s.nextTurnId_ } s7
    refine ⟨s8, e1, ?_, by rw [e3, h6]⟩
    rw [e2]
    simp [snap, h6]

/-- A transaction with two inputs in the initial state. -/
theorem DoTransaction_phase_order_witness :
    TotalTicks (sampleEnv false)
    ∧ (sampleEnv false).tryMerge [.addInput 1 10, .addInput 2 20] () = false
    ∧ funcFails [.addInput 1 10, .addInput 2 20] = false
    ∧ ∃ (funcEvs : List Event) (enlisted : List NodeId) (ticks : List Call) (s7 : State Unit),
        (∀ e ∈ funcEvs, e.active = true ∧ ∃ r v, e.call = .nodeAddInput r v)
        ∧ s7.trace = []
          ++ [snap (.tryMerge false) (State.init ()), snap (.turnCreate 0 1) (State.init ()),
              { call := .onTurnAdmissionStart 0, active := true, inputs := [] }]
          ++ funcEvs
          ++ [{ call := .onTurnAdmissionEnd 0, active := true, inputs := enlisted }]
          ++ ticks.map (fun c => { call := c, active := false, inputs := enlisted })
        ∧ DoTransaction (sampleEnv false) 2 [.addInput 1 10, .addInput 2 20] 1 (State.init ()) =
          ((if ticks.any Call.isPulsed then
              Engine.OnTurnPropagate (sampleEnv false) (AddInput (sampleEnv false) 2)
                { addr := 0, id := 0 } s7
            else .returned () s7).bind fun _ s8 =>
            postProcessTurn (sampleEnv false) (AddInput (sampleEnv false) 2) 2
              { addr := 0, id := 0 } s8) :=
  ⟨sampleEnv_total false, rfl, rfl,
    match DoTransaction_phase_order (sampleEnv false) (sampleEnv_total false) 2
      [.addInput 1 10, .addInput 2 20] 1 (State.init ()) rfl rfl with
    | ⟨funcEvs, enlisted, ticks, s7, h1, _, _, _, h5, _, _, _, h9, _⟩ =>
      ⟨funcEvs, enlisted, ticks, s7, h1, h5, h9⟩⟩

/-! ## Inputs of user code while a turn is ticking or propagating -/

/-- Whatever a relation respected by every step says, it says of the rest of
`addSimpleInput` from its `node.AddInput` call on. -/
theorem addSimpleInput_from_input {ε : Type} {env : Env ε} {R : State ε → State ε → Prop}
    (hR : Stable env R) (addInput : NodeId → Value → State ε → Outcome ε Unit)
    (hadd : ∀ r v s, (addInput r v s).All (R s)) (fuel : Nat) (r : NodeId) (v : Value)
    (s : State ε) :
    (addSimpleInput env addInput fuel r v s).All
      (R (emit env (.nodeAddInput r v)
        (Engine.OnTurnAdmissionStart env (makeTurn env 0 s).1 (makeTurn env 0 s).2))) := by
  have h3 : R (emit env (.nodeAddInput r v)
        (Engine.OnTurnAdmissionStart env (makeTurn env 0 s).1 (makeTurn env 0 s).2))
      (Engine.OnTurnAdmissionEnd env (makeTurn env 0 s).1
        (emit env (.nodeAddInput r v)
          (Engine.OnTurnAdmissionStart env (makeTurn env 0 s).1 (makeTurn env 0 s).2))) :=
    hR.step_emit _ _
  unfold addSimpleInput
  simp only
  split
  · exact hR.trans _ _ _ h3 (hR.step_emit _ _)
  · rename_i res _
    refine hR.afterAt (emit env (.nodeTick r (makeTurn env 0 s).1.id (some res))
      (Engine.OnTurnAdmissionEnd env (makeTurn env 0 s).1
        (emit env (.nodeAddInput r v)
          (Engine.OnTurnAdmissionStart env (makeTurn env 0 s).1 (makeTurn env 0 s).2))))
      (hR.trans _ _ _ h3 (hR.step_emit _ _)) ?_
    refine hR.bind_rel ?_ fun _ s5 => hR.rel_postProcessTurn addInput hadd fuel _ s5
    split
    · exact hR.rel_OnTurnPropagate addInput hadd _ _
    · exact hR.refl _

/-- C17, amended. Inputs of user code while a turn is ticking or propagating.
(0) In every state of the input loop of a turn (Ticking) and in the state in
which its propagation starts (Propagating), `active` is clear and the continuation
pointer is what it was when the turn was opened: the header does not set it.
What `AddInput` does in these states depends on the pointer alone. (1) Called
while the current continuation is that of `turn`, `AddInput` returns at once: it
records no call (so no `node.AddInput`), takes no turn id, makes no turn object,
leaves `transactionState_` alone and adds its closure to the continuation of
`turn`. (2) Called with the pointer null and `active` clear, `AddInput` is
`addSimpleInput`: it constructs a new turn with the next id and calls
`OnTurnAdmissionStart` and `node.AddInput` at once. (3) With an engine that has
the current continuation set while user code adds inputs,
`Engine::OnTurnPropagate(turn)` ends, by a return or by the failure of user code,
having recorded only the begin record, the engine call and (on return) the end
record; no turn id is taken, no turn object made, and the inputs of the user
code are in the continuation of `turn`, in the order of the calls. (4)
Post-processing of a turn with buffered inputs first unregisters the detached
observers and only then constructs the follow-up turn, in whose admission the
`node.AddInput` calls for the buffered inputs are made. -/
theorem propagation_inputs_buffered {ε : Type} (env : Env ε) (fuel : Nat) (turn : TurnRef)
    (s : State ε) :
    (∀ (flags : TurnFlagsT) (rvs : List (NodeId × Value)) (cs : List Call),
      (emitAll env cs (turnAdmitted env flags rvs s)).transactionState_.active = false
      ∧ (emitAll env cs (turnAdmitted env flags rvs s)).continuationHolder_
          = s.continuationHolder_
      ∧ (turnTicked env flags rvs s).transactionState_.active = false
      ∧ (turnTicked env flags rvs s).continuationHolder_ = s.continuationHolder_)
    ∧ (∀ r v, s.continuationHolder_ = some turn.addr →
      AddInput env fuel r v s = .returned () (addContinuationInput r v s)
      ∧ (addContinuationInput r v s).trace = s.trace
      ∧ (addContinuationInput r v s).nextTurnId_ = s.nextTurnId_
      ∧ (addContinuationInput r v s).turnCount = s.turnCount
      ∧ (addContinuationInput r v s).transactionState_ = s.transactionState_
      ∧ ((addContinuationInput r v s).turns turn.addr).continuation_
          = (s.turns turn.addr).continuation_.Add { r := r, v := v })
    ∧ (∀ r v, s.continuationHolder_ = none → s.transactionState_.active = false →
      AddInput env (fuel + 1) r v s = addSimpleInput env (AddInput env fuel) fuel r v s
      ∧ (AddInput env (fuel + 1) r v s).All fun s1 =>
          ∃ evs, s1.trace = s.trace ++ snap (.turnCreate s.nextTurnId_ 0) s
            :: snap (.onTurnAdmissionStart s.nextTurnId_) s
            :: snap (.nodeAddInput r v) s :: evs)
    ∧ (EngineBuffers env →
      ∃ s1, Engine.OnTurnPropagate env (AddInput env fuel) turn s
          = (if scriptFails (propagationScript env turn s) then .threw s1 else .returned () s1)
        ∧ s1.trace = s.trace
            ++ [snap (.logTransactionBegin turn.id) s, snap (.onTurnPropagate turn.id) s]
            ++ (if scriptFails (propagationScript env turn s) then []
                else [snap (.logTransactionEnd turn.id) s])
        ∧ s1.transactionState_ = s.transactionState_
        ∧ s1.nextTurnId_ = s.nextTurnId_ ∧ s1.turnCount = s.turnCount
        ∧ (s1.turns turn.addr).continuation_
            = ContinuationInput.addAll
                (inputClosures (scriptInputs (propagationScript env turn s)))
                (s.turns turn.addr).continuation_)
    ∧ ((s.turns turn.addr).continuation_.IsEmpty = false →
      (postProcessTurn env (AddInput env fuel) fuel turn s).All fun s1 =>
        ∃ evs, s1.trace = s.trace
          ++ (s.turns turn.addr).detachedObservers_.map (fun o => snap (.unregister o) s)
          ++ [snap (.turnCreate s.nextTurnId_ 0) s,
              Event.mk (.onTurnAdmissionStart s.nextTurnId_) true s.transactionState_.inputs]
          ++ inputEvents true s.transactionState_.inputs
              (closureInputs (s.turns turn.addr).continuation_)
          ++ [Event.mk (.onTurnAdmissionEnd s.nextTurnId_) true
                (s.transactionState_.inputs
                  ++ (closureInputs (s.turns turn.addr).continuation_).map Prod.fst)]
          ++ evs) := by
  refine ⟨fun flags rvs cs => ⟨by simp, by simp, by simp, by simp⟩, fun r v hset => ?_,
    fun r v hnull hact => ?_, fun hbuf => ?_,
    fun hne => postProcessTurn_follow_up env fuel fuel turn s hne⟩
  · have hC : addContinuationInput r v s
        = updateTurn turn.addr
            (fun t => { t with continuation_ := t.continuation_.Add { r := r, v := v } }) s := by
      unfold addContinuationInput; rw [hset]
    refine ⟨by unfold AddInput; simp [hset], ?_, ?_, ?_, ?_, ?_⟩
    · rw [hC]; rfl
    · rw [hC]; rfl
    · rw [hC]; rfl
    · rw [hC]; rfl
    · rw [hC]; simp [updateTurn]
  · have hst : Stable env (Extends : State ε → State ε → Prop) := Extends.stable
    have hd : AddInput env (fuel + 1) r v s
        = addSimpleInput env (AddInput env fuel) fuel r v s := by
      rw [AddInput]
      simp [hnull, hact]
    refine ⟨hd, ?_⟩
    rw [hd]
    refine (addSimpleInput_from_input hst _ (hst.rel_AddInput fuel) fuel r v s).mono ?_
    rintro s1 ⟨evs, he⟩
    refine ⟨evs, ?_⟩
    rw [he]
    simp [Engine.OnTurnAdmissionStart, emit, makeTurn, nextTurnId, nextTurnIdAt_fst, snap]
  · obtain ⟨s1, h1, h2, h3, h4, h5, -, h7, -⟩ := OnTurnPropagate_buffers env hbuf fuel turn s
    exact ⟨s1, h1, h2, h3, h4, h5, h7⟩

theorem propagation_inputs_buffered_witness :
    ((State.init ()).continuationHolder_ = none
      ∧ (State.init ()).transactionState_.active = false
      ∧ AddInput (sampleEnv false) (2 + 1) 7 5 (State.init ())
          = addSimpleInput (sampleEnv false) (AddInput (sampleEnv false) 2) 2 7 5 (State.init ()))
    ∧ EngineBuffers (sampleEnv false)
    ∧ ∃ s1, Engine.OnTurnPropagate (sampleEnv false) (AddInput (sampleEnv false) 2)
          { addr := 0, id := 0 } (State.init ())
          = (if scriptFails (propagationScript (sampleEnv false) { addr := 0, id := 0 }
                (State.init ())) then .threw s1 else .returned () s1)
        ∧ s1.trace = (State.init ()).trace
            ++ [snap (.logTransactionBegin 0) (State.init ()),
                snap (.onTurnPropagate 0) (State.init ())]
            ++ (if scriptFails (propagationScript (sampleEnv false) { addr := 0, id := 0 }
                  (State.init ())) then []
                else [snap (.logTransactionEnd 0) (State.init ())])
        ∧ s1.transactionState_ = (State.init ()).transactionState_
        ∧ s1.nextTurnId_ = (State.init ()).nextTurnId_
        ∧ s1.turnCount = (State.init ()).turnCount
        ∧ (s1.turns 0).continuation_
            = ContinuationInput.addAll
                (inputClosures (scriptInputs (propagationScript (sampleEnv false)
                  { addr := 0, id := 0 } (State.init ()))))
                ((State.init ()).turns 0).continuation_ :=
  ⟨⟨rfl, rfl,
      ((propagation_inputs_buffered (sampleEnv false) 2 { addr := 0, id := 0 }
        (State.init ())).2.2.1 7 5 rfl rfl).1⟩,
    sampleEnv_buffers false,
    (propagation_inputs_buffered (sampleEnv false) 2 { addr := 0, id := 0 }
      (State.init ())).2.2.2.1 (sampleEnv_buffers false)⟩

end React
